import Mathlib

/-!
go_mgt_api: the HTTP client for the Moscow transport API.

A shallow embedding of `api/client.go` and `api/model.go`.

* Go values: a `byte` is a natural number below 256, a `string` or `[]byte`
  is a list of bytes, an `int` is an integer (64 bits wide where a range
  matters), an `error` is its message, a function with two results returns a
  pair, and a nil pointer or nil slice of structures is `none`.
* The network (`http.NewRequest`, `(*http.Client).Do`, `io.ReadAll`) is an
  explicit parameter `World`; every request handed to it and every line
  printed is recorded in `Effects`.
* `http.NewRequest` reads the URL string with `url.Parse`; the scheme, the
  path, the query and the fragment it makes of the string are written out
  (`parseURL`), the authority is kept as text.
* `json.Unmarshal` is called by the client on the response body; its
  behaviour on the three structures of `model.go` is written out below
  (`parseJSON`, `decodeStopData`, `Unmarshal`).
-/

namespace MgtApi

/-! ## Bytes and strings -/

/-- A Go `string` (and a `[]byte`): a sequence of bytes, each a natural number
below 256, not necessarily UTF-8. -/
abbrev GoString := List Nat

/-- The Unicode replacement character `utf8.RuneError`. -/
def runeError : Nat := 0xFFFD

/-- Model of `utf8.EncodeRune`: the UTF-8 bytes of a rune; surrogates and
values above U+10FFFF are written as U+FFFD. -/
def encodeRune (r : Nat) : List Nat :=
  if r ≤ 0x7F then [r]
  else if r ≤ 0x7FF then [0xC0 + r / 64, 0x80 + r % 64]
  else if 0x10FFFF < r ∨ (0xD800 ≤ r ∧ r ≤ 0xDFFF) then [0xEF, 0xBF, 0xBD]
  else if r ≤ 0xFFFF then [0xE0 + r / 4096, 0x80 + r / 64 % 64, 0x80 + r % 64]
  else [0xF0 + r / 262144, 0x80 + r / 4096 % 64, 0x80 + r / 64 % 64, 0x80 + r % 64]

/-- The UTF-8 bytes of a list of characters. -/
def bytesOfChars : List Char → GoString
  | [] => []
  | c :: cs => encodeRune c.toNat ++ bytesOfChars cs

/-- The Go string denoted by a string literal of the source. -/
def bytesOf (s : String) : GoString := bytesOfChars s.data

/-- A continuation byte `10xxxxxx`. -/
def isCont (b : Nat) : Bool := decide (0x80 ≤ b ∧ b ≤ 0xBF)

/-- Model of `utf8.DecodeRune`: the first rune of the input and its width in
bytes; an encoding that is invalid or cut short gives `(runeError, 1)`, and
the empty input `(runeError, 0)`. The masks and shifts of the source are
written with `%` and `*`. -/
def decodeRune : List Nat → Nat × Nat
  | [] => (runeError, 0)
  | p0 :: rest =>
    if p0 < 0x80 then (p0, 1)
    else if p0 < 0xC2 ∨ 0xF4 < p0 then (runeError, 1)
    else if p0 < 0xE0 then
      match rest with
      | b1 :: _ =>
        if isCont b1 then (p0 % 32 * 64 + b1 % 64, 2) else (runeError, 1)
      | _ => (runeError, 1)
    else if p0 < 0xF0 then
      match rest with
      | b1 :: b2 :: _ =>
        if (if p0 = 0xE0 then 0xA0 else 0x80) ≤ b1 ∧ b1 ≤ (if p0 = 0xED then 0x9F else 0xBF)
            ∧ isCont b2 then
          (p0 % 16 * 4096 + b1 % 64 * 64 + b2 % 64, 3)
        else (runeError, 1)
      | _ => (runeError, 1)
    else
      match rest with
      | b1 :: b2 :: b3 :: _ =>
        if (if p0 = 0xF0 then 0x90 else 0x80) ≤ b1 ∧ b1 ≤ (if p0 = 0xF4 then 0x8F else 0xBF)
            ∧ isCont b2 ∧ isCont b3 then
          (p0 % 8 * 262144 + b1 % 64 * 4096 + b2 % 64 * 64 + b3 % 64, 4)
        else (runeError, 1)
      | _ => (runeError, 1)

/-- Model of `utf8.Valid`: no byte of the string decodes to an encoding error.
The counter says how many bytes of the current rune are still to be passed. -/
def utf8Valid : Nat → List Nat → Bool
  | _, [] => true
  | k + 1, _ :: cs => utf8Valid k cs
  | 0, c :: cs =>
    if c < 0x80 then utf8Valid 0 cs
    else
      let d := decodeRune (c :: cs)
      if d.2 = 1 then false else utf8Valid (d.2 - 1) cs

/-- Decimal digits of a natural number, most significant first; the first
argument bounds the number of digits. -/
def natDigits : Nat → Nat → List Nat
  | 0, _ => []
  | fuel + 1, n => if n < 10 then [48 + n] else natDigits fuel (n / 10) ++ [48 + n % 10]

/-- Model of the verb `%d` of `fmt` (and of `strconv.Itoa`) on an `int`. -/
def fmtInt (n : Int) : GoString :=
  if n < 0 then 45 :: natDigits (n.natAbs + 1) n.natAbs else natDigits (n.natAbs + 1) n.natAbs

/-! ## `encoding/json`: the scanner

`json.Unmarshal` first checks that the whole input is one JSON value
surrounded by optional white space, then decodes it. The text is read here
into a tree of values, from which the decoder of the next section fills the
structures. -/

/-- A JSON value as the decoder sees it: a number keeps its literal, a
string and an object key are already unquoted, members keep their order and
their duplicates. -/
inductive JSON where
  | null
  | bool (b : Bool)
  | number (lit : List Nat)
  | string (s : GoString)
  | array (elems : List JSON)
  | object (members : List (GoString × JSON))

/-- White space of the scanner (`isSpace`): space, tab, carriage return, line feed. -/
def isSpace (c : Nat) : Bool := c = 32 || c = 9 || c = 13 || c = 10

/-- Drops leading white space. -/
def skipSpace : List Nat → List Nat
  | [] => []
  | c :: cs => if isSpace c then skipSpace cs else c :: cs

/-- Value of a hexadecimal digit. -/
def hexVal (c : Nat) : Option Nat :=
  if 48 ≤ c ∧ c ≤ 57 then some (c - 48)
  else if 97 ≤ c ∧ c ≤ 102 then some (c - 87)
  else if 65 ≤ c ∧ c ≤ 70 then some (c - 55)
  else none

/-- Value of four hexadecimal digits. -/
def hex4 (a b c d : Nat) : Option Nat :=
  match hexVal a, hexVal b, hexVal c, hexVal d with
  | some a, some b, some c, some d => some (a * 4096 + b * 256 + c * 16 + d)
  | _, _, _, _ => none

/-- Model of `getu4`: the code unit of an escape `\uXXXX` at the head of the
input, if there is one. -/
def getu4 : List Nat → Option Nat
  | 92 :: 117 :: a :: b :: c :: d :: _ => hex4 a b c d
  | _ => none

/-- Model of `utf16.DecodeRune`: the rune of a surrogate pair, U+FFFD when
the two code units are not a high and a low surrogate. -/
def utf16Decode (r1 : Nat) (r2 : Option Nat) : Nat :=
  match r2 with
  | some r2 =>
    if 0xD800 ≤ r1 ∧ r1 < 0xDC00 ∧ 0xDC00 ≤ r2 ∧ r2 < 0xE000 then
      (r1 - 0xD800) * 1024 + (r2 - 0xDC00) + 0x10000
    else runeError
  | none => runeError

/-- The byte a one-letter escape stands for. -/
def simpleEscape (e : Nat) : Option Nat :=
  if e = 34 then some 34 else if e = 92 then some 92 else if e = 47 then some 47
  else if e = 98 then some 8 else if e = 102 then some 12 else if e = 110 then some 10
  else if e = 114 then some 13 else if e = 116 then some 9 else none

/-- Puts bytes in front of the string read so far. -/
def prepend (bs : List Nat) : Option (GoString × List Nat) → Option (GoString × List Nat)
  | some (s, rest) => some (bs ++ s, rest)
  | none => none

/-- A string literal after its opening quote (scanner states `stateInString`,
`stateInStringEsc*`, and `unquoteBytes`): the unquoted string and the input
after the closing quote. Control characters and unknown escapes are syntax
errors; invalid UTF-8 and lone surrogates are not, they become U+FFFD. The
counter says how many bytes, already accounted for, are still to be passed. -/
def scanString : Nat → List Nat → Option (GoString × List Nat)
  | _, [] => none
  | k + 1, _ :: cs => scanString k cs
  | 0, c :: cs =>
    if c = 34 then some ([], cs)
    else if c = 92 then
      match cs with
      | [] => none
      | e :: cs1 =>
        if e = 117 then
          match cs1 with
          | h1 :: h2 :: h3 :: h4 :: cs2 =>
            match hex4 h1 h2 h3 h4 with
            | none => none
            | some rr =>
              if 0xD800 ≤ rr ∧ rr < 0xE000 then
                if utf16Decode rr (getu4 cs2) ≠ runeError then
                  prepend (encodeRune (utf16Decode rr (getu4 cs2))) (scanString 6 cs2)
                else prepend (encodeRune runeError) (scanString 0 cs2)
              else prepend (encodeRune rr) (scanString 0 cs2)
          | _ => none
        else
          match simpleEscape e with
          | some b => prepend [b] (scanString 0 cs1)
          | none => none
    else if c < 32 then none
    else if c < 128 then prepend [c] (scanString 0 cs)
    else
      prepend (encodeRune (decodeRune (c :: cs)).1) (scanString ((decodeRune (c :: cs)).2 - 1) cs)

/-- States of the scanner inside a number (`stateNeg`, `state0`, `state1`,
`stateDot`, `stateDot0`, `stateE`, `stateESign`, `stateE0`). -/
inductive NumState where
  | neg | zero | int | dot | frac | e | esign | exp
  deriving DecidableEq

/-- A decimal digit. -/
def isDigit (c : Nat) : Bool := decide (48 ≤ c ∧ c ≤ 57)

/-- The states in which a number may end. -/
def NumState.final : NumState → Bool
  | .zero | .int | .frac | .exp => true
  | _ => false

/-- One step of the scanner inside a number; `none` when the byte does not
continue the number. -/
def numStep (st : NumState) (c : Nat) : Option NumState :=
  match st with
  | .neg => if c = 48 then some .zero else if isDigit c then some .int else none
  | .zero => if c = 46 then some .dot else if c = 101 ∨ c = 69 then some .e else none
  | .int =>
    if isDigit c then some .int else if c = 46 then some .dot
    else if c = 101 ∨ c = 69 then some .e else none
  | .dot => if isDigit c then some .frac else none
  | .frac => if isDigit c then some .frac else if c = 101 ∨ c = 69 then some .e else none
  | .e => if c = 43 ∨ c = 45 then some .esign else if isDigit c then some .exp else none
  | .esign => if isDigit c then some .exp else none
  | .exp => if isDigit c then some .exp else none

/-- The rest of a number literal from a scanner state: the bytes of the
literal read and the input after it. -/
def scanNumber : NumState → List Nat → Option (List Nat × List Nat)
  | st, [] => if st.final then some ([], []) else none
  | st, c :: cs =>
    match numStep st c with
    | some st1 =>
      match scanNumber st1 cs with
      | some (lit, rest) => some (c :: lit, rest)
      | none => none
    | none => if st.final then some ([], c :: cs) else none

/-- The nesting limit of the scanner (`maxNestingDepth`). -/
def maxNestingDepth : Nat := 10000

mutual
/-- One JSON value at the head of the input (no leading white space), at a
nesting depth: the value and the input after it. The first argument bounds
the recursion; `2 * length + 1` is always enough (`parseJSON`). -/
def parseValue : Nat → Nat → List Nat → Option (JSON × List Nat)
  | 0, _, _ => none
  | _ + 1, _, [] => none
  | fuel + 1, depth, c :: cs =>
    if c = 123 then
      if maxNestingDepth < depth + 1 then none
      else
        match skipSpace cs with
        | 125 :: rest => some (.object [], rest)
        | _ =>
          match parseMembers fuel (depth + 1) (skipSpace cs) with
          | some (ms, rest) => some (.object ms, rest)
          | none => none
    else if c = 91 then
      if maxNestingDepth < depth + 1 then none
      else
        match skipSpace cs with
        | 93 :: rest => some (.array [], rest)
        | _ =>
          match parseElems fuel (depth + 1) (skipSpace cs) with
          | some (es, rest) => some (.array es, rest)
          | none => none
    else if c = 34 then
      match scanString 0 cs with
      | some (s, rest) => some (.string s, rest)
      | none => none
    else if c = 45 then
      match scanNumber .neg cs with
      | some (lit, rest) => some (.number (c :: lit), rest)
      | none => none
    else if c = 48 then
      match scanNumber .zero cs with
      | some (lit, rest) => some (.number (c :: lit), rest)
      | none => none
    else if isDigit c then
      match scanNumber .int cs with
      | some (lit, rest) => some (.number (c :: lit), rest)
      | none => none
    else
      match c :: cs with
      | 116 :: 114 :: 117 :: 101 :: rest => some (.bool true, rest)
      | 102 :: 97 :: 108 :: 115 :: 101 :: rest => some (.bool false, rest)
      | 110 :: 117 :: 108 :: 108 :: rest => some (.null, rest)
      | _ => none
/-- The elements of a non-empty array up to and including the closing bracket. -/
def parseElems : Nat → Nat → List Nat → Option (List JSON × List Nat)
  | 0, _, _ => none
  | fuel + 1, depth, inp =>
    match parseValue fuel depth inp with
    | none => none
    | some (j, rest) =>
      match skipSpace rest with
      | 44 :: rest1 =>
        match parseElems fuel depth (skipSpace rest1) with
        | some (js, rest2) => some (j :: js, rest2)
        | none => none
      | 93 :: rest1 => some ([j], rest1)
      | _ => none
/-- The members of a non-empty object up to and including the closing brace. -/
def parseMembers : Nat → Nat → List Nat → Option (List (GoString × JSON) × List Nat)
  | 0, _, _ => none
  | fuel + 1, depth, inp =>
    match inp with
    | 34 :: cs =>
      match scanString 0 cs with
      | none => none
      | some (key, rest) =>
        match skipSpace rest with
        | 58 :: rest1 =>
          match parseValue fuel depth (skipSpace rest1) with
          | none => none
          | some (j, rest2) =>
            match skipSpace rest2 with
            | 44 :: rest3 =>
              match parseMembers fuel depth (skipSpace rest3) with
              | some (ms, rest4) => some ((key, j) :: ms, rest4)
              | none => none
            | 125 :: rest3 => some ([(key, j)], rest3)
            | _ => none
        | _ => none
    | _ => none
end

/-- The JSON value of a whole input (`checkValid` and the scan of
`decodeState`): one value between optional white space, `none` on any
syntax error. -/
def parseJSON (data : List Nat) : Option JSON :=
  match parseValue (2 * data.length + 1) 0 (skipSpace data) with
  | some (j, rest) => if skipSpace rest = [] then some j else none
  | none => none

/-- Model of `json.Valid`. -/
def Valid (data : List Nat) : Bool := (parseJSON data).isSome

/-! ## The data model (`api/model.go`) -/

/-- The structure `Forecast`: an arrival forecast. -/
structure Forecast where
  /-- Field `Time`, key `time`. -/
  Time : Int
  /-- Field `ByTelemetry`, key `byTelemetry`. -/
  ByTelemetry : Int
  /-- Field `TmID`, key `tmId`. -/
  TmID : Int
  /-- Field `RoutePathID`, key `routePathId`. -/
  RoutePathID : GoString
  deriving DecidableEq, Repr

/-- The structure `RoutePath`: a route through the stop. The field `Type` of
the source is `Type_` here. -/
structure RoutePath where
  /-- Field `ID`, key `id`. -/
  ID : GoString
  /-- Field `Type`, key `type`. -/
  Type_ : GoString
  /-- Field `Number`, key `number`. -/
  Number : GoString
  /-- Field `LastStopName`, key `lastStopName`. -/
  LastStopName : GoString
  /-- Field `Color`, key `color`. -/
  Color : GoString
  /-- Field `FontColor`, key `fontColor`. -/
  FontColor : GoString
  /-- Field `ExternalForecast`, key `externalForecast`; `none` is the nil slice. -/
  ExternalForecast : Option (List Forecast)
  deriving DecidableEq, Repr

/-- The structure `StopData`: a stop with its routes. -/
structure StopData where
  /-- Field `ID`, key `id`. -/
  ID : GoString
  /-- Field `Name`, key `name`. -/
  Name : GoString
  /-- Field `Type`, key `type`. -/
  Type_ : GoString
  /-- Field `RoutePath`, key `routePath`; `none` is the nil slice. -/
  RoutePath : Option (List RoutePath)
  deriving DecidableEq, Repr

/-- The zero value of `Forecast`. -/
def Forecast.zero : Forecast := ⟨0, 0, 0, []⟩

/-- The zero value of `RoutePath`. -/
def RoutePath.zero : RoutePath := ⟨[], [], [], [], [], [], none⟩

/-- The zero value of `StopData` (`var data StopData`). -/
def StopData.zero : StopData := ⟨[], [], [], none⟩

/-- The fields of `Forecast`, in declaration order. -/
inductive ForecastField where
  | time | byTelemetry | tmId | routePathId
  deriving DecidableEq, Repr

/-- The fields of `RoutePath`, in declaration order. -/
inductive RouteField where
  | id | type | number | lastStopName | color | fontColor | externalForecast
  deriving DecidableEq, Repr

/-- The fields of `StopData`, in declaration order. -/
inductive StopField where
  | id | name | type | routePath
  deriving DecidableEq, Repr

/-- The JSON key of a field of `Forecast` (its `json` tag). -/
def ForecastField.key : ForecastField → GoString
  | .time => bytesOf "time"
  | .byTelemetry => bytesOf "byTelemetry"
  | .tmId => bytesOf "tmId"
  | .routePathId => bytesOf "routePathId"

/-- The JSON key of a field of `RoutePath` (its `json` tag). -/
def RouteField.key : RouteField → GoString
  | .id => bytesOf "id"
  | .type => bytesOf "type"
  | .number => bytesOf "number"
  | .lastStopName => bytesOf "lastStopName"
  | .color => bytesOf "color"
  | .fontColor => bytesOf "fontColor"
  | .externalForecast => bytesOf "externalForecast"

/-- The JSON key of a field of `StopData` (its `json` tag). -/
def StopField.key : StopField → GoString
  | .id => bytesOf "id"
  | .name => bytesOf "name"
  | .type => bytesOf "type"
  | .routePath => bytesOf "routePath"

/-! ## `encoding/json`: the decoder -/

/-- An error of `json.Unmarshal`: a `*json.SyntaxError`, or a
`*json.UnmarshalTypeError` with the JSON value met and the Go type wanted. -/
inductive JsonError where
  | syntaxError
  | unmarshalType (value : String) (goType : String)
  deriving DecidableEq, Repr

/-- How `UnmarshalTypeError.Value` names a JSON value. -/
def JSON.describe : JSON → String
  | .null => "null"
  | .bool _ => "bool"
  | .number _ => "number"
  | .string _ => "string"
  | .array _ => "array"
  | .object _ => "object"

/-- Model of `saveError`: the first error met is the one reported. -/
def saveError (saved new : Option JsonError) : Option JsonError :=
  match saved with
  | some e => some e
  | none => new

/-- Folding of a key for the case-insensitive match of keys to fields
(`foldName`, `equalFold`): ASCII letters are upper-cased, and the two letters
that fold to ASCII, U+017F and U+212A, become `S` and `K`. Other bytes are
kept; only the comparison with the folded ASCII names of the schema is used. -/
def foldName : List Nat → List Nat
  | [] => []
  | 0xC5 :: 0xBF :: cs => 83 :: foldName cs
  | 0xE2 :: 0x84 :: 0xAA :: cs => 75 :: foldName cs
  | c :: cs => (if 97 ≤ c ∧ c ≤ 122 then c - 32 else c) :: foldName cs

/-- The field a key is decoded into: the field with exactly this name, and
failing that the first field with this name up to case. -/
def findField {F : Type} (fields : List F) (name : F → GoString) (key : GoString) : Option F :=
  match fields.find? (fun f => name f == key) with
  | some f => some f
  | none => fields.find? (fun f => foldName (name f) == foldName key)

/-- The field of `Forecast` a key is decoded into. -/
def forecastFieldOf (key : GoString) : Option ForecastField :=
  findField [.time, .byTelemetry, .tmId, .routePathId] ForecastField.key key

/-- The field of `RoutePath` a key is decoded into. -/
def routeFieldOf (key : GoString) : Option RouteField :=
  findField [.id, .type, .number, .lastStopName, .color, .fontColor, .externalForecast]
    RouteField.key key

/-- The field of `StopData` a key is decoded into. -/
def stopFieldOf (key : GoString) : Option StopField :=
  findField [.id, .name, .type, .routePath] StopField.key key

/-- A non-empty run of decimal digits as a number. -/
def parseDigits : List Nat → Option Nat
  | [] => none
  | d :: ds =>
    if (d :: ds).all isDigit then some ((d :: ds).foldl (fun acc c => acc * 10 + (c - 48)) 0)
    else none

/-- Model of `strconv.ParseInt(lit, 10, 64)` followed by the overflow check of
a 64-bit `int`: an optional sign and decimal digits, within range. -/
def parseInt (lit : List Nat) : Option Int :=
  match lit with
  | 45 :: ds =>
    match parseDigits ds with
    | some n => if n ≤ 2 ^ 63 then some (-(n : Int)) else none
    | none => none
  | 43 :: ds =>
    match parseDigits ds with
    | some n => if n < 2 ^ 63 then some (n : Int) else none
    | none => none
  | ds =>
    match parseDigits ds with
    | some n => if n < 2 ^ 63 then some (n : Int) else none
    | none => none

/-- Decoding of a JSON value into a `string` that holds `cur`
(`literalStore`): `null` leaves it, a string replaces it, anything else is a
type error and leaves it. -/
def decodeString (cur : GoString) (j : JSON) : GoString × Option JsonError :=
  match j with
  | .null => (cur, none)
  | .string s => (s, none)
  | j => (cur, some (.unmarshalType j.describe "string"))

/-- Decoding of a JSON value into an `int` that holds `cur` (`literalStore`):
`null` leaves it, an integer literal in range replaces it, anything else is a
type error and leaves it. -/
def decodeInt (cur : Int) (j : JSON) : Int × Option JsonError :=
  match j with
  | .null => (cur, none)
  | .number lit =>
    match parseInt lit with
    | some n => (n, none)
    | none => (cur, some (.unmarshalType "number" "int"))
  | j => (cur, some (.unmarshalType j.describe "int"))

/-- Decoding of the members of an object into a structure that holds `cur`
(`(*decodeState).object`): the members are taken in order, a member whose key
names no field is skipped, and the first error is kept. -/
def decodeMembers {F S : Type} (fieldOf : GoString → Option F)
    (decodeField : F → S → JSON → S × Option JsonError)
    (cur : S) (members : List (GoString × JSON)) : S × Option JsonError :=
  members.foldl
    (fun acc m =>
      match fieldOf m.1 with
      | none => acc
      | some f => ((decodeField f acc.1 m.2).1, saveError acc.2 (decodeField f acc.1 m.2).2))
    (cur, none)

/-- Decoding of the elements of an array into the elements of a slice
(`(*decodeState).array`): element `i` is decoded into the element the slice
already holds at `i`, or into a zero value past its length. A slice holds
elements only when its key stands more than once in an object. Not modelled:
past its length Go reuses the spare capacity of the slice, which holds older
elements when the key stands three times or more and the second array is the
shortest; nothing below is stated of the elements decoded from such an input. -/
def decodeElems {S : Type} (decodeElem : S → JSON → S × Option JsonError) (zero : S) :
    List S → List JSON → List S × Option JsonError
  | _, [] => ([], none)
  | cur, j :: js =>
    ((decodeElem (cur.headD zero) j).1 :: (decodeElems decodeElem zero cur.tail js).1,
      saveError (decodeElem (cur.headD zero) j).2 (decodeElems decodeElem zero cur.tail js).2)

/-- Decoding of a JSON value into a slice that holds `cur`: `null` makes it
nil, an array gives a slice of the length of the array (empty and not nil for
`[]`), anything else is a type error and leaves it. -/
def decodeSlice {S : Type} (decodeElem : S → JSON → S × Option JsonError) (zero : S)
    (goType : String) (cur : Option (List S)) (j : JSON) : Option (List S) × Option JsonError :=
  match j with
  | .null => (none, none)
  | .array es =>
    (some (decodeElems decodeElem zero (cur.getD []) es).1,
      (decodeElems decodeElem zero (cur.getD []) es).2)
  | j => (cur, some (.unmarshalType j.describe goType))

/-- Decoding of a member value into one field of a `Forecast`. -/
def decodeForecastField (f : ForecastField) (cur : Forecast) (j : JSON) :
    Forecast × Option JsonError :=
  match f with
  | .time => ({ cur with Time := (decodeInt cur.Time j).1 }, (decodeInt cur.Time j).2)
  | .byTelemetry =>
    ({ cur with ByTelemetry := (decodeInt cur.ByTelemetry j).1 }, (decodeInt cur.ByTelemetry j).2)
  | .tmId => ({ cur with TmID := (decodeInt cur.TmID j).1 }, (decodeInt cur.TmID j).2)
  | .routePathId =>
    ({ cur with RoutePathID := (decodeString cur.RoutePathID j).1 },
      (decodeString cur.RoutePathID j).2)

/-- Decoding of a JSON value into a `Forecast` that holds `cur`: `null`
leaves it, an object fills its fields, anything else is a type error. -/
def decodeForecast (cur : Forecast) (j : JSON) : Forecast × Option JsonError :=
  match j with
  | .null => (cur, none)
  | .object ms => decodeMembers forecastFieldOf decodeForecastField cur ms
  | j => (cur, some (.unmarshalType j.describe "api.Forecast"))

/-- Decoding of a member value into one field of a `RoutePath`. -/
def decodeRouteField (f : RouteField) (cur : RoutePath) (j : JSON) :
    RoutePath × Option JsonError :=
  match f with
  | .id => ({ cur with ID := (decodeString cur.ID j).1 }, (decodeString cur.ID j).2)
  | .type => ({ cur with Type_ := (decodeString cur.Type_ j).1 }, (decodeString cur.Type_ j).2)
  | .number =>
    ({ cur with Number := (decodeString cur.Number j).1 }, (decodeString cur.Number j).2)
  | .lastStopName =>
    ({ cur with LastStopName := (decodeString cur.LastStopName j).1 },
      (decodeString cur.LastStopName j).2)
  | .color => ({ cur with Color := (decodeString cur.Color j).1 }, (decodeString cur.Color j).2)
  | .fontColor =>
    ({ cur with FontColor := (decodeString cur.FontColor j).1 },
      (decodeString cur.FontColor j).2)
  | .externalForecast =>
    ({ cur with ExternalForecast :=
        (decodeSlice decodeForecast Forecast.zero "[]api.Forecast" cur.ExternalForecast j).1 },
      (decodeSlice decodeForecast Forecast.zero "[]api.Forecast" cur.ExternalForecast j).2)

/-- Decoding of a JSON value into a `RoutePath` that holds `cur`. -/
def decodeRoutePath (cur : RoutePath) (j : JSON) : RoutePath × Option JsonError :=
  match j with
  | .null => (cur, none)
  | .object ms => decodeMembers routeFieldOf decodeRouteField cur ms
  | j => (cur, some (.unmarshalType j.describe "api.RoutePath"))

/-- Decoding of a member value into one field of a `StopData`. -/
def decodeStopField (f : StopField) (cur : StopData) (j : JSON) : StopData × Option JsonError :=
  match f with
  | .id => ({ cur with ID := (decodeString cur.ID j).1 }, (decodeString cur.ID j).2)
  | .name => ({ cur with Name := (decodeString cur.Name j).1 }, (decodeString cur.Name j).2)
  | .type => ({ cur with Type_ := (decodeString cur.Type_ j).1 }, (decodeString cur.Type_ j).2)
  | .routePath =>
    ({ cur with RoutePath :=
        (decodeSlice decodeRoutePath RoutePath.zero "[]api.RoutePath" cur.RoutePath j).1 },
      (decodeSlice decodeRoutePath RoutePath.zero "[]api.RoutePath" cur.RoutePath j).2)

/-- Decoding of a JSON value into a `StopData` that holds `cur`. -/
def decodeStopData (cur : StopData) (j : JSON) : StopData × Option JsonError :=
  match j with
  | .null => (cur, none)
  | .object ms => decodeMembers stopFieldOf decodeStopField cur ms
  | j => (cur, some (.unmarshalType j.describe "api.StopData"))

/-- Model of `json.Unmarshal(data, &v)` for `v` of type `StopData`: the
structure after the call and the error returned. A syntax error leaves the
structure untouched; type errors do not stop the decoding. -/
def Unmarshal (data : List Nat) (v : StopData) : StopData × Option JsonError :=
  match parseJSON data with
  | none => (v, some .syntaxError)
  | some j => decodeStopData v j

/-! ## The client (`api/client.go`) -/

/-- A Go `error`, known by its message (`Error()`). -/
structure GoError where
  /-- The message of the error. -/
  msg : GoString
  deriving DecidableEq, Repr

/-- The constant `DEFAULT_BASE_API_URL`. -/
def DEFAULT_BASE_API_URL : GoString := bytesOf "https://api.moscowapp.mos.ru/v8.2/"

/-- The constant `USER_AGENT_HEADER`. -/
def USER_AGENT_HEADER : GoString := bytesOf "Mozilla/5.0"

/-- The constant `ACCEPT_HEADER`. -/
def ACCEPT_HEADER : GoString := bytesOf "application/json"

/-- The constant `DEBUG`. -/
def DEBUG : Bool := true

/-- An `http.Header`: the values stored under each key. -/
abbrev Header := List (GoString × List GoString)

/-- Model of `Header.Set`: the key gets the single value, replacing what it
had. The two keys the client sets are already in canonical form. -/
def Header.Set (h : Header) (key value : GoString) : Header :=
  (key, [value]) :: h.filter (fun kv => kv.1 != key)

/-- Model of `Header.Values`: all the values stored under a key. -/
def Header.Values (h : Header) (key : GoString) : List GoString :=
  match h.find? (fun kv => kv.1 == key) with
  | some kv => kv.2
  | none => []

/-- A `*url.URL` as `url.Parse` fills it. The authority (what stands between
`//` and the path) is kept as text: `url.Parse` splits it into the fields
`User` and `Host`. The hints `RawPath`, `RawFragment` and `OmitHost` are left
out. -/
structure URL where
  /-- The field `Scheme`, in lower case. -/
  Scheme : GoString
  /-- The field `Opaque`: what follows the scheme when it does not start with a slash. -/
  Opaque : GoString
  /-- The text of the authority, from which `User` and `Host` are made. -/
  Authority : GoString
  /-- The field `Path`, unescaped. -/
  Path : GoString
  /-- The field `ForceQuery`: the URL ends with its only `?`. -/
  ForceQuery : Bool
  /-- The field `RawQuery`: what follows the first `?`, as it is written. -/
  RawQuery : GoString
  /-- The field `Fragment`: what follows the first `#`, unescaped. -/
  Fragment : GoString
  deriving DecidableEq, Repr

/-- Model of `stringContainsCTLByte`: some byte is below `0x20` or is `0x7f`. -/
def containsCTLByte (s : GoString) : Bool := s.any (fun b => decide (b < 0x20 ∨ b = 0x7f))

/-- Model of `strings.Cut` at a one-byte separator: the text before its first
occurrence and the text after it; the whole text and nothing without one. -/
def cutByte (sep : Nat) : GoString → GoString × GoString
  | [] => ([], [])
  | c :: cs => if c = sep then ([], cs) else (c :: (cutByte sep cs).1, (cutByte sep cs).2)

/-- A byte that may stand anywhere in a scheme: an ASCII letter. -/
def isSchemeLetter (c : Nat) : Bool := decide ((97 ≤ c ∧ c ≤ 122) ∨ (65 ≤ c ∧ c ≤ 90))

/-- A byte that may stand in a scheme after its first byte: a digit, `+`, `-` or `.`. -/
def isSchemeMark (c : Nat) : Bool := decide ((48 ≤ c ∧ c ≤ 57) ∨ c = 43 ∨ c = 45 ∨ c = 46)

/-- The loop of `getScheme` from index `i` on, over the bytes left. -/
def getSchemeFrom (rawURL : GoString) : Nat → GoString → Option (GoString × GoString)
  | _, [] => some ([], rawURL)
  | i, c :: cs =>
    if isSchemeLetter c then getSchemeFrom rawURL (i + 1) cs
    else if isSchemeMark c then
      if i = 0 then some ([], rawURL) else getSchemeFrom rawURL (i + 1) cs
    else if c = 58 then
      if i = 0 then none else some (rawURL.take i, cs)
    else some ([], rawURL)

/-- Model of `getScheme`: the scheme and what follows its colon; no scheme and
the whole text when there is none; `none` for the error `missing protocol
scheme` of a text that starts with a colon. -/
def getScheme (rawURL : GoString) : Option (GoString × GoString) :=
  getSchemeFrom rawURL 0 rawURL

/-- Model of `strings.ToLower` on ASCII. -/
def toLower (s : GoString) : GoString :=
  s.map (fun c => if 65 ≤ c ∧ c ≤ 90 then c + 32 else c)

/-- Model of `unescape` in the modes of a path and of a fragment: `%XX` stands
for the byte of the two hexadecimal digits; `none` for a `%` that is not
followed by two of them. -/
def unescape : GoString → Option GoString
  | [] => some []
  | c :: cs =>
    if c = 37 then
      match cs with
      | a :: b :: cs2 =>
        match hexVal a, hexVal b with
        | some x, some y => (unescape cs2).map (fun t => (x * 16 + y) :: t)
        | _, _ => none
      | _ => none
    else (unescape cs).map (fun t => c :: t)

/-- Model of `strings.HasPrefix`. -/
def startsWith (p s : GoString) : Bool := p.isPrefixOf s

/-- The end of `parse`, once the scheme and the query are taken off: a text
that does not start with a slash is opaque after a scheme, and a relative path
otherwise, whose first segment must hold no colon; the authority is what
follows `//` up to the next slash; what is left is the path, unescaped by
`setPath`. -/
def parseRest (scheme : GoString) (url : URL) (rest : GoString) : Option URL :=
  if ¬ startsWith [47] rest ∧ scheme ≠ [] then some { url with Opaque := rest }
  else if ¬ startsWith [47] rest ∧ 58 ∈ (cutByte 47 rest).1 then none
  else if (scheme ≠ [] ∨ ¬ startsWith [47, 47, 47] rest) ∧ startsWith [47, 47] rest then
    (unescape ((rest.drop 2).dropWhile (fun b => b != 47))).map
      (fun p => { url with Authority := (rest.drop 2).takeWhile (fun b => b != 47), Path := p })
  else (unescape rest).map (fun p => { url with Path := p })

/-- Model of `parse(rawURL, false)`, the parser of a URL without fragment:
`none` for a control character, a missing scheme, a colon in the first
segment of a relative path or a malformed escape in the path. A malformed
authority, for which `url.Parse` fails too, is not looked at here: whether
`http.NewRequest` accepts a URL is left to `World.NewRequest`. -/
def parseNoFragment (rawURL : GoString) : Option URL :=
  if containsCTLByte rawURL then none
  else if rawURL = [42] then
    some { Scheme := [], Opaque := [], Authority := [], Path := [42], ForceQuery := false,
           RawQuery := [], Fragment := [] }
  else
    match getScheme rawURL with
    | none => none
    | some (scheme, rest) =>
      parseRest scheme
        { Scheme := toLower scheme, Opaque := [], Authority := [], Path := [],
          ForceQuery := decide (rest.getLast? = some 63 ∧ rest.count 63 = 1),
          RawQuery := (cutByte 63 rest).2, Fragment := [] }
        (cutByte 63 rest).1

/-- Model of `url.Parse`: the fragment is cut off at the first `#` and
unescaped, the rest is parsed by `parse`. -/
def parseURL (rawURL : GoString) : Option URL :=
  match parseNoFragment (cutByte 35 rawURL).1 with
  | none => none
  | some url =>
    if (cutByte 35 rawURL).2 = [] then some url
    else (unescape (cutByte 35 rawURL).2).map (fun f => { url with Fragment := f })

/-- An `*http.Request` as built by `http.NewRequest(method, url, body)`. -/
structure Request where
  /-- The method. -/
  Method : GoString
  /-- The field `URL`: the URL string parsed by `url.Parse`; `none` for a
  string `url.Parse` refuses, from which Go builds no request. -/
  URL : Option URL
  /-- The request body; `none` is the nil body. -/
  Body : Option (List Nat)
  /-- The header fields. -/
  Header : Header
  deriving DecidableEq, Repr

/-- An `*http.Response` as the client uses it: the status code, the bytes
`io.ReadAll(resp.Body)` returns and the error it returns with them. -/
structure Response where
  /-- The field `StatusCode`. -/
  StatusCode : Int
  /-- The bytes read from the body. -/
  Body : List Nat
  /-- The error of the read, if any. -/
  ReadErr : Option GoError
  deriving DecidableEq, Repr

/-- An `*http.Client`: its timeout in nanoseconds. -/
structure HTTPClient where
  /-- The field `Timeout`, a `time.Duration`. -/
  Timeout : Nat
  deriving DecidableEq, Repr

/-- The structure `APIClient`. -/
structure APIClient where
  /-- The base URL of the API. -/
  baseURL : GoString
  /-- The HTTP client with its timeout. -/
  client : HTTPClient
  deriving DecidableEq, Repr

/-- What lies outside the program: whether `http.NewRequest` accepts a
method and URL, what `(*http.Client).Do` answers to a request, and how the
errors of `encoding/json` print. -/
structure World where
  /-- The error of `http.NewRequest(method, url, nil)`, `none` when it succeeds. -/
  NewRequest : GoString → GoString → Option GoError
  /-- The outcome of `client.Do(req)`: a transport error or a response. -/
  Do : HTTPClient → Request → Except GoError Response
  /-- The text `Error()` of an error of `json.Unmarshal`. -/
  errorText : JsonError → GoString

/-- What a call does to the outside: the requests handed to the transport and
the lines written to standard output. -/
structure Effects where
  /-- The requests passed to `client.Do`, in order. -/
  sent : List Request
  /-- The texts printed with `fmt.Printf`. -/
  printed : List GoString
  deriving DecidableEq, Repr

/-- The constant `time.Second`, in nanoseconds. -/
def Second : Nat := 1000000000

/-- The function `NewClient`. -/
def NewClient : APIClient :=
  { baseURL := DEFAULT_BASE_API_URL, client := { Timeout := 10 * Second } }

/-- The method `SetBaseURL`. -/
def SetBaseURL (c : APIClient) (url : GoString) : APIClient :=
  { c with baseURL := url }

/-- The request `doRequest` builds for a URL: `http.NewRequest("GET", url,
nil)` followed by the two calls of `req.Header.Set`. -/
def buildRequest (url : GoString) : Request :=
  { Method := bytesOf "GET", URL := parseURL url, Body := none,
    Header := (Header.Set (Header.Set [] (bytesOf "User-Agent") USER_AGENT_HEADER)
      (bytesOf "Accept") ACCEPT_HEADER) }

/-- The method `doRequest`: the pair it returns, and its effects. A nil byte
slice is the empty list. -/
def doRequest (w : World) (c : APIClient) (endpoint : GoString) :
    (List Nat × Option GoError) × Effects :=
  match w.NewRequest (bytesOf "GET") (c.baseURL ++ endpoint) with
  | some err => (([], some ⟨bytesOf "failed to create request: " ++ err.msg⟩), ⟨[], []⟩)
  | none =>
    match w.Do c.client (buildRequest (c.baseURL ++ endpoint)) with
    | .error err =>
      (([], some ⟨bytesOf "request error: " ++ err.msg⟩),
        ⟨[buildRequest (c.baseURL ++ endpoint)], []⟩)
    | .ok resp =>
      if resp.StatusCode ≠ 200 then
        (([], some ⟨bytesOf "bad status code: " ++ fmtInt resp.StatusCode⟩),
          ⟨[buildRequest (c.baseURL ++ endpoint)],
            if DEBUG then [bytesOf "DEBUG: Error response body: " ++ resp.Body ++ bytesOf "\n"]
            else []⟩)
      else ((resp.Body, resp.ReadErr), ⟨[buildRequest (c.baseURL ++ endpoint)], []⟩)

/-- The method `GetStopData`: the pair it returns (`none` is nil), and its effects. -/
def GetStopData (w : World) (c : APIClient) (stopID : GoString) :
    (Option StopData × Option GoError) × Effects :=
  match (doRequest w c (bytesOf "stop_v2/" ++ stopID)).1.2 with
  | some err => ((none, some err), (doRequest w c (bytesOf "stop_v2/" ++ stopID)).2)
  | none =>
    match (Unmarshal (doRequest w c (bytesOf "stop_v2/" ++ stopID)).1.1 StopData.zero).2 with
    | some e =>
      ((none, some ⟨bytesOf "decode error: " ++ w.errorText e⟩),
        (doRequest w c (bytesOf "stop_v2/" ++ stopID)).2)
    | none =>
      ((some (Unmarshal (doRequest w c (bytesOf "stop_v2/" ++ stopID)).1.1 StopData.zero).1, none),
        (doRequest w c (bytesOf "stop_v2/" ++ stopID)).2)

/-- The URL `GetStopData` asks for. -/
def stopURL (c : APIClient) (stopID : GoString) : GoString :=
  c.baseURL ++ (bytesOf "stop_v2/" ++ stopID)

/-- A world in which every request is accepted and answered with a fixed response. -/
def constWorld (resp : Response) : World :=
  { NewRequest := fun _ _ => none, Do := fun _ _ => .ok resp, errorText := fun _ => bytesOf "json" }

/-- A world like `constWorld`, except that `http.NewRequest` fails on one URL,
with one error. -/
def refusingWorld (url : GoString) (err : GoError) (resp : Response) : World :=
  { NewRequest := fun _ u => if u = url then some err else none,
    Do := fun _ _ => .ok resp, errorText := fun _ => bytesOf "json" }

/-! ## `encoding/json`: the encoder

The client never encodes; `json.Marshal` on the structures of `model.go` is
written out to state the round trip of the data model. -/

/-- Lower-case hexadecimal digit. -/
def hexDigit (n : Nat) : Nat := if n < 10 then 48 + n else 87 + n

/-- How `appendString` (with HTML escaping, as `json.Marshal` has it) writes
one ASCII byte: as itself, or escaped when it is a control character, a
quote, a backslash or one of `<`, `>`, `&`. -/
def escapeByte (c : Nat) : List Nat :=
  if c = 34 ∨ c = 92 then [92, c]
  else if c = 8 then [92, 98]
  else if c = 12 then [92, 102]
  else if c = 10 then [92, 110]
  else if c = 13 then [92, 114]
  else if c = 9 then [92, 116]
  else if c < 32 ∨ c = 60 ∨ c = 62 ∨ c = 38 then
    [92, 117, 48, 48, hexDigit (c / 16), hexDigit (c % 16)]
  else [c]

/-- Model of `appendString` between the quotes: ASCII is escaped where needed,
a byte that is not valid UTF-8 is written as the escape of U+FFFD, the runes
U+2028 and U+2029 are escaped, and any other rune is copied. The counter says
how many bytes of the current rune remain, and the flag whether they are
copied (they are not after an escape that stands for the whole rune). -/
def appendString : Nat → Bool → List Nat → List Nat
  | _, _, [] => []
  | k + 1, copy, c :: cs => (if copy then [c] else []) ++ appendString k copy cs
  | 0, _, c :: cs =>
    if c < 0x80 then escapeByte c ++ appendString 0 true cs
    else if (decodeRune (c :: cs)).2 = 1 then
      [92, 117, 102, 102, 102, 100] ++ appendString 0 true cs
    else if (decodeRune (c :: cs)).1 = 0x2028 ∨ (decodeRune (c :: cs)).1 = 0x2029 then
      [92, 117, 50, 48, 50, hexDigit ((decodeRune (c :: cs)).1 % 16)] ++
        appendString ((decodeRune (c :: cs)).2 - 1) false cs
    else c :: appendString ((decodeRune (c :: cs)).2 - 1) true cs

/-- A Go string as a JSON string literal. -/
def marshalString (s : GoString) : List Nat := 34 :: (appendString 0 true s ++ [34])

/-- A member of an object: the quoted key, a colon, the value. -/
def marshalMember (key : GoString) (value : List Nat) : List Nat :=
  34 :: (key ++ 34 :: 58 :: value)

/-- Texts separated by commas. -/
def joinComma : List (List Nat) → List Nat
  | [] => []
  | [x] => x
  | x :: y :: xs => x ++ 44 :: joinComma (y :: xs)

/-- A slice as JSON: `null` for the nil slice, an array otherwise. -/
def marshalSlice {S : Type} (f : S → List Nat) : Option (List S) → List Nat
  | none => [110, 117, 108, 108]
  | some xs => 91 :: (joinComma (xs.map f) ++ [93])

/-- Model of `json.Marshal` on a `Forecast`. -/
def marshalForecast (x : Forecast) : List Nat :=
  123 :: (joinComma
    [marshalMember ForecastField.time.key (fmtInt x.Time),
     marshalMember ForecastField.byTelemetry.key (fmtInt x.ByTelemetry),
     marshalMember ForecastField.tmId.key (fmtInt x.TmID),
     marshalMember ForecastField.routePathId.key (marshalString x.RoutePathID)] ++ [125])

/-- Model of `json.Marshal` on a `RoutePath`. -/
def marshalRoutePath (x : RoutePath) : List Nat :=
  123 :: (joinComma
    [marshalMember RouteField.id.key (marshalString x.ID),
     marshalMember RouteField.type.key (marshalString x.Type_),
     marshalMember RouteField.number.key (marshalString x.Number),
     marshalMember RouteField.lastStopName.key (marshalString x.LastStopName),
     marshalMember RouteField.color.key (marshalString x.Color),
     marshalMember RouteField.fontColor.key (marshalString x.FontColor),
     marshalMember RouteField.externalForecast.key
       (marshalSlice marshalForecast x.ExternalForecast)] ++ [125])

/-- Model of `json.Marshal` on a `StopData`. -/
def Marshal (x : StopData) : List Nat :=
  123 :: (joinComma
    [marshalMember StopField.id.key (marshalString x.ID),
     marshalMember StopField.name.key (marshalString x.Name),
     marshalMember StopField.type.key (marshalString x.Type_),
     marshalMember StopField.routePath.key (marshalSlice marshalRoutePath x.RoutePath)] ++ [125])

/-! ## Values of the Go types -/

/-- The range of a 64-bit `int`. -/
def InRange (n : Int) : Prop := -(2 ^ 63) ≤ n ∧ n < 2 ^ 63

/-- A `Forecast` whose integers are Go `int`s and whose string is valid UTF-8. -/
def Forecast.WF (x : Forecast) : Prop :=
  InRange x.Time ∧ InRange x.ByTelemetry ∧ InRange x.TmID ∧ utf8Valid 0 x.RoutePathID = true

/-- Every element of a slice satisfies a property. -/
def sliceAll {S : Type} (P : S → Prop) : Option (List S) → Prop
  | none => True
  | some xs => ∀ x ∈ xs, P x

/-- A `RoutePath` whose strings are valid UTF-8 and whose forecasts are well formed. -/
def RoutePath.WF (x : RoutePath) : Prop :=
  utf8Valid 0 x.ID = true ∧ utf8Valid 0 x.Type_ = true ∧ utf8Valid 0 x.Number = true ∧
  utf8Valid 0 x.LastStopName = true ∧ utf8Valid 0 x.Color = true ∧
  utf8Valid 0 x.FontColor = true ∧ sliceAll Forecast.WF x.ExternalForecast

/-- A `StopData` whose strings are valid UTF-8 and whose routes are well formed. -/
def StopData.WF (x : StopData) : Prop :=
  utf8Valid 0 x.ID = true ∧ utf8Valid 0 x.Name = true ∧ utf8Valid 0 x.Type_ = true ∧
  sliceAll RoutePath.WF x.RoutePath

/-! ## JSON objects that carry a value -/

/-- The values an object holds for a field: those of the members whose key
the decoder takes for this field, in order. -/
def memberValues {F : Type} [DecidableEq F] (fieldOf : GoString → Option F) (f : F)
    (ms : List (GoString × JSON)) : List JSON :=
  (ms.filter (fun m => decide (fieldOf m.1 = some f))).map (fun m => m.2)

/-- A field is carried by the members of an object: exactly one member is
taken for the field and its value carries the field; or, when fields may be
left out (`full = false`), no member is taken for it and the field is zero. -/
def FieldCarried (full : Bool) (vals : List JSON) (C : JSON → Prop) (isZero : Prop) : Prop :=
  (vals = [] ∧ full = false ∧ isZero) ∨ ∃ j, vals = [j] ∧ C j

/-- A JSON string carries a Go string: it is that string. -/
def CarriesString (s : GoString) (j : JSON) : Prop := j = .string s

/-- A JSON number carries a Go `int`: its literal reads as that integer. -/
def CarriesInt (n : Int) (j : JSON) : Prop := ∃ lit, j = .number lit ∧ parseInt lit = some n

/-- A JSON value carries a slice: `null` carries the nil slice, an array
carries the slice whose elements its elements carry, one by one in order. -/
def CarriesSlice {S : Type} (C : S → JSON → Prop) (xs : Option (List S)) (j : JSON) : Prop :=
  (j = .null ∧ xs = none) ∨
    ∃ es ys, j = .array es ∧ xs = some ys ∧ List.Forall₂ (fun e y => C y e) es ys

/-- A JSON object carries a `Forecast` under the keys `time`, `byTelemetry`,
`tmId`, `routePathId`. -/
def CarriesForecast (full : Bool) (x : Forecast) (j : JSON) : Prop :=
  ∃ ms, j = .object ms ∧
    FieldCarried full (memberValues forecastFieldOf .time ms) (CarriesInt x.Time) (x.Time = 0) ∧
    FieldCarried full (memberValues forecastFieldOf .byTelemetry ms) (CarriesInt x.ByTelemetry)
      (x.ByTelemetry = 0) ∧
    FieldCarried full (memberValues forecastFieldOf .tmId ms) (CarriesInt x.TmID) (x.TmID = 0) ∧
    FieldCarried full (memberValues forecastFieldOf .routePathId ms) (CarriesString x.RoutePathID)
      (x.RoutePathID = [])

/-- A JSON object carries a `RoutePath` under the keys `id`, `type`, `number`,
`lastStopName`, `color`, `fontColor`, `externalForecast`. -/
def CarriesRoutePath (full : Bool) (x : RoutePath) (j : JSON) : Prop :=
  ∃ ms, j = .object ms ∧
    FieldCarried full (memberValues routeFieldOf .id ms) (CarriesString x.ID) (x.ID = []) ∧
    FieldCarried full (memberValues routeFieldOf .type ms) (CarriesString x.Type_) (x.Type_ = []) ∧
    FieldCarried full (memberValues routeFieldOf .number ms) (CarriesString x.Number)
      (x.Number = []) ∧
    FieldCarried full (memberValues routeFieldOf .lastStopName ms) (CarriesString x.LastStopName)
      (x.LastStopName = []) ∧
    FieldCarried full (memberValues routeFieldOf .color ms) (CarriesString x.Color)
      (x.Color = []) ∧
    FieldCarried full (memberValues routeFieldOf .fontColor ms) (CarriesString x.FontColor)
      (x.FontColor = []) ∧
    FieldCarried full (memberValues routeFieldOf .externalForecast ms)
      (CarriesSlice (CarriesForecast full) x.ExternalForecast) (x.ExternalForecast = none)

/-- A JSON object carries a `StopData` under the keys `id`, `name`, `type`,
`routePath`. With `full = true` every key is present at every level; with
`full = false` any key may be missing, and the field it names is then zero. -/
def CarriesStopData (full : Bool) (x : StopData) (j : JSON) : Prop :=
  ∃ ms, j = .object ms ∧
    FieldCarried full (memberValues stopFieldOf .id ms) (CarriesString x.ID) (x.ID = []) ∧
    FieldCarried full (memberValues stopFieldOf .name ms) (CarriesString x.Name) (x.Name = []) ∧
    FieldCarried full (memberValues stopFieldOf .type ms) (CarriesString x.Type_) (x.Type_ = []) ∧
    FieldCarried full (memberValues stopFieldOf .routePath ms)
      (CarriesSlice (CarriesRoutePath full) x.RoutePath) (x.RoutePath = none)

/-- The JSON value `json.Marshal` writes for a slice. -/
def sliceToJSON {S : Type} (f : S → JSON) : Option (List S) → JSON
  | none => .null
  | some xs => .array (xs.map f)

/-- The JSON value `json.Marshal` writes for a `Forecast`. -/
def Forecast.toJSON (x : Forecast) : JSON :=
  .object
    [(ForecastField.time.key, .number (fmtInt x.Time)),
     (ForecastField.byTelemetry.key, .number (fmtInt x.ByTelemetry)),
     (ForecastField.tmId.key, .number (fmtInt x.TmID)),
     (ForecastField.routePathId.key, .string x.RoutePathID)]

/-- The JSON value `json.Marshal` writes for a `RoutePath`. -/
def RoutePath.toJSON (x : RoutePath) : JSON :=
  .object
    [(RouteField.id.key, .string x.ID),
     (RouteField.type.key, .string x.Type_),
     (RouteField.number.key, .string x.Number),
     (RouteField.lastStopName.key, .string x.LastStopName),
     (RouteField.color.key, .string x.Color),
     (RouteField.fontColor.key, .string x.FontColor),
     (RouteField.externalForecast.key, sliceToJSON Forecast.toJSON x.ExternalForecast)]

/-- The JSON value `json.Marshal` writes for a `StopData`. -/
def StopData.toJSON (x : StopData) : JSON :=
  .object
    [(StopField.id.key, .string x.ID),
     (StopField.name.key, .string x.Name),
     (StopField.type.key, .string x.Type_),
     (StopField.routePath.key, sliceToJSON RoutePath.toJSON x.RoutePath)]

/-! ## JSON values of the wrong shape -/

/-- A value a `string` field rejects: neither `null` nor a string. -/
def wrongForString : JSON → Bool
  | .null | .string _ => false
  | _ => true

/-- A value an `int` field rejects by its JSON type: neither `null` nor a number. -/
def wrongForInt : JSON → Bool
  | .null | .number _ => false
  | _ => true

/-- A value a slice field rejects: neither `null` nor an array. -/
def wrongForSlice : JSON → Bool
  | .null | .array _ => false
  | _ => true

/-- A value a structure rejects: neither `null` nor an object. -/
def wrongForStruct : JSON → Bool
  | .null | .object _ => false
  | _ => true

/-- The values a field of `Forecast` rejects by their JSON type. -/
def ForecastField.wrong : ForecastField → JSON → Bool
  | .routePathId => wrongForString
  | _ => wrongForInt

/-- The values a field of `RoutePath` rejects by their JSON type. -/
def RouteField.wrong : RouteField → JSON → Bool
  | .externalForecast => wrongForSlice
  | _ => wrongForString

/-- The values a field of `StopData` rejects by their JSON type. -/
def StopField.wrong : StopField → JSON → Bool
  | .routePath => wrongForSlice
  | _ => wrongForString

/-- A JSON value does not have the shape of a `Forecast`: it is not an object
(nor `null`), or a member taken for a field holds a value of the wrong type. -/
def MismatchForecast (j : JSON) : Prop :=
  wrongForStruct j = true ∨
    ∃ ms m f, j = .object ms ∧ m ∈ ms ∧ forecastFieldOf m.1 = some f ∧ f.wrong m.2 = true

/-- A JSON value does not have the shape of a `RoutePath`, at its own level
or in one of its forecasts. -/
def MismatchRoutePath (j : JSON) : Prop :=
  wrongForStruct j = true ∨
    ∃ ms m f, j = .object ms ∧ m ∈ ms ∧ routeFieldOf m.1 = some f ∧
      (f.wrong m.2 = true ∨
        (f = .externalForecast ∧ ∃ es e, m.2 = .array es ∧ e ∈ es ∧ MismatchForecast e))

/-- A JSON value does not have the shape of a `StopData`, at its own level,
in one of its routes or in one of their forecasts. -/
def MismatchStopData (j : JSON) : Prop :=
  wrongForStruct j = true ∨
    ∃ ms m f, j = .object ms ∧ m ∈ ms ∧ stopFieldOf m.1 = some f ∧
      (f.wrong m.2 = true ∨
        (f = .routePath ∧ ∃ es e, m.2 = .array es ∧ e ∈ es ∧ MismatchRoutePath e))

/-! ## The test fixture (`api/client_test.go`) -/

/-- The constant `testStopID`. -/
def testStopID : GoString := bytesOf "9d7f733a-d532-4fca-a922-4c978b79681c"

/-- The constant `fakeAPIResponse`. -/
def fakeAPIResponse : GoString := bytesOf
  ("\n\x7b\n    \"id\": \"9d7f733a-d532-4fca-a922-4c978b79681c\",\n" ++
   "    \"name\": \"ул. Льва Толстого\",\n" ++
   "    \"type\": \"ground\",\n" ++
   "    \"routePath\": [\n" ++
   "        \x7b\n" ++
   "            \"id\": \"bus_123\",\n" ++
   "            \"type\": \"bus\",\n" ++
   "            \"number\": \"М10\",\n" ++
   "            \"lastStopName\": \"Киевский вокзал\",\n" ++
   "            \"color\": \"#FF0000\",\n" ++
   "            \"fontColor\": \"#FFFFFF\",\n" ++
   "            \"externalForecast\": [\n" ++
   "                \x7b\n" ++
   "                    \"time\": 1719752400,\n" ++
   "                    \"byTelemetry\": 1,\n" ++
   "                    \"tmId\": 987654,\n" ++
   "                    \"routePathId\": \"bus_123\"\n" ++
   "                \x7d\n" ++
   "            ]\n" ++
   "        \x7d\n" ++
   "    ]\n" ++
   "\x7d\n")

/-- The value `TestGetStopData_Success` expects. -/
def fixtureStop : StopData :=
  { ID := bytesOf "9d7f733a-d532-4fca-a922-4c978b79681c",
    Name := bytesOf "ул. Льва Толстого",
    Type_ := bytesOf "ground",
    RoutePath := some
      [{ ID := bytesOf "bus_123", Type_ := bytesOf "bus", Number := bytesOf "М10",
         LastStopName := bytesOf "Киевский вокзал", Color := bytesOf "#FF0000",
         FontColor := bytesOf "#FFFFFF",
         ExternalForecast := some
           [{ Time := 1719752400, ByTelemetry := 1, TmID := 987654,
              RoutePathID := bytesOf "bus_123" }] }] }

/-- A response with status 200 whose body is read without error. -/
def okResponse (body : List Nat) : Response := { StatusCode := 200, Body := body, ReadErr := none }

/-! ## Agreement of two structures on a field -/

/-- Two `Forecast`s have the same value in a field. -/
def ForecastField.agree : ForecastField → Forecast → Forecast → Prop
  | .time, a, b => a.Time = b.Time
  | .byTelemetry, a, b => a.ByTelemetry = b.ByTelemetry
  | .tmId, a, b => a.TmID = b.TmID
  | .routePathId, a, b => a.RoutePathID = b.RoutePathID

/-- Two `RoutePath`s have the same value in a field. -/
def RouteField.agree : RouteField → RoutePath → RoutePath → Prop
  | .id, a, b => a.ID = b.ID
  | .type, a, b => a.Type_ = b.Type_
  | .number, a, b => a.Number = b.Number
  | .lastStopName, a, b => a.LastStopName = b.LastStopName
  | .color, a, b => a.Color = b.Color
  | .fontColor, a, b => a.FontColor = b.FontColor
  | .externalForecast, a, b => a.ExternalForecast = b.ExternalForecast

/-- Two `StopData`s have the same value in a field. -/
def StopField.agree : StopField → StopData → StopData → Prop
  | .id, a, b => a.ID = b.ID
  | .name, a, b => a.Name = b.Name
  | .type, a, b => a.Type_ = b.Type_
  | .routePath, a, b => a.RoutePath = b.RoutePath

/-! ## Texts that the scanner reads as a given value -/

/-- The input after a value in the output of the encoder: nothing, a comma,
a closing brace or a closing bracket. -/
def Delim (rest : List Nat) : Prop :=
  rest = [] ∨ ∃ c cs, rest = c :: cs ∧ (c = 44 ∨ c = 125 ∨ c = 93)

/-- A text is read as a JSON value: it starts with neither white space nor a
closing bracket, and wherever it stands before a delimiter, at a nesting
depth that leaves room for its own `n` levels and with the recursion bound of
`parseJSON`, the scanner reads the value and stops right after the text. -/
def ParsesTo (n : Nat) (txt : List Nat) (j : JSON) : Prop :=
  (∃ c cs, txt = c :: cs ∧ isSpace c = false ∧ c ≠ 93) ∧
  ∀ f d rest, 2 * (txt ++ rest).length < f → d + n ≤ maxNestingDepth → Delim rest →
    parseValue f d (txt ++ rest) = some (j, rest)


/-! ## JSON values with well-formed strings -/

/-- Every string value inside a JSON value is valid UTF-8. -/
inductive StringsValid : JSON → Prop
  | null : StringsValid .null
  | bool (b : Bool) : StringsValid (.bool b)
  | number (lit : List Nat) : StringsValid (.number lit)
  | string (s : GoString) : utf8Valid 0 s = true → StringsValid (.string s)
  | array (es : List JSON) : (∀ e ∈ es, StringsValid e) → StringsValid (.array es)
  | object (ms : List (GoString × JSON)) : (∀ m ∈ ms, StringsValid m.2) →
      StringsValid (.object ms)

/-! ## Sample responses -/

/-- A response body in which keys are missing at every level. -/
def sparseBody : List Nat := bytesOf
  "\x7b\"name\":\"x\", \"routePath\":[\x7b\"number\":\"7\",\"externalForecast\":[\x7b\"tmId\":5\x7d]\x7d]\x7d"

/-- The JSON value of `sparseBody`. -/
def sparseJSON : JSON :=
  .object
    [(bytesOf "name", .string (bytesOf "x")),
     (bytesOf "routePath", .array
       [.object
         [(bytesOf "number", .string (bytesOf "7")),
          (bytesOf "externalForecast", .array
            [.object [(bytesOf "tmId", .number (bytesOf "5"))]])]])]

/-- The structure `sparseBody` stands for: the fields without a key are zero. -/
def sparseStop : StopData :=
  { ID := [], Name := bytesOf "x", Type_ := [],
    RoutePath := some
      [{ ID := [], Type_ := [], Number := bytesOf "7", LastStopName := [], Color := [],
         FontColor := [],
         ExternalForecast := some [{ Time := 0, ByTelemetry := 0, TmID := 5, RoutePathID := [] }] }] }

/-- A response body in which the key `time` holds a string. -/
def mismatchBody : List Nat := bytesOf
  "\x7b\"routePath\":[\x7b\"externalForecast\":[\x7b\"time\":\"soon\"\x7d]\x7d]\x7d"

/-- The JSON object of the forecast in `mismatchBody`. -/
def mismatchForecastJSON : JSON := .object [(bytesOf "time", .string (bytesOf "soon"))]

/-- The JSON object of the route in `mismatchBody`. -/
def mismatchRouteJSON : JSON :=
  .object [(bytesOf "externalForecast", .array [mismatchForecastJSON])]

/-- The JSON value of `mismatchBody`. -/
def mismatchJSON : JSON := .object [(bytesOf "routePath", .array [mismatchRouteJSON])]

/-- A `StopData` whose name is the single byte `0xFF`, which is not UTF-8. -/
def invalidNameStop : StopData := { ID := [], Name := [0xFF], Type_ := [], RoutePath := none }

/-- The same with the name replaced by the encoding of U+FFFD. -/
def replacedNameStop : StopData :=
  { ID := [], Name := [0xEF, 0xBF, 0xBD], Type_ := [], RoutePath := none }

/-! ## The JSON grammar

The grammar of RFC 8259, on bytes: the reference against which the scanner
is checked. As in the scanner of `encoding/json`, the bytes of a string are
not required to be UTF-8. -/

/-- White space: spaces, tabs, line feeds and carriage returns. -/
def JsonWs (l : List Nat) : Prop := ∀ c ∈ l, c = 32 ∨ c = 9 ∨ c = 10 ∨ c = 13

/-- A hexadecimal digit. -/
def IsHexDigit (c : Nat) : Prop := (48 ≤ c ∧ c ≤ 57) ∨ (65 ≤ c ∧ c ≤ 70) ∨ (97 ≤ c ∧ c ≤ 102)

/-- The characters of a string, between the quotes: any byte from `0x20` on
other than the quote and the backslash, or an escape. -/
inductive JsonChars : List Nat → Prop
  | nil : JsonChars []
  | unescaped (c : Nat) (l : List Nat) : 32 ≤ c → c ≠ 34 → c ≠ 92 → JsonChars l →
      JsonChars (c :: l)
  | escape (e : Nat) (l : List Nat) :
      (e = 34 ∨ e = 92 ∨ e = 47 ∨ e = 98 ∨ e = 102 ∨ e = 110 ∨ e = 114 ∨ e = 116) →
      JsonChars l → JsonChars (92 :: e :: l)
  | unicode (a b c d : Nat) (l : List Nat) : IsHexDigit a → IsHexDigit b → IsHexDigit c →
      IsHexDigit d → JsonChars l → JsonChars (92 :: 117 :: a :: b :: c :: d :: l)

/-- Decimal digits, possibly none. -/
def AllDigits (l : List Nat) : Prop := ∀ c ∈ l, 48 ≤ c ∧ c ≤ 57

/-- The integer part of a number: `0`, or a digit from 1 to 9 and more digits. -/
def JsonInt (l : List Nat) : Prop :=
  l = [48] ∨ ∃ d ds, l = d :: ds ∧ 49 ≤ d ∧ d ≤ 57 ∧ AllDigits ds

/-- The optional fraction of a number: a point and at least one digit. -/
def JsonFrac (l : List Nat) : Prop :=
  l = [] ∨ ∃ d ds, l = 46 :: d :: ds ∧ AllDigits (d :: ds)

/-- The optional exponent of a number: `e` or `E`, an optional sign and at
least one digit. -/
def JsonExp (l : List Nat) : Prop :=
  l = [] ∨ ∃ e sign d ds, l = e :: (sign ++ d :: ds) ∧ (e = 101 ∨ e = 69) ∧
    (sign = [] ∨ sign = [43] ∨ sign = [45]) ∧ AllDigits (d :: ds)

/-- A number: an optional minus, the integer part, the fraction, the exponent. -/
def JsonNumber (l : List Nat) : Prop :=
  ∃ minus int frac exp, l = minus ++ (int ++ (frac ++ exp)) ∧ (minus = [] ∨ minus = [45]) ∧
    JsonInt int ∧ JsonFrac frac ∧ JsonExp exp

mutual
/-- A JSON value, without white space around it. -/
inductive JsonValue : List Nat → Prop
  | litNull : JsonValue [110, 117, 108, 108]
  | litTrue : JsonValue [116, 114, 117, 101]
  | litFalse : JsonValue [102, 97, 108, 115, 101]
  | number (l : List Nat) : JsonNumber l → JsonValue l
  | string (l : List Nat) : JsonChars l → JsonValue (34 :: (l ++ [34]))
  | emptyArray (w : List Nat) : JsonWs w → JsonValue (91 :: (w ++ [93]))
  | array (b : List Nat) : JsonElements b → JsonValue (91 :: (b ++ [93]))
  | emptyObject (w : List Nat) : JsonWs w → JsonValue (123 :: (w ++ [125]))
  | object (b : List Nat) : JsonMembers b → JsonValue (123 :: (b ++ [125]))
/-- The inside of a non-empty array: values separated by commas, with white
space around each. -/
inductive JsonElements : List Nat → Prop
  | one (w1 v w2 : List Nat) : JsonWs w1 → JsonValue v → JsonWs w2 →
      JsonElements (w1 ++ (v ++ w2))
  | more (w1 v w2 b : List Nat) : JsonWs w1 → JsonValue v → JsonWs w2 → JsonElements b →
      JsonElements (w1 ++ (v ++ (w2 ++ 44 :: b)))
/-- The inside of a non-empty object: members separated by commas, each a
string, a colon and a value, with white space around each part. -/
inductive JsonMembers : List Nat → Prop
  | one (w1 k w2 w3 v w4 : List Nat) : JsonWs w1 → JsonChars k → JsonWs w2 → JsonWs w3 →
      JsonValue v → JsonWs w4 →
      JsonMembers (w1 ++ 34 :: (k ++ 34 :: (w2 ++ 58 :: (w3 ++ (v ++ w4)))))
  | more (w1 k w2 w3 v w4 b : List Nat) : JsonWs w1 → JsonChars k → JsonWs w2 → JsonWs w3 →
      JsonValue v → JsonWs w4 → JsonMembers b →
      JsonMembers (w1 ++ 34 :: (k ++ 34 :: (w2 ++ 58 :: (w3 ++ (v ++ (w4 ++ 44 :: b))))))
end

/-- A JSON text: one value with white space around it. -/
def JsonText (l : List Nat) : Prop :=
  ∃ w1 v w2, JsonWs w1 ∧ JsonValue v ∧ JsonWs w2 ∧ l = w1 ++ (v ++ w2)

/-- What the scanner may still read of a number from each of its states. -/
def NumTail : NumState → List Nat → Prop
  | .neg, l => ∃ int frac exp, l = int ++ (frac ++ exp) ∧ JsonInt int ∧ JsonFrac frac ∧ JsonExp exp
  | .zero, l => ∃ frac exp, l = frac ++ exp ∧ JsonFrac frac ∧ JsonExp exp
  | .int, l => ∃ ds frac exp, l = ds ++ (frac ++ exp) ∧ AllDigits ds ∧ JsonFrac frac ∧ JsonExp exp
  | .dot, l => ∃ d ds exp, l = (d :: ds) ++ exp ∧ AllDigits (d :: ds) ∧ JsonExp exp
  | .frac, l => ∃ ds exp, l = ds ++ exp ∧ AllDigits ds ∧ JsonExp exp
  | .e, l => ∃ sign d ds, l = sign ++ d :: ds ∧ (sign = [] ∨ sign = [43] ∨ sign = [45]) ∧
      AllDigits (d :: ds)
  | .esign, l => ∃ d ds, l = d :: ds ∧ AllDigits (d :: ds)
  | .exp, l => AllDigits l

/-! ## JSON values in which `null` stands for a value -/

/-- A member value is `null` and the field is zero, or it carries the field. -/
def NullOr (C : JSON → Prop) (isZero : Prop) (j : JSON) : Prop := (j = .null ∧ isZero) ∨ C j

/-- A JSON value stands for a `Forecast`, `null` allowed: it is `null` and the
`Forecast` is zero, or it is an object in which each key of the schema is
missing, holds `null` (the field is zero in both cases) or carries the field. -/
def NullableForecast (x : Forecast) (j : JSON) : Prop :=
  (j = .null ∧ x = Forecast.zero) ∨
  ∃ ms, j = .object ms ∧
    FieldCarried false (memberValues forecastFieldOf .time ms)
      (NullOr (CarriesInt x.Time) (x.Time = 0)) (x.Time = 0) ∧
    FieldCarried false (memberValues forecastFieldOf .byTelemetry ms)
      (NullOr (CarriesInt x.ByTelemetry) (x.ByTelemetry = 0)) (x.ByTelemetry = 0) ∧
    FieldCarried false (memberValues forecastFieldOf .tmId ms)
      (NullOr (CarriesInt x.TmID) (x.TmID = 0)) (x.TmID = 0) ∧
    FieldCarried false (memberValues forecastFieldOf .routePathId ms)
      (NullOr (CarriesString x.RoutePathID) (x.RoutePathID = [])) (x.RoutePathID = [])

/-- A JSON value stands for a `RoutePath`, `null` allowed in its place, in the
place of the value of each key and in the place of each forecast. -/
def NullableRoutePath (x : RoutePath) (j : JSON) : Prop :=
  (j = .null ∧ x = RoutePath.zero) ∨
  ∃ ms, j = .object ms ∧
    FieldCarried false (memberValues routeFieldOf .id ms)
      (NullOr (CarriesString x.ID) (x.ID = [])) (x.ID = []) ∧
    FieldCarried false (memberValues routeFieldOf .type ms)
      (NullOr (CarriesString x.Type_) (x.Type_ = [])) (x.Type_ = []) ∧
    FieldCarried false (memberValues routeFieldOf .number ms)
      (NullOr (CarriesString x.Number) (x.Number = [])) (x.Number = []) ∧
    FieldCarried false (memberValues routeFieldOf .lastStopName ms)
      (NullOr (CarriesString x.LastStopName) (x.LastStopName = [])) (x.LastStopName = []) ∧
    FieldCarried false (memberValues routeFieldOf .color ms)
      (NullOr (CarriesString x.Color) (x.Color = [])) (x.Color = []) ∧
    FieldCarried false (memberValues routeFieldOf .fontColor ms)
      (NullOr (CarriesString x.FontColor) (x.FontColor = [])) (x.FontColor = []) ∧
    FieldCarried false (memberValues routeFieldOf .externalForecast ms)
      (CarriesSlice NullableForecast x.ExternalForecast) (x.ExternalForecast = none)

/-- A JSON value stands for a `StopData`, `null` allowed wherever a value
stands: as the whole value, as the value of a key at any level, and as an
element of `routePath` or of `externalForecast`. What is `null` or missing is
zero in the `StopData`. -/
def NullableStopData (x : StopData) (j : JSON) : Prop :=
  (j = .null ∧ x = StopData.zero) ∨
  ∃ ms, j = .object ms ∧
    FieldCarried false (memberValues stopFieldOf .id ms)
      (NullOr (CarriesString x.ID) (x.ID = [])) (x.ID = []) ∧
    FieldCarried false (memberValues stopFieldOf .name ms)
      (NullOr (CarriesString x.Name) (x.Name = [])) (x.Name = []) ∧
    FieldCarried false (memberValues stopFieldOf .type ms)
      (NullOr (CarriesString x.Type_) (x.Type_ = [])) (x.Type_ = []) ∧
    FieldCarried false (memberValues stopFieldOf .routePath ms)
      (CarriesSlice NullableRoutePath x.RoutePath) (x.RoutePath = none)

/-- A response in which `null` stands under keys of every kind and as an
element of both arrays. -/
def nullBody : List Nat := bytesOf
  ("\x7b\"id\":null,\"name\":\"x\",\"routePath\":[null,\x7b\"number\":null," ++
    "\"externalForecast\":[null,\x7b\"time\":null,\"tmId\":5,\"routePathId\":null\x7d]\x7d," ++
    "\x7b\"externalForecast\":null\x7d]\x7d")

/-- The JSON value of `nullBody`. -/
def nullJSON : JSON :=
  .object
    [(bytesOf "id", .null),
     (bytesOf "name", .string (bytesOf "x")),
     (bytesOf "routePath", .array
       [.null,
        .object
          [(bytesOf "number", .null),
           (bytesOf "externalForecast", .array
             [.null,
              .object [(bytesOf "time", .null), (bytesOf "tmId", .number (bytesOf "5")),
                       (bytesOf "routePathId", .null)]])],
        .object [(bytesOf "externalForecast", .null)]])]

/-- The structure `nullBody` stands for: what is `null` is zero. -/
def nullStop : StopData :=
  { ID := [], Name := bytesOf "x", Type_ := [],
    RoutePath := some
      [RoutePath.zero,
       { RoutePath.zero with
         ExternalForecast := some [Forecast.zero, { Forecast.zero with TmID := 5 }] },
       RoutePath.zero] }

/-! ## Strings through the encoder and the decoder -/

/-- What `json.Marshal` followed by `json.Unmarshal` makes of a Go string:
each byte that is not part of a valid UTF-8 encoding becomes the three bytes
`EF BF BD` of U+FFFD, and the valid encodings stay as they are. The counter
says how many bytes of the current rune are still to be passed. -/
def toValidUTF8 : Nat → GoString → GoString
  | _, [] => []
  | k + 1, c :: cs => c :: toValidUTF8 k cs
  | 0, c :: cs =>
    if c < 0x80 then c :: toValidUTF8 0 cs
    else if (decodeRune (c :: cs)).2 = 1 then [0xEF, 0xBF, 0xBD] ++ toValidUTF8 0 cs
    else c :: toValidUTF8 ((decodeRune (c :: cs)).2 - 1) cs

/-- A `Forecast` with the invalid bytes of its string replaced. -/
def Forecast.toValid (x : Forecast) : Forecast :=
  { x with RoutePathID := toValidUTF8 0 x.RoutePathID }

/-- A `RoutePath` with the invalid bytes of its strings replaced, at both levels. -/
def RoutePath.toValid (x : RoutePath) : RoutePath :=
  { ID := toValidUTF8 0 x.ID, Type_ := toValidUTF8 0 x.Type_, Number := toValidUTF8 0 x.Number,
    LastStopName := toValidUTF8 0 x.LastStopName, Color := toValidUTF8 0 x.Color,
    FontColor := toValidUTF8 0 x.FontColor,
    ExternalForecast := x.ExternalForecast.map (fun xs => xs.map Forecast.toValid) }

/-- A `StopData` with the invalid bytes of its strings replaced, at every level. -/
def StopData.toValid (x : StopData) : StopData :=
  { ID := toValidUTF8 0 x.ID, Name := toValidUTF8 0 x.Name, Type_ := toValidUTF8 0 x.Type_,
    RoutePath := x.RoutePath.map (fun xs => xs.map RoutePath.toValid) }

/-- The integers of a `Forecast` are Go `int`s. -/
def Forecast.IntsInRange (x : Forecast) : Prop :=
  InRange x.Time ∧ InRange x.ByTelemetry ∧ InRange x.TmID

/-- The integers of a `RoutePath` are Go `int`s. -/
def RoutePath.IntsInRange (x : RoutePath) : Prop :=
  sliceAll Forecast.IntsInRange x.ExternalForecast

/-- The integers of a `StopData` are Go `int`s. -/
def StopData.IntsInRange (x : StopData) : Prop :=
  sliceAll RoutePath.IntsInRange x.RoutePath

/-- A `StopData` with strings that are not UTF-8 at every level: a lone
continuation byte, two invalid bytes between letters, a rune cut short. -/
def invalidStop : StopData :=
  { ID := [0x80], Name := [0x61, 0xFF, 0xFE, 0x62], Type_ := [0xE4, 0xB8],
    RoutePath := some
      [{ ID := [], Type_ := [], Number := [0xD0, 0x9C, 0xFF, 0x31], LastStopName := [],
         Color := [], FontColor := [],
         ExternalForecast := some
           [{ Time := 1, ByTelemetry := 0, TmID := 2, RoutePathID := [0xC0, 0x41] }] }] }

/-- What `invalidStop` comes back as: `EF BF BD` for each invalid byte. -/
def invalidStopDecoded : StopData :=
  { ID := [0xEF, 0xBF, 0xBD], Name := [0x61, 0xEF, 0xBF, 0xBD, 0xEF, 0xBF, 0xBD, 0x62],
    Type_ := [0xEF, 0xBF, 0xBD, 0xEF, 0xBF, 0xBD],
    RoutePath := some
      [{ ID := [], Type_ := [], Number := [0xD0, 0x9C, 0xEF, 0xBF, 0xBD, 0x31],
         LastStopName := [], Color := [], FontColor := [],
         ExternalForecast := some
           [{ Time := 1, ByTelemetry := 0, TmID := 2,
              RoutePathID := [0xEF, 0xBF, 0xBD, 0x41] }] }] }

/-! ## The client: requests and errors -/

/-- What `doRequest` does once the request is built and answered. -/
theorem doRequest_answered (w : World) (c : APIClient) (endpoint : GoString) (resp : Response)
    (hreq : w.NewRequest (bytesOf "GET") (c.baseURL ++ endpoint) = none)
    (hdo : w.Do c.client (buildRequest (c.baseURL ++ endpoint)) = .ok resp) :
    doRequest w c endpoint =
      if resp.StatusCode ≠ 200 then
        (([], some ⟨bytesOf "bad status code: " ++ fmtInt resp.StatusCode⟩),
          ⟨[buildRequest (c.baseURL ++ endpoint)],
            if DEBUG then [bytesOf "DEBUG: Error response body: " ++ resp.Body ++ bytesOf "\n"]
            else []⟩)
      else ((resp.Body, resp.ReadErr), ⟨[buildRequest (c.baseURL ++ endpoint)], []⟩) := by
  unfold doRequest
  rw [hreq]
  simp only [hdo]

/-- What `GetStopData` returns on a response with status 200 whose body was
read without error: the outcome of `json.Unmarshal` on the body. -/
theorem GetStopData_ok_body (w : World) (c : APIClient) (stopID : GoString) (resp : Response)
    (hreq : w.NewRequest (bytesOf "GET") (stopURL c stopID) = none)
    (hdo : w.Do c.client (buildRequest (stopURL c stopID)) = .ok resp)
    (hs : resp.StatusCode = 200) (hr : resp.ReadErr = none) :
    (GetStopData w c stopID).1 =
      match (Unmarshal resp.Body StopData.zero).2 with
      | some e => (none, some ⟨bytesOf "decode error: " ++ w.errorText e⟩)
      | none => (some (Unmarshal resp.Body StopData.zero).1, none) := by
  unfold stopURL at hreq hdo
  unfold GetStopData
  rw [doRequest_answered w c _ resp hreq hdo]
  simp only [hs, ne_eq, not_true_eq_false, if_false, hr]
  cases (Unmarshal resp.Body StopData.zero).2 <;> rfl

/-- The requests `doRequest` hands to the transport: none when the request
cannot be built, the built request otherwise. -/
theorem doRequest_sent (w : World) (c : APIClient) (endpoint : GoString) :
    (doRequest w c endpoint).2.sent =
      if w.NewRequest (bytesOf "GET") (c.baseURL ++ endpoint) = none then
        [buildRequest (c.baseURL ++ endpoint)]
      else [] := by
  unfold doRequest
  cases h : w.NewRequest (bytesOf "GET") (c.baseURL ++ endpoint) with
  | some err => simp
  | none =>
    cases h2 : w.Do c.client (buildRequest (c.baseURL ++ endpoint)) with
    | error err => simp
    | ok resp => by_cases hs : resp.StatusCode = 200 <;> simp [hs]

/-- The requests `GetStopData` hands to the transport are those of `doRequest`. -/
theorem GetStopData_effects (w : World) (c : APIClient) (stopID : GoString) :
    (GetStopData w c stopID).2 = (doRequest w c (bytesOf "stop_v2/" ++ stopID)).2 := by
  unfold GetStopData
  cases (doRequest w c (bytesOf "stop_v2/" ++ stopID)).1.2 with
  | some err => rfl
  | none =>
    cases (Unmarshal (doRequest w c (bytesOf "stop_v2/" ++ stopID)).1.1 StopData.zero).2 <;> rfl

/-- C1: on a response whose status is not 200, `GetStopData` returns a nil
result and the error `bad status code: ` followed by the status in decimal,
whatever the body holds and whether or not it could be read. -/
theorem GetStopData_bad_status (w : World) (c : APIClient) (stopID : GoString) (resp : Response)
    (hreq : w.NewRequest (bytesOf "GET") (stopURL c stopID) = none)
    (hdo : w.Do c.client (buildRequest (stopURL c stopID)) = .ok resp)
    (hs : resp.StatusCode ≠ 200) :
    (GetStopData w c stopID).1 =
      (none, some ⟨bytesOf "bad status code: " ++ fmtInt resp.StatusCode⟩) := by
  unfold stopURL at hreq hdo
  unfold GetStopData
  rw [doRequest_answered w c _ resp hreq hdo]
  simp only [hs, ne_eq, not_false_eq_true, if_true]

/-- Witness of C1: status 404 with the body of the test fixture. -/
theorem GetStopData_bad_status_witness :
    (404 : Int) ≠ 200 ∧
    fmtInt 404 = bytesOf "404" ∧
    (GetStopData (constWorld ⟨404, fakeAPIResponse, none⟩) NewClient testStopID).1 =
      (none, some ⟨bytesOf "bad status code: " ++ fmtInt 404⟩) :=
  ⟨by decide, by decide,
    GetStopData_bad_status (constWorld ⟨404, fakeAPIResponse, none⟩) NewClient testStopID
      ⟨404, fakeAPIResponse, none⟩ rfl rfl (by decide)⟩

/-- C8: `SetBaseURL` sets the base URL to the string given, whatever it is,
and leaves the HTTP client and its timeout of ten seconds as they were; the
next `GetStopData` asks for the new base URL followed by `stop_v2/` and the
identifier. -/
theorem SetBaseURL_spec (w : World) (c : APIClient) (u stopID : GoString) :
    (SetBaseURL c u).baseURL = u ∧
    (SetBaseURL c u).client = c.client ∧
    (SetBaseURL NewClient u).client.Timeout = 10 * Second ∧
    (GetStopData w (SetBaseURL c u) stopID).2.sent =
      if w.NewRequest (bytesOf "GET") (u ++ bytesOf "stop_v2/" ++ stopID) = none then
        [buildRequest (u ++ bytesOf "stop_v2/" ++ stopID)]
      else [] := by
  refine ⟨rfl, rfl, rfl, ?_⟩
  rw [GetStopData_effects, doRequest_sent, List.append_assoc]
  rfl

/-- C9: `GetStopData` returns either a result and no error, or no result and
an error; and an error of `doRequest` is returned as it is, with no result,
whatever the body and the decoder. -/
theorem GetStopData_result_xor_error (w : World) (c : APIClient) (stopID : GoString) :
    (((GetStopData w c stopID).1.1.isSome = true ∧ (GetStopData w c stopID).1.2 = none) ∨
      ((GetStopData w c stopID).1.1 = none ∧ (GetStopData w c stopID).1.2.isSome = true)) ∧
    (∀ err, (doRequest w c (bytesOf "stop_v2/" ++ stopID)).1.2 = some err →
      (GetStopData w c stopID).1 = (none, some err)) := by
  constructor
  · unfold GetStopData
    cases (doRequest w c (bytesOf "stop_v2/" ++ stopID)).1.2 with
    | some err => right; exact ⟨rfl, rfl⟩
    | none =>
      cases (Unmarshal (doRequest w c (bytesOf "stop_v2/" ++ stopID)).1.1 StopData.zero).2 with
      | some e => right; exact ⟨rfl, rfl⟩
      | none => left; exact ⟨rfl, rfl⟩
  · intro err h
    unfold GetStopData
    rw [h]

/-- Witness of C9: a transport that fails; its error comes back wrapped by
`doRequest` and unchanged by `GetStopData`. -/
theorem GetStopData_result_xor_error_witness :
    (GetStopData { constWorld (okResponse []) with Do := fun _ _ => .error ⟨bytesOf "timeout"⟩ }
        NewClient testStopID).1 = (none, some ⟨bytesOf "request error: timeout"⟩) :=
  (GetStopData_result_xor_error
    { constWorld (okResponse []) with Do := fun _ _ => .error ⟨bytesOf "timeout"⟩ }
    NewClient testStopID).2 ⟨bytesOf "request error: timeout"⟩ (by decide)

/-- C10: every request `doRequest` (and so `GetStopData`) hands to the
transport is a GET request without body whose header holds exactly
`Mozilla/5.0` under `User-Agent` and `application/json` under `Accept`. -/
theorem doRequest_request_shape (w : World) (c : APIClient) (endpoint stopID : GoString)
    (r : Request)
    (hr : r ∈ (doRequest w c endpoint).2.sent ∨ r ∈ (GetStopData w c stopID).2.sent) :
    r.Method = bytesOf "GET" ∧ r.Body = none ∧
    r.Header.Values (bytesOf "User-Agent") = [bytesOf "Mozilla/5.0"] ∧
    r.Header.Values (bytesOf "Accept") = [bytesOf "application/json"] := by
  have key : ∀ url, r = buildRequest url →
      r.Method = bytesOf "GET" ∧ r.Body = none ∧
      r.Header.Values (bytesOf "User-Agent") = [bytesOf "Mozilla/5.0"] ∧
      r.Header.Values (bytesOf "Accept") = [bytesOf "application/json"] := by
    intro url h
    subst h
    refine ⟨rfl, rfl, ?_, ?_⟩
    · show (buildRequest []).Header.Values (bytesOf "User-Agent") = [bytesOf "Mozilla/5.0"]
      decide
    · show (buildRequest []).Header.Values (bytesOf "Accept") = [bytesOf "application/json"]
      decide
  rw [GetStopData_effects, doRequest_sent, doRequest_sent] at hr
  rcases hr with hr | hr
  · split at hr
    · exact key _ (List.mem_singleton.mp hr)
    · cases hr
  · split at hr
    · exact key _ (List.mem_singleton.mp hr)
    · cases hr

/-- Witness of C10: the request of the default client for the stop of the tests. -/
theorem doRequest_request_shape_witness :
    buildRequest (stopURL NewClient testStopID) ∈
      (GetStopData (constWorld (okResponse [])) NewClient testStopID).2.sent ∧
    (buildRequest (stopURL NewClient testStopID)).Header.Values (bytesOf "Accept") =
      [bytesOf "application/json"] :=
  ⟨by decide,
    (doRequest_request_shape (constWorld (okResponse [])) NewClient [] testStopID
      (buildRequest (stopURL NewClient testStopID)) (Or.inr (by decide))).2.2.2⟩

/-! ## The decoder on objects -/

theorem decodeMembers_nil {F S : Type} (fieldOf : GoString → Option F)
    (dec : F → S → JSON → S × Option JsonError) (cur : S) :
    decodeMembers fieldOf dec cur [] = (cur, none) := rfl

theorem decodeMembers_cons_skip {F S : Type} (fieldOf : GoString → Option F)
    (dec : F → S → JSON → S × Option JsonError) (cur : S) (m : GoString × JSON)
    (ms : List (GoString × JSON)) (h : fieldOf m.1 = none) :
    decodeMembers fieldOf dec cur (m :: ms) = decodeMembers fieldOf dec cur ms := by
  simp only [decodeMembers, List.foldl_cons, h]

theorem decodeMembers_cons_ok {F S : Type} (fieldOf : GoString → Option F)
    (dec : F → S → JSON → S × Option JsonError) (cur : S) (m : GoString × JSON)
    (ms : List (GoString × JSON)) (f : F) (h : fieldOf m.1 = some f)
    (he : (dec f cur m.2).2 = none) :
    decodeMembers fieldOf dec cur (m :: ms) = decodeMembers fieldOf dec (dec f cur m.2).1 ms := by
  simp only [decodeMembers, List.foldl_cons, h, he, saveError]

theorem memberValues_cons {F : Type} [DecidableEq F] (fieldOf : GoString → Option F) (f : F)
    (m : GoString × JSON) (ms : List (GoString × JSON)) :
    memberValues fieldOf f (m :: ms) =
      if fieldOf m.1 = some f then m.2 :: memberValues fieldOf f ms
      else memberValues fieldOf f ms := by
  unfold memberValues
  by_cases h : fieldOf m.1 = some f <;> simp [List.filter_cons, h]

/-- Decoding the members of an object that holds at most one member for each
field: the fields without a member keep their value, the others take the
value their member carries, and no error is met. -/
theorem decodeMembers_carried {F S : Type} [DecidableEq F]
    (fieldOf : GoString → Option F) (dec : F → S → JSON → S × Option JsonError)
    (agree : F → S → S → Prop) (cur0 x : S)
    (hrefl : ∀ f a, agree f a a)
    (htrans : ∀ f a b c, agree f a b → agree f b c → agree f a c)
    (hext : ∀ a, (∀ f, agree f a x) → a = x)
    (hframe : ∀ f g a j, g ≠ f → agree f (dec g a j).1 a)
    (ms : List (GoString × JSON))
    (h : ∀ f, (memberValues fieldOf f ms = [] ∧ agree f cur0 x) ∨
      ∃ j, memberValues fieldOf f ms = [j] ∧
        ∀ a, agree f a cur0 → agree f (dec f a j).1 x ∧ (dec f a j).2 = none) :
    decodeMembers fieldOf dec cur0 ms = (x, none) := by
  have main : ∀ (ms : List (GoString × JSON)) (acc : S),
      (∀ f, (memberValues fieldOf f ms = [] ∧ agree f acc x) ∨
        ∃ j, memberValues fieldOf f ms = [j] ∧ agree f acc cur0 ∧
          ∀ a, agree f a cur0 → agree f (dec f a j).1 x ∧ (dec f a j).2 = none) →
      decodeMembers fieldOf dec acc ms = (x, none) := by
    intro ms
    induction ms with
    | nil =>
      intro acc hacc
      rw [decodeMembers_nil]
      have : acc = x := by
        apply hext
        intro f
        rcases hacc f with ⟨_, ha⟩ | ⟨j, hj, _⟩
        · exact ha
        · simp [memberValues] at hj
      rw [this]
    | cons m ms ih =>
      intro acc hacc
      cases hm : fieldOf m.1 with
      | none =>
        rw [decodeMembers_cons_skip _ _ _ _ _ hm]
        apply ih
        intro f
        have := hacc f
        rw [memberValues_cons, hm] at this
        simpa using this
      | some g =>
        have hg := hacc g
        rw [memberValues_cons, hm] at hg
        simp only [if_true] at hg
        rcases hg with ⟨hnil, _⟩ | ⟨j, hj, hag, hgood⟩
        · cases hnil
        · have hj1 : m.2 = j := (List.cons.inj hj).1
          have hj2 : memberValues fieldOf g ms = [] := (List.cons.inj hj).2
          have hd := hgood acc hag
          rw [← hj1] at hd
          rw [decodeMembers_cons_ok _ _ _ _ _ g hm hd.2]
          apply ih
          intro f
          by_cases hfg : f = g
          · subst hfg
            exact Or.inl ⟨hj2, hd.1⟩
          · have hf := hacc f
            rw [memberValues_cons, hm] at hf
            have hne : ¬ (some g = some f) := fun h => hfg (Option.some.inj h).symm
            simp only [hne, if_false] at hf
            have hfr := hframe f g acc m.2 (fun h => hfg h.symm)
            rcases hf with ⟨h1, h2⟩ | ⟨j2, h1, h2, h3⟩
            · exact Or.inl ⟨h1, htrans _ _ _ _ hfr h2⟩
            · exact Or.inr ⟨j2, h1, htrans _ _ _ _ hfr h2, h3⟩
  apply main
  intro f
  rcases h f with h1 | ⟨j, h1, h2⟩
  · exact Or.inl h1
  · exact Or.inr ⟨j, h1, hrefl _ _, h2⟩

theorem foldl_error_kept {F S : Type} (fieldOf : GoString → Option F)
    (dec : F → S → JSON → S × Option JsonError) (ms : List (GoString × JSON)) :
    ∀ (acc : S × Option JsonError), acc.2.isSome = true →
      (ms.foldl (fun acc m =>
        match fieldOf m.1 with
        | none => acc
        | some f => ((dec f acc.1 m.2).1, saveError acc.2 (dec f acc.1 m.2).2)) acc).2.isSome
        = true := by
  induction ms with
  | nil => intro acc h; exact h
  | cons m ms ih =>
    intro acc h
    rw [List.foldl_cons]
    apply ih
    cases hm : fieldOf m.1 with
    | none => exact h
    | some f =>
      cases hacc : acc.2 with
      | none => rw [hacc] at h; cases h
      | some e => simp [saveError, hacc]

/-- Decoding the members of an object of which one, taken for a field, holds
a value this field rejects: an error is reported. -/
theorem decodeMembers_error {F S : Type} (fieldOf : GoString → Option F)
    (dec : F → S → JSON → S × Option JsonError) (ms : List (GoString × JSON))
    (m : GoString × JSON) (f : F) (hm : m ∈ ms) (hf : fieldOf m.1 = some f)
    (hbad : ∀ a, (dec f a m.2).2.isSome = true) (cur : S) :
    (decodeMembers fieldOf dec cur ms).2.isSome = true := by
  have main : ∀ (ms : List (GoString × JSON)), m ∈ ms → ∀ (acc : S × Option JsonError),
      (ms.foldl (fun acc m =>
        match fieldOf m.1 with
        | none => acc
        | some f => ((dec f acc.1 m.2).1, saveError acc.2 (dec f acc.1 m.2).2)) acc).2.isSome
        = true := by
    intro ms
    induction ms with
    | nil => intro h; cases h
    | cons m1 ms ih =>
      intro h acc
      rw [List.foldl_cons]
      rcases List.mem_cons.mp h with h1 | h1
      · subst h1
        apply foldl_error_kept
        simp only [hf]
        cases hacc : acc.2 with
        | none => simpa [saveError] using hbad acc.1
        | some e => simp [saveError]
      · exact ih h1 _
  exact main ms hm (cur, none)

/-! ## The decoder on values that carry a structure -/

theorem decodeInt_carried (n : Int) (j : JSON) (h : CarriesInt n j) (a : Int) :
    decodeInt a j = (n, none) := by
  obtain ⟨lit, rfl, hl⟩ := h
  simp only [decodeInt, hl]

theorem decodeString_carried (s : GoString) (j : JSON) (h : CarriesString s j) (a : GoString) :
    decodeString a j = (s, none) := by
  unfold CarriesString at h
  subst h
  rfl

theorem decodeElems_carried {S : Type} (dec : S → JSON → S × Option JsonError) (zero : S)
    (es : List JSON) (ys : List S)
    (h : List.Forall₂ (fun e y => dec zero e = (y, none)) es ys) :
    decodeElems dec zero [] es = (ys, none) := by
  induction h with
  | nil => rfl
  | cons h1 _ ih =>
    simp only [decodeElems, List.headD_nil, List.tail_nil, h1, ih, saveError]

theorem decodeSlice_carried {S : Type} (dec : S → JSON → S × Option JsonError) (zero : S)
    (goType : String) (C : S → JSON → Prop) (hC : ∀ y e, C y e → dec zero e = (y, none))
    (xs : Option (List S)) (j : JSON) (h : CarriesSlice C xs j) :
    decodeSlice dec zero goType none j = (xs, none) := by
  rcases h with ⟨rfl, rfl⟩ | ⟨es, ys, rfl, rfl, hall⟩
  · rfl
  · have : decodeElems dec zero [] es = (ys, none) := by
      apply decodeElems_carried
      exact hall.imp (fun _ _ h => hC _ _ h)
    simp only [decodeSlice, Option.getD_none, this]

theorem FieldCarried.cases_on {full : Bool} {vals : List JSON} {C : JSON → Prop} {Z : Prop}
    (h : FieldCarried full vals C Z) : (vals = [] ∧ Z) ∨ ∃ j, vals = [j] ∧ C j := by
  rcases h with ⟨h1, _, h2⟩ | h
  · exact Or.inl ⟨h1, h2⟩
  · exact Or.inr h

/-- A JSON object that carries a `Forecast` decodes into it from the zero value. -/
theorem decodeForecast_carried (full : Bool) (x : Forecast) (j : JSON)
    (h : CarriesForecast full x j) : decodeForecast Forecast.zero j = (x, none) := by
  obtain ⟨ms, rfl, h1, h2, h3, h4⟩ := h
  show decodeMembers forecastFieldOf decodeForecastField Forecast.zero ms = (x, none)
  apply decodeMembers_carried forecastFieldOf decodeForecastField ForecastField.agree
  · intro f a; cases f <;> rfl
  · intro f a b c hab hbc; cases f <;> exact Eq.trans hab hbc
  · intro a ha
    have e1 := ha .time
    have e2 := ha .byTelemetry
    have e3 := ha .tmId
    have e4 := ha .routePathId
    cases a; cases x
    simp only [ForecastField.agree] at e1 e2 e3 e4
    simp only [e1, e2, e3, e4]
  · intro f g a j hne
    cases f <;> cases g <;> first | exact absurd rfl hne | rfl
  · intro f
    cases f
    · rcases h1.cases_on with ⟨hn, hz⟩ | ⟨j, hj, hc⟩
      · exact Or.inl ⟨hn, hz.symm⟩
      · exact Or.inr ⟨j, hj, fun a _ => by
          simp only [decodeForecastField, ForecastField.agree, decodeInt_carried _ _ hc, and_self]⟩
    · rcases h2.cases_on with ⟨hn, hz⟩ | ⟨j, hj, hc⟩
      · exact Or.inl ⟨hn, hz.symm⟩
      · exact Or.inr ⟨j, hj, fun a _ => by
          simp only [decodeForecastField, ForecastField.agree, decodeInt_carried _ _ hc, and_self]⟩
    · rcases h3.cases_on with ⟨hn, hz⟩ | ⟨j, hj, hc⟩
      · exact Or.inl ⟨hn, hz.symm⟩
      · exact Or.inr ⟨j, hj, fun a _ => by
          simp only [decodeForecastField, ForecastField.agree, decodeInt_carried _ _ hc, and_self]⟩
    · rcases h4.cases_on with ⟨hn, hz⟩ | ⟨j, hj, hc⟩
      · exact Or.inl ⟨hn, hz.symm⟩
      · exact Or.inr ⟨j, hj, fun a _ => by
          simp only [decodeForecastField, ForecastField.agree, decodeString_carried _ _ hc,
            and_self]⟩

/-- A JSON object that carries a `RoutePath` decodes into it from the zero value. -/
theorem decodeRoutePath_carried (full : Bool) (x : RoutePath) (j : JSON)
    (h : CarriesRoutePath full x j) : decodeRoutePath RoutePath.zero j = (x, none) := by
  obtain ⟨ms, rfl, h1, h2, h3, h4, h5, h6, h7⟩ := h
  show decodeMembers routeFieldOf decodeRouteField RoutePath.zero ms = (x, none)
  apply decodeMembers_carried routeFieldOf decodeRouteField RouteField.agree
  · intro f a; cases f <;> rfl
  · intro f a b c hab hbc; cases f <;> exact Eq.trans hab hbc
  · intro a ha
    have e1 := ha .id
    have e2 := ha .type
    have e3 := ha .number
    have e4 := ha .lastStopName
    have e5 := ha .color
    have e6 := ha .fontColor
    have e7 := ha .externalForecast
    cases a; cases x
    simp only [RouteField.agree] at e1 e2 e3 e4 e5 e6 e7
    simp only [e1, e2, e3, e4, e5, e6, e7]
  · intro f g a j hne
    cases f <;> cases g <;> first | exact absurd rfl hne | rfl
  · intro f
    cases f
    · rcases h1.cases_on with ⟨hn, hz⟩ | ⟨j, hj, hc⟩
      · exact Or.inl ⟨hn, hz.symm⟩
      · exact Or.inr ⟨j, hj, fun a _ => by
          simp only [decodeRouteField, RouteField.agree, decodeString_carried _ _ hc, and_self]⟩
    · rcases h2.cases_on with ⟨hn, hz⟩ | ⟨j, hj, hc⟩
      · exact Or.inl ⟨hn, hz.symm⟩
      · exact Or.inr ⟨j, hj, fun a _ => by
          simp only [decodeRouteField, RouteField.agree, decodeString_carried _ _ hc, and_self]⟩
    · rcases h3.cases_on with ⟨hn, hz⟩ | ⟨j, hj, hc⟩
      · exact Or.inl ⟨hn, hz.symm⟩
      · exact Or.inr ⟨j, hj, fun a _ => by
          simp only [decodeRouteField, RouteField.agree, decodeString_carried _ _ hc, and_self]⟩
    · rcases h4.cases_on with ⟨hn, hz⟩ | ⟨j, hj, hc⟩
      · exact Or.inl ⟨hn, hz.symm⟩
      · exact Or.inr ⟨j, hj, fun a _ => by
          simp only [decodeRouteField, RouteField.agree, decodeString_carried _ _ hc, and_self]⟩
    · rcases h5.cases_on with ⟨hn, hz⟩ | ⟨j, hj, hc⟩
      · exact Or.inl ⟨hn, hz.symm⟩
      · exact Or.inr ⟨j, hj, fun a _ => by
          simp only [decodeRouteField, RouteField.agree, decodeString_carried _ _ hc, and_self]⟩
    · rcases h6.cases_on with ⟨hn, hz⟩ | ⟨j, hj, hc⟩
      · exact Or.inl ⟨hn, hz.symm⟩
      · exact Or.inr ⟨j, hj, fun a _ => by
          simp only [decodeRouteField, RouteField.agree, decodeString_carried _ _ hc, and_self]⟩
    · rcases h7.cases_on with ⟨hn, hz⟩ | ⟨j, hj, hc⟩
      · exact Or.inl ⟨hn, hz.symm⟩
      · refine Or.inr ⟨j, hj, fun a ha => ?_⟩
        have ha0 : a.ExternalForecast = none := ha
        have := decodeSlice_carried decodeForecast Forecast.zero "[]api.Forecast"
          (CarriesForecast full) (fun y e hy => decodeForecast_carried full y e hy) _ _ hc
        simp only [decodeRouteField, RouteField.agree, ha0, this, and_self]

/-- A JSON object that carries a `StopData` decodes into it from the zero value. -/
theorem decodeStopData_carried (full : Bool) (x : StopData) (j : JSON)
    (h : CarriesStopData full x j) : decodeStopData StopData.zero j = (x, none) := by
  obtain ⟨ms, rfl, h1, h2, h3, h4⟩ := h
  show decodeMembers stopFieldOf decodeStopField StopData.zero ms = (x, none)
  apply decodeMembers_carried stopFieldOf decodeStopField StopField.agree
  · intro f a; cases f <;> rfl
  · intro f a b c hab hbc; cases f <;> exact Eq.trans hab hbc
  · intro a ha
    have e1 := ha .id
    have e2 := ha .name
    have e3 := ha .type
    have e4 := ha .routePath
    cases a; cases x
    simp only [StopField.agree] at e1 e2 e3 e4
    simp only [e1, e2, e3, e4]
  · intro f g a j hne
    cases f <;> cases g <;> first | exact absurd rfl hne | rfl
  · intro f
    cases f
    · rcases h1.cases_on with ⟨hn, hz⟩ | ⟨j, hj, hc⟩
      · exact Or.inl ⟨hn, hz.symm⟩
      · exact Or.inr ⟨j, hj, fun a _ => by
          simp only [decodeStopField, StopField.agree, decodeString_carried _ _ hc, and_self]⟩
    · rcases h2.cases_on with ⟨hn, hz⟩ | ⟨j, hj, hc⟩
      · exact Or.inl ⟨hn, hz.symm⟩
      · exact Or.inr ⟨j, hj, fun a _ => by
          simp only [decodeStopField, StopField.agree, decodeString_carried _ _ hc, and_self]⟩
    · rcases h3.cases_on with ⟨hn, hz⟩ | ⟨j, hj, hc⟩
      · exact Or.inl ⟨hn, hz.symm⟩
      · exact Or.inr ⟨j, hj, fun a _ => by
          simp only [decodeStopField, StopField.agree, decodeString_carried _ _ hc, and_self]⟩
    · rcases h4.cases_on with ⟨hn, hz⟩ | ⟨j, hj, hc⟩
      · exact Or.inl ⟨hn, hz.symm⟩
      · refine Or.inr ⟨j, hj, fun a ha => ?_⟩
        have ha0 : a.RoutePath = none := ha
        have := decodeSlice_carried decodeRoutePath RoutePath.zero "[]api.RoutePath"
          (CarriesRoutePath full) (fun y e hy => decodeRoutePath_carried full y e hy) _ _ hc
        simp only [decodeStopField, StopField.agree, ha0, this, and_self]

/-! ## The decoder on values of the wrong shape -/

theorem saveError_isSome_left (a b : Option JsonError) (h : a.isSome = true) :
    (saveError a b).isSome = true := by
  cases a with
  | none => cases h
  | some e => rfl

theorem saveError_isSome_right (a b : Option JsonError) (h : b.isSome = true) :
    (saveError a b).isSome = true := by
  cases a with
  | none => exact h
  | some e => rfl

theorem decodeInt_wrong (j : JSON) (h : wrongForInt j = true) (a : Int) :
    (decodeInt a j).2.isSome = true := by
  cases j <;> first | rfl | cases h

theorem decodeString_wrong (j : JSON) (h : wrongForString j = true) (a : GoString) :
    (decodeString a j).2.isSome = true := by
  cases j <;> first | rfl | cases h

theorem decodeSlice_wrong {S : Type} (dec : S → JSON → S × Option JsonError) (zero : S)
    (goType : String) (j : JSON) (h : wrongForSlice j = true) (a : Option (List S)) :
    (decodeSlice dec zero goType a j).2.isSome = true := by
  cases j <;> first | rfl | cases h

theorem decodeElems_error {S : Type} (dec : S → JSON → S × Option JsonError) (zero : S)
    (e : JSON) (hbad : ∀ a, (dec a e).2.isSome = true) (es : List JSON) (he : e ∈ es) :
    ∀ cur, (decodeElems dec zero cur es).2.isSome = true := by
  induction es with
  | nil => cases he
  | cons j js ih =>
    intro cur
    simp only [decodeElems]
    rcases List.mem_cons.mp he with h | h
    · subst h
      exact saveError_isSome_left _ _ (hbad _)
    · exact saveError_isSome_right _ _ (ih h _)

theorem decodeSlice_elem_error {S : Type} (dec : S → JSON → S × Option JsonError) (zero : S)
    (goType : String) (e : JSON) (hbad : ∀ a, (dec a e).2.isSome = true) (es : List JSON)
    (he : e ∈ es) (a : Option (List S)) :
    (decodeSlice dec zero goType a (.array es)).2.isSome = true := by
  simp only [decodeSlice]
  exact decodeElems_error dec zero e hbad es he _

/-- A value that does not have the shape of a `Forecast` is decoded with an error. -/
theorem decodeForecast_mismatch (j : JSON) (h : MismatchForecast j) (a : Forecast) :
    (decodeForecast a j).2.isSome = true := by
  rcases h with h | ⟨ms, m, f, rfl, hm, hf, hw⟩
  · cases j <;> first | rfl | cases h
  · show (decodeMembers forecastFieldOf decodeForecastField a ms).2.isSome = true
    apply decodeMembers_error forecastFieldOf decodeForecastField ms m f hm hf
    intro b
    cases f
    · exact decodeInt_wrong _ hw _
    · exact decodeInt_wrong _ hw _
    · exact decodeInt_wrong _ hw _
    · exact decodeString_wrong _ hw _

/-- A value that does not have the shape of a `RoutePath` is decoded with an error. -/
theorem decodeRoutePath_mismatch (j : JSON) (h : MismatchRoutePath j) (a : RoutePath) :
    (decodeRoutePath a j).2.isSome = true := by
  rcases h with h | ⟨ms, m, f, rfl, hm, hf, hw⟩
  · cases j <;> first | rfl | cases h
  · show (decodeMembers routeFieldOf decodeRouteField a ms).2.isSome = true
    apply decodeMembers_error routeFieldOf decodeRouteField ms m f hm hf
    intro b
    rcases hw with hw | ⟨rfl, es, e, hes, he, hmis⟩
    · cases f
      · exact decodeString_wrong _ hw _
      · exact decodeString_wrong _ hw _
      · exact decodeString_wrong _ hw _
      · exact decodeString_wrong _ hw _
      · exact decodeString_wrong _ hw _
      · exact decodeString_wrong _ hw _
      · exact decodeSlice_wrong _ _ _ _ hw _
    · show (decodeSlice decodeForecast Forecast.zero "[]api.Forecast" b.ExternalForecast
        m.2).2.isSome = true
      rw [hes]
      exact decodeSlice_elem_error _ _ _ e (decodeForecast_mismatch e hmis) es he _

/-- A value that does not have the shape of a `StopData` is decoded with an error. -/
theorem decodeStopData_mismatch (j : JSON) (h : MismatchStopData j) (a : StopData) :
    (decodeStopData a j).2.isSome = true := by
  rcases h with h | ⟨ms, m, f, rfl, hm, hf, hw⟩
  · cases j <;> first | rfl | cases h
  · show (decodeMembers stopFieldOf decodeStopField a ms).2.isSome = true
    apply decodeMembers_error stopFieldOf decodeStopField ms m f hm hf
    intro b
    rcases hw with hw | ⟨rfl, es, e, hes, he, hmis⟩
    · cases f
      · exact decodeString_wrong _ hw _
      · exact decodeString_wrong _ hw _
      · exact decodeString_wrong _ hw _
      · exact decodeSlice_wrong _ _ _ _ hw _
    · show (decodeSlice decodeRoutePath RoutePath.zero "[]api.RoutePath" b.RoutePath
        m.2).2.isSome = true
      rw [hes]
      exact decodeSlice_elem_error _ _ _ e (decodeRoutePath_mismatch e hmis) es he _

/-! ## UTF-8 -/

/-- A rune that `decodeRune` reads from a valid encoding of more than one
byte is written back by `encodeRune` as the same bytes. -/
theorem encodeRune_decodeRune (c : Nat) (cs : List Nat) (hc : 0x80 ≤ c)
    (h : (decodeRune (c :: cs)).2 ≠ 1) :
    (decodeRune (c :: cs)).2 - 1 ≤ cs.length ∧
    encodeRune (decodeRune (c :: cs)).1 = c :: cs.take ((decodeRune (c :: cs)).2 - 1) ∧
    0x80 ≤ (decodeRune (c :: cs)).1 ∧
    ¬ (0xD800 ≤ (decodeRune (c :: cs)).1 ∧ (decodeRune (c :: cs)).1 < 0xE000) := by
  unfold decodeRune at h ⊢
  have h0 : ¬ c < 0x80 := by omega
  simp only [h0, if_false] at h ⊢
  by_cases h1 : c < 0xC2 ∨ 0xF4 < c
  · simp [h1] at h
  simp only [h1, if_false] at h ⊢
  by_cases h2 : c < 0xE0
  · simp only [h2, if_true] at h ⊢
    match cs, h with
    | [], h => simp at h
    | b1 :: cs1, h =>
      simp only at h ⊢
      by_cases hb : isCont b1 = true
      · simp only [hb, if_true]
        simp only [isCont, decide_eq_true_eq] at hb
        refine ⟨by simp, ?_, by omega, by omega⟩
        unfold encodeRune
        have e1 : ¬ (c % 32 * 64 + b1 % 64 ≤ 0x7F) := by omega
        have e2 : c % 32 * 64 + b1 % 64 ≤ 0x7FF := by omega
        simp only [e1, e2, if_true, if_false]
        have e3 : 0xC0 + (c % 32 * 64 + b1 % 64) / 64 = c := by omega
        have e4 : 0x80 + (c % 32 * 64 + b1 % 64) % 64 = b1 := by omega
        rw [e3, e4]
        rfl
      · simp [hb] at h
  simp only [h2, if_false] at h ⊢
  by_cases h3 : c < 0xF0
  · simp only [h3, if_true] at h ⊢
    match cs, h with
    | [], h => simp at h
    | [_], h => simp at h
    | b1 :: b2 :: cs2, h =>
      simp only at h ⊢
      by_cases hb : (if c = 0xE0 then 0xA0 else 0x80) ≤ b1 ∧
          b1 ≤ (if c = 0xED then 0x9F else 0xBF) ∧ isCont b2 = true
      · simp only [hb, and_self, if_true]
        obtain ⟨hb1, hb2, hb3⟩ := hb
        simp only [isCont, decide_eq_true_eq] at hb3
        have hlo : 0x80 ≤ b1 ∧ (c = 0xE0 → 0xA0 ≤ b1) := by
          by_cases hE : c = 0xE0 <;> simp only [hE, if_true, if_false] at hb1 <;>
            constructor <;> intros <;> omega
        have hhi : b1 ≤ 0xBF ∧ (c = 0xED → b1 ≤ 0x9F) := by
          by_cases hE : c = 0xED <;> simp only [hE, if_true, if_false] at hb2 <;>
            constructor <;> intros <;> omega
        refine ⟨by simp, ?_, by omega, by omega⟩
        unfold encodeRune
        have e1 : ¬ (c % 16 * 4096 + b1 % 64 * 64 + b2 % 64 ≤ 0x7F) := by omega
        have e2 : ¬ (c % 16 * 4096 + b1 % 64 * 64 + b2 % 64 ≤ 0x7FF) := by omega
        have e3 : ¬ (0x10FFFF < c % 16 * 4096 + b1 % 64 * 64 + b2 % 64 ∨
            (0xD800 ≤ c % 16 * 4096 + b1 % 64 * 64 + b2 % 64 ∧
              c % 16 * 4096 + b1 % 64 * 64 + b2 % 64 ≤ 0xDFFF)) := by omega
        have e4 : c % 16 * 4096 + b1 % 64 * 64 + b2 % 64 ≤ 0xFFFF := by omega
        simp only [e1, e2, e3, e4, if_true, if_false]
        have e5 : 0xE0 + (c % 16 * 4096 + b1 % 64 * 64 + b2 % 64) / 4096 = c := by omega
        have e6 : 0x80 + (c % 16 * 4096 + b1 % 64 * 64 + b2 % 64) / 64 % 64 = b1 := by omega
        have e7 : 0x80 + (c % 16 * 4096 + b1 % 64 * 64 + b2 % 64) % 64 = b2 := by omega
        rw [e5, e6, e7]
        rfl
      · simp [hb] at h
  simp only [h3, if_false] at h ⊢
  match cs, h with
  | [], h => simp at h
  | [_], h => simp at h
  | [_, _], h => simp at h
  | b1 :: b2 :: b3 :: cs3, h =>
    simp only at h ⊢
    by_cases hb : (if c = 0xF0 then 0x90 else 0x80) ≤ b1 ∧
        b1 ≤ (if c = 0xF4 then 0x8F else 0xBF) ∧ isCont b2 = true ∧ isCont b3 = true
    · simp only [hb, and_self, if_true]
      obtain ⟨hb1, hb2, hb3, hb4⟩ := hb
      simp only [isCont, decide_eq_true_eq] at hb3 hb4
      have hlo : 0x80 ≤ b1 ∧ (c = 0xF0 → 0x90 ≤ b1) := by
        by_cases hE : c = 0xF0 <;> simp only [hE, if_true, if_false] at hb1 <;>
          constructor <;> intros <;> omega
      have hhi : b1 ≤ 0xBF ∧ (c = 0xF4 → b1 ≤ 0x8F) := by
        by_cases hE : c = 0xF4 <;> simp only [hE, if_true, if_false] at hb2 <;>
          constructor <;> intros <;> omega
      refine ⟨by simp, ?_, by omega, by omega⟩
      unfold encodeRune
      have e1 : ¬ (c % 8 * 262144 + b1 % 64 * 4096 + b2 % 64 * 64 + b3 % 64 ≤ 0x7F) := by omega
      have e2 : ¬ (c % 8 * 262144 + b1 % 64 * 4096 + b2 % 64 * 64 + b3 % 64 ≤ 0x7FF) := by
        omega
      have e3 : ¬ (0x10FFFF < c % 8 * 262144 + b1 % 64 * 4096 + b2 % 64 * 64 + b3 % 64 ∨
          (0xD800 ≤ c % 8 * 262144 + b1 % 64 * 4096 + b2 % 64 * 64 + b3 % 64 ∧
            c % 8 * 262144 + b1 % 64 * 4096 + b2 % 64 * 64 + b3 % 64 ≤ 0xDFFF)) := by omega
      have e4 : ¬ (c % 8 * 262144 + b1 % 64 * 4096 + b2 % 64 * 64 + b3 % 64 ≤ 0xFFFF) := by
        omega
      simp only [e1, e2, e3, e4, if_true, if_false]
      have e5 : 0xF0 + (c % 8 * 262144 + b1 % 64 * 4096 + b2 % 64 * 64 + b3 % 64) / 262144
          = c := by omega
      have e6 : 0x80 + (c % 8 * 262144 + b1 % 64 * 4096 + b2 % 64 * 64 + b3 % 64) / 4096 % 64
          = b1 := by omega
      have e7 : 0x80 + (c % 8 * 262144 + b1 % 64 * 4096 + b2 % 64 * 64 + b3 % 64) / 64 % 64
          = b2 := by omega
      have e8 : 0x80 + (c % 8 * 262144 + b1 % 64 * 4096 + b2 % 64 * 64 + b3 % 64) % 64
          = b3 := by omega
      rw [e5, e6, e7, e8]
      rfl
    · simp [hb] at h

theorem decodeRune_take (c : Nat) (cs tail : List Nat) (hc : 0x80 ≤ c)
    (h : (decodeRune (c :: cs)).2 ≠ 1) :
    decodeRune (c :: (cs.take ((decodeRune (c :: cs)).2 - 1) ++ tail)) = decodeRune (c :: cs) := by
  unfold decodeRune at h ⊢
  have h0 : ¬ c < 0x80 := by omega
  simp only [h0, if_false] at h ⊢
  by_cases h1 : c < 0xC2 ∨ 0xF4 < c
  · simp [h1] at h
  simp only [h1, if_false] at h ⊢
  by_cases h2 : c < 0xE0
  · simp only [h2, if_true] at h ⊢
    match cs, h with
    | [], h => simp at h
    | b1 :: cs1, h =>
      simp only at h ⊢
      by_cases hb : isCont b1 = true
      · simp [hb]
      · simp [hb] at h
  simp only [h2, if_false] at h ⊢
  by_cases h3 : c < 0xF0
  · simp only [h3, if_true] at h ⊢
    match cs, h with
    | [], h => simp at h
    | [_], h => simp at h
    | b1 :: b2 :: cs2, h =>
      simp only at h ⊢
      by_cases hb : (if c = 0xE0 then 0xA0 else 0x80) ≤ b1 ∧
          b1 ≤ (if c = 0xED then 0x9F else 0xBF) ∧ isCont b2 = true
      · simp [hb]
      · simp [hb] at h
  simp only [h3, if_false] at h ⊢
  match cs, h with
  | [], h => simp at h
  | [_], h => simp at h
  | [_, _], h => simp at h
  | b1 :: b2 :: b3 :: cs3, h =>
    simp only at h ⊢
    by_cases hb : (if c = 0xF0 then 0x90 else 0x80) ≤ b1 ∧
        b1 ≤ (if c = 0xF4 then 0x8F else 0xBF) ∧ isCont b2 = true ∧ isCont b3 = true
    · simp [hb]
    · simp [hb] at h

theorem appendString_zero_flag (copy : Bool) (cs : List Nat) :
    appendString 0 copy cs = appendString 0 true cs := by
  cases cs with
  | nil => simp [appendString]
  | cons c cs => simp [appendString]

theorem appendString_copy (k : Nat) : ∀ cs : List Nat, k ≤ cs.length →
    appendString k true cs = cs.take k ++ appendString 0 true (cs.drop k) := by
  induction k with
  | zero => intro cs _; simp
  | succ k ih =>
    intro cs h
    cases cs with
    | nil => simp at h
    | cons c cs =>
      have h' : k ≤ cs.length := by simpa using h
      simp [appendString, ih cs h']

theorem appendString_drop (k : Nat) : ∀ cs : List Nat, k ≤ cs.length →
    appendString k false cs = appendString 0 true (cs.drop k) := by
  induction k with
  | zero => intro cs _; simpa using appendString_zero_flag false cs
  | succ k ih =>
    intro cs h
    cases cs with
    | nil => simp at h
    | cons c cs =>
      have h' : k ≤ cs.length := by simpa using h
      simp [appendString, ih cs h']

theorem scanString_skip (k : Nat) : ∀ (pre rest : List Nat), pre.length = k →
    scanString k (pre ++ rest) = scanString 0 rest := by
  induction k with
  | zero =>
    intro pre rest h
    have : pre = [] := List.length_eq_zero.mp h
    simp [this]
  | succ k ih =>
    intro pre rest h
    cases pre with
    | nil => simp at h
    | cons c pre =>
      have h' : pre.length = k := by simpa using h
      simp [scanString, ih pre rest h']

theorem utf8Valid_skip (k : Nat) : ∀ cs : List Nat, k ≤ cs.length →
    utf8Valid k cs = utf8Valid 0 (cs.drop k) := by
  induction k with
  | zero => intro cs _; simp
  | succ k ih =>
    intro cs h
    cases cs with
    | nil => simp at h
    | cons c cs =>
      have h' : k ≤ cs.length := by simpa using h
      simp [utf8Valid, ih cs h']

theorem scanString_plain_byte (c : Nat) (cs : List Nat) (h1 : c ≠ 34) (h2 : c ≠ 92)
    (h3 : 32 ≤ c) (h4 : c < 128) :
    scanString 0 (c :: cs) = prepend [c] (scanString 0 cs) := by
  have h5 : ¬ c < 32 := by omega
  rw [scanString.eq_def]
  simp [h1, h2, h5, h4]

theorem scanString_rune (c : Nat) (cs : List Nat) (h : 128 ≤ c) :
    scanString 0 (c :: cs) =
      prepend (encodeRune (decodeRune (c :: cs)).1)
        (scanString ((decodeRune (c :: cs)).2 - 1) cs) := by
  have h1 : c ≠ 34 := by omega
  have h2 : c ≠ 92 := by omega
  have h3 : ¬ c < 32 := by omega
  have h4 : ¬ c < 128 := by omega
  rw [scanString.eq_def]
  simp [h1, h2, h3, h4]

theorem scanString_simple_escape (e b : Nat) (cs : List Nat) (h : simpleEscape e = some b)
    (he : e ≠ 117) : scanString 0 (92 :: e :: cs) = prepend [b] (scanString 0 cs) := by
  rw [scanString.eq_def]
  simp [he, h]

theorem scanString_u_escape (a b c d rr : Nat) (cs : List Nat) (h : hex4 a b c d = some rr)
    (hs : ¬ (0xD800 ≤ rr ∧ rr < 0xE000)) :
    scanString 0 (92 :: 117 :: a :: b :: c :: d :: cs) =
      prepend (encodeRune rr) (scanString 0 cs) := by
  rw [scanString.eq_def]
  simp [h, hs]

theorem hex4_byte : ∀ c, c < 128 → hex4 48 48 (hexDigit (c / 16)) (hexDigit (c % 16)) = some c := by
  decide

/-- The scanner reads what `appendString` writes for an ASCII byte as that byte. -/
theorem scanString_escapeByte (c : Nat) (cs : List Nat) (hc : c < 128) :
    scanString 0 (escapeByte c ++ cs) = prepend [c] (scanString 0 cs) := by
  unfold escapeByte
  by_cases h1 : c = 34 ∨ c = 92
  · rw [if_pos h1]
    rcases h1 with h | h <;> subst h <;> exact scanString_simple_escape _ _ _ (by decide) (by decide)
  rw [if_neg h1]
  by_cases h2 : c = 8
  · subst h2; exact scanString_simple_escape _ _ _ (by decide) (by decide)
  rw [if_neg h2]
  by_cases h3 : c = 12
  · subst h3; exact scanString_simple_escape _ _ _ (by decide) (by decide)
  rw [if_neg h3]
  by_cases h4 : c = 10
  · subst h4; exact scanString_simple_escape _ _ _ (by decide) (by decide)
  rw [if_neg h4]
  by_cases h5 : c = 13
  · subst h5; exact scanString_simple_escape _ _ _ (by decide) (by decide)
  rw [if_neg h5]
  by_cases h6 : c = 9
  · subst h6; exact scanString_simple_escape _ _ _ (by decide) (by decide)
  rw [if_neg h6]
  by_cases h7 : c < 32 ∨ c = 60 ∨ c = 62 ∨ c = 38
  · rw [if_pos h7]
    have := scanString_u_escape 48 48 (hexDigit (c / 16)) (hexDigit (c % 16)) c cs
      (hex4_byte c hc) (by omega)
    have e : encodeRune c = [c] := by
      unfold encodeRune
      rw [if_pos (by omega)]
    rw [e] at this
    exact this
  · rw [if_neg h7]
    exact scanString_plain_byte c cs (by omega) (by omega) (by omega) hc

theorem appendString_cons (c : Nat) (cs : List Nat) :
    appendString 0 true (c :: cs) =
      if c < 0x80 then escapeByte c ++ appendString 0 true cs
      else if (decodeRune (c :: cs)).2 = 1 then
        [92, 117, 102, 102, 102, 100] ++ appendString 0 true cs
      else if (decodeRune (c :: cs)).1 = 0x2028 ∨ (decodeRune (c :: cs)).1 = 0x2029 then
        [92, 117, 50, 48, 50, hexDigit ((decodeRune (c :: cs)).1 % 16)] ++
          appendString ((decodeRune (c :: cs)).2 - 1) false cs
      else c :: appendString ((decodeRune (c :: cs)).2 - 1) true cs := by
  rw [appendString.eq_def]

theorem utf8Valid_cons (c : Nat) (cs : List Nat) :
    utf8Valid 0 (c :: cs) =
      if c < 0x80 then utf8Valid 0 cs
      else if (decodeRune (c :: cs)).2 = 1 then false
      else utf8Valid ((decodeRune (c :: cs)).2 - 1) cs := by
  rw [utf8Valid.eq_def]

/-- The scanner reads the string literal `appendString` writes for a valid
UTF-8 string as that string. -/
theorem scanString_appendString : ∀ (n : Nat) (s : List Nat), s.length ≤ n →
    utf8Valid 0 s = true →
    ∀ rest, scanString 0 (appendString 0 true s ++ 34 :: rest) = some (s, rest) := by
  intro n
  induction n with
  | zero =>
    intro s hs _ rest
    have : s = [] := List.length_eq_zero.mp (Nat.le_zero.mp hs)
    subst this
    rw [appendString.eq_def, scanString.eq_def]
    simp
  | succ n ih =>
    intro s hs hv rest
    cases s with
    | nil =>
      rw [appendString.eq_def, scanString.eq_def]
      simp
    | cons c cs =>
      have hlen : cs.length ≤ n := by simpa using hs
      rw [utf8Valid_cons] at hv
      rw [appendString_cons]
      by_cases hc : c < 0x80
      · rw [if_pos hc] at hv ⊢
        rw [List.append_assoc, scanString_escapeByte c _ hc, ih cs hlen hv rest]
        rfl
      · rw [if_neg hc] at hv ⊢
        by_cases hd : (decodeRune (c :: cs)).2 = 1
        · rw [if_pos hd] at hv
          cases hv
        · rw [if_neg hd] at hv ⊢
          obtain ⟨hk, henc, _, hsur⟩ := encodeRune_decodeRune c cs (by omega) hd
          rw [utf8Valid_skip _ cs hk] at hv
          have hlen2 : (cs.drop ((decodeRune (c :: cs)).2 - 1)).length ≤ n := by
            rw [List.length_drop]; omega
          have hih := ih _ hlen2 hv rest
          by_cases hls : (decodeRune (c :: cs)).1 = 0x2028 ∨ (decodeRune (c :: cs)).1 = 0x2029
          · rw [if_pos hls, appendString_drop _ cs hk]
            have hx : hex4 50 48 50 (hexDigit ((decodeRune (c :: cs)).1 % 16)) =
                some (decodeRune (c :: cs)).1 := by
              rcases hls with h | h <;> rw [h] <;> decide
            have := scanString_u_escape 50 48 50 (hexDigit ((decodeRune (c :: cs)).1 % 16))
              (decodeRune (c :: cs)).1
              (appendString 0 true (cs.drop ((decodeRune (c :: cs)).2 - 1)) ++ 34 :: rest)
              hx hsur
            simp only [List.cons_append, List.nil_append] at this ⊢
            rw [this, hih, henc]
            simp [prepend]
          · rw [if_neg hls, appendString_copy _ cs hk]
            simp only [List.cons_append, List.append_assoc]
            rw [scanString_rune c _ (by omega), decodeRune_take c cs _ (by omega) hd,
              scanString_skip _ _ _ (by rw [List.length_take]; omega), hih, henc]
            simp [prepend]

/-! ## Numbers -/

theorem natDigits_spec : ∀ (fuel n : Nat), n < fuel →
    (natDigits fuel n).all isDigit = true ∧
    (natDigits fuel n).foldl (fun acc c => acc * 10 + (c - 48)) 0 = n ∧
    (n = 0 → natDigits fuel n = [48]) ∧
    (0 < n → ∃ d ds, natDigits fuel n = d :: ds ∧ 49 ≤ d ∧ d ≤ 57) := by
  intro fuel
  induction fuel with
  | zero => intro n h; omega
  | succ fuel ih =>
    intro n h
    rw [natDigits]
    by_cases h10 : n < 10
    · rw [if_pos h10]
      refine ⟨?_, ?_, ?_, ?_⟩
      · simp [isDigit]; omega
      · simp
      · intro h0; rw [h0]
      · intro hpos; exact ⟨48 + n, [], rfl, by omega, by omega⟩
    · rw [if_neg h10]
      have hlt : n / 10 < fuel := by omega
      obtain ⟨h1, h2, _, h4⟩ := ih (n / 10) hlt
      refine ⟨?_, ?_, ?_, ?_⟩
      · rw [List.all_append, h1]
        simp [isDigit]; omega
      · rw [List.foldl_append, h2]
        simp only [List.foldl_cons, List.foldl_nil]
        omega
      · intro h0; omega
      · intro _
        obtain ⟨d, ds, hd, hd1, hd2⟩ := h4 (by omega)
        exact ⟨d, ds ++ [48 + n % 10], by rw [hd]; rfl, hd1, hd2⟩

theorem parseDigits_digits (d : Nat) (ds : List Nat) (h : (d :: ds).all isDigit = true) :
    parseDigits (d :: ds) = some ((d :: ds).foldl (fun acc c => acc * 10 + (c - 48)) 0) := by
  rw [parseDigits, if_pos h]

theorem parseInt_unsigned (d : Nat) (ds : List Nat) (h1 : d ≠ 45) (h2 : d ≠ 43) :
    parseInt (d :: ds) =
      match parseDigits (d :: ds) with
      | some n => if n < 2 ^ 63 then some (n : Int) else none
      | none => none := by
  unfold parseInt
  split
  · rename_i h; exact absurd (List.cons.inj h).1 h1
  · rename_i h; exact absurd (List.cons.inj h).1 h2
  · rfl

theorem parseInt_negative (ds : List Nat) :
    parseInt (45 :: ds) =
      match parseDigits ds with
      | some n => if n ≤ 2 ^ 63 then some (-(n : Int)) else none
      | none => none := rfl

/-- The decimal text of a Go `int` is read back as that integer. -/
theorem parseInt_fmtInt (n : Int) (h : InRange n) : parseInt (fmtInt n) = some n := by
  unfold InRange at h
  unfold fmtInt
  obtain ⟨h1, h2, h3, h4⟩ := natDigits_spec (n.natAbs + 1) n.natAbs (by omega)
  by_cases hn : n < 0
  · rw [if_pos hn, parseInt_negative]
    obtain ⟨d, ds, hd, _, _⟩ := h4 (by omega)
    rw [hd] at h1 h2 ⊢
    rw [parseDigits_digits d ds h1, h2]
    have : n.natAbs ≤ 2 ^ 63 := by omega
    simp only [this, if_true]
    congr 1
    omega
  · rw [if_neg hn]
    have hlt : n.natAbs < 2 ^ 63 := by omega
    by_cases h0 : n.natAbs = 0
    · rw [h3 h0]
      have : n = 0 := by omega
      subst this
      decide
    · obtain ⟨d, ds, hd, hd1, hd2⟩ := h4 (by omega)
      rw [hd] at h1 h2 ⊢
      rw [parseInt_unsigned d ds (by omega) (by omega), parseDigits_digits d ds h1, h2]
      simp only [hlt, if_true]
      congr 1
      omega

theorem scanNumber_nil (st : NumState) :
    scanNumber st [] = if st.final then some ([], []) else none := by
  rw [scanNumber.eq_def]

theorem scanNumber_cons (st : NumState) (c : Nat) (cs : List Nat) :
    scanNumber st (c :: cs) =
      match numStep st c with
      | some st1 =>
        match scanNumber st1 cs with
        | some (lit, rest) => some (c :: lit, rest)
        | none => none
      | none => if st.final then some ([], c :: cs) else none := by
  rw [scanNumber.eq_def]

theorem scanNumber_end (st : NumState) (hst : st = .int ∨ st = .zero) (rest : List Nat)
    (h : Delim rest) : scanNumber st rest = some ([], rest) := by
  rcases h with rfl | ⟨c, cs, rfl, hc⟩
  · rw [scanNumber_nil]
    rcases hst with rfl | rfl <;> rfl
  · rw [scanNumber_cons]
    have : numStep st c = none := by
      rcases hst with rfl | rfl <;> rcases hc with rfl | rfl | rfl <;> decide
    rw [this]
    rcases hst with rfl | rfl <;> rfl

theorem scanNumber_digits (ds rest : List Nat) (h : ds.all isDigit = true) (hr : Delim rest) :
    scanNumber .int (ds ++ rest) = some (ds, rest) := by
  induction ds with
  | nil => exact scanNumber_end _ (Or.inl rfl) rest hr
  | cons d ds ih =>
    rw [List.all_cons, Bool.and_eq_true] at h
    rw [List.cons_append, scanNumber_cons]
    have : numStep .int d = some .int := by simp [numStep, h.1]
    rw [this]
    simp only [ih h.2]

/-- The scanner reads the decimal text of an integer, before a delimiter, as
the number with this literal. -/
theorem parseValue_fmtInt (f d : Nat) (n : Int) (rest : List Nat) (hr : Delim rest) :
    parseValue (f + 1) d (fmtInt n ++ rest) = some (.number (fmtInt n), rest) := by
  unfold fmtInt
  obtain ⟨h1, _, h3, h4⟩ := natDigits_spec (n.natAbs + 1) n.natAbs (by omega)
  by_cases hn : n < 0
  · rw [if_pos hn]
    obtain ⟨d0, ds, hd, hd1, hd2⟩ := h4 (by omega)
    rw [hd] at h1 ⊢
    rw [List.all_cons, Bool.and_eq_true] at h1
    rw [List.cons_append, parseValue.eq_def]
    simp only [List.cons_append]
    have hstep : numStep .neg d0 = some .int := by
      have : d0 ≠ 48 := by omega
      simp [numStep, this, h1.1]
    rw [scanNumber_cons, hstep]
    simp [scanNumber_digits ds rest h1.2 hr]
  · rw [if_neg hn]
    by_cases h0 : n.natAbs = 0
    · rw [h3 h0, List.cons_append, parseValue.eq_def]
      simp [scanNumber_end .zero (Or.inr rfl) rest hr]
    · obtain ⟨d0, ds, hd, hd1, hd2⟩ := h4 (by omega)
      rw [hd] at h1 ⊢
      rw [List.all_cons, Bool.and_eq_true] at h1
      rw [List.cons_append, parseValue.eq_def]
      have e1 : d0 ≠ 123 := by omega
      have e2 : d0 ≠ 91 := by omega
      have e3 : d0 ≠ 34 := by omega
      have e4 : d0 ≠ 45 := by omega
      have e5 : d0 ≠ 48 := by omega
      simp [e1, e2, e3, e4, e5, h1.1, scanNumber_digits ds rest h1.2 hr]

theorem fmtInt_head (n : Int) :
    ∃ c cs, fmtInt n = c :: cs ∧ isSpace c = false ∧ c ≠ 93 := by
  unfold fmtInt
  obtain ⟨_, _, h3, h4⟩ := natDigits_spec (n.natAbs + 1) n.natAbs (by omega)
  by_cases hn : n < 0
  · rw [if_pos hn]
    exact ⟨45, _, rfl, by decide, by decide⟩
  · rw [if_neg hn]
    by_cases h0 : n.natAbs = 0
    · rw [h3 h0]
      exact ⟨48, [], rfl, by decide, by decide⟩
    · obtain ⟨d0, ds, hd, hd1, hd2⟩ := h4 (by omega)
      rw [hd]
      refine ⟨d0, ds, rfl, ?_, by omega⟩
      have a1 : d0 ≠ 32 := by omega
      have a2 : d0 ≠ 9 := by omega
      have a3 : d0 ≠ 13 := by omega
      have a4 : d0 ≠ 10 := by omega
      simp [isSpace, a1, a2, a3, a4]

theorem parsesTo_int (n : Int) : ParsesTo 0 (fmtInt n) (.number (fmtInt n)) := by
  refine ⟨fmtInt_head n, ?_⟩
  intro f d rest hf _ hr
  cases f with
  | zero => omega
  | succ f => exact parseValue_fmtInt f d n rest hr

theorem parsesTo_string (s : GoString) (h : utf8Valid 0 s = true) :
    ParsesTo 0 (marshalString s) (.string s) := by
  refine ⟨⟨34, _, rfl, by decide, by decide⟩, ?_⟩
  intro f d rest hf _ _
  cases f with
  | zero => omega
  | succ f =>
    unfold marshalString
    rw [List.cons_append, parseValue.eq_def]
    simp only [List.append_assoc, List.singleton_append]
    simp [scanString_appendString s.length s (Nat.le_refl _) h rest]

theorem parsesTo_null : ParsesTo 0 [110, 117, 108, 108] .null := by
  refine ⟨⟨110, _, rfl, by decide, by decide⟩, ?_⟩
  intro f d rest hf _ _
  cases f with
  | zero => omega
  | succ f =>
    rw [List.cons_append, parseValue.eq_def]
    simp [isDigit]

/-! ## Arrays and objects -/

theorem skipSpace_cons (c : Nat) (cs : List Nat) (h : isSpace c = false) :
    skipSpace (c :: cs) = c :: cs := by
  rw [skipSpace, h]
  rfl

theorem joinComma_cons_cons (x y : List Nat) (xs : List (List Nat)) :
    joinComma (x :: y :: xs) = x ++ 44 :: joinComma (y :: xs) := rfl

theorem joinComma_head (c : Nat) (cs : List Nat) (xs : List (List Nat)) :
    ∃ tail, joinComma ((c :: cs) :: xs) = c :: tail := by
  cases xs with
  | nil => exact ⟨cs, rfl⟩
  | cons y ys => exact ⟨cs ++ 44 :: joinComma (y :: ys), rfl⟩

theorem joinComma_length_pos (c : Nat) (cs : List Nat) (xs : List (List Nat)) :
    0 < (joinComma ((c :: cs) :: xs)).length := by
  obtain ⟨tail, h⟩ := joinComma_head c cs xs
  rw [h]
  simp

theorem scanString_plain (k : List Nat) (rest : List Nat)
    (h : ∀ c ∈ k, 32 ≤ c ∧ c < 128 ∧ c ≠ 34 ∧ c ≠ 92) :
    scanString 0 (k ++ 34 :: rest) = some (k, rest) := by
  induction k with
  | nil =>
    rw [List.nil_append, scanString.eq_def]
    simp
  | cons c k ih =>
    obtain ⟨h1, h2, h3, h4⟩ := h c (List.mem_cons_self _ _)
    rw [List.cons_append, scanString_plain_byte c _ h3 h4 h1 h2,
      ih (fun x hx => h x (List.mem_cons_of_mem _ hx))]
    rfl

theorem parseElems_succ (f d : Nat) (inp : List Nat) :
    parseElems (f + 1) d inp =
      match parseValue f d inp with
      | none => none
      | some (j, rest) =>
        match skipSpace rest with
        | 44 :: rest1 =>
          match parseElems f d (skipSpace rest1) with
          | some (js, rest2) => some (j :: js, rest2)
          | none => none
        | 93 :: rest1 => some ([j], rest1)
        | _ => none := by
  rw [parseElems.eq_def]

/-- The scanner reads texts joined by commas and closed by a bracket as the
elements of an array. -/
theorem parseElems_join (n : Nat) (items : List (List Nat × JSON)) :
    items ≠ [] → (∀ it ∈ items, ParsesTo n it.1 it.2) →
    ∀ f d rest, 2 * (joinComma (items.map (fun it => it.1)) ++ 93 :: rest).length + 1 < f →
      d + n ≤ maxNestingDepth →
      parseElems f d (joinComma (items.map (fun it => it.1)) ++ 93 :: rest) =
        some (items.map (fun it => it.2), rest) := by
  induction items with
  | nil => intro h; exact absurd rfl h
  | cons it items ih =>
    intro _ hall f d rest hf hd
    obtain ⟨⟨c, cs, htxt, _, _⟩, hparse⟩ := hall it (List.mem_cons_self _ _)
    cases f with
    | zero => omega
    | succ f =>
      rw [parseElems_succ]
      cases items with
      | nil =>
        simp only [List.map_cons, List.map_nil, joinComma] at hf ⊢
        rw [hparse f d (93 :: rest) (by omega) hd (Or.inr ⟨93, rest, rfl, by simp⟩)]
        simp only
        rw [skipSpace_cons 93 rest (by decide)]
      | cons it2 items =>
        have hall2 : ∀ x ∈ it2 :: items, ParsesTo n x.1 x.2 :=
          fun x hx => hall x (List.mem_cons_of_mem _ hx)
        obtain ⟨⟨c2, cs2, htxt2, hsp2, _⟩, _⟩ := hall2 it2 (List.mem_cons_self _ _)
        simp only [List.map_cons, joinComma_cons_cons, List.append_assoc, List.cons_append]
          at hf ⊢
        have hlen : 0 < it.1.length := by rw [htxt]; simp
        rw [hparse f d _ (by omega) hd (Or.inr ⟨44, _, rfl, by simp⟩)]
        simp only
        rw [skipSpace_cons 44 _ (by decide)]
        simp only
        have hskip : skipSpace (joinComma (it2.1 :: List.map (fun it => it.1) items) ++
            93 :: rest) = joinComma (it2.1 :: List.map (fun it => it.1) items) ++ 93 :: rest := by
          rw [htxt2]
          obtain ⟨tail, ht⟩ := joinComma_head c2 cs2 (List.map (fun it => it.1) items)
          rw [ht, List.cons_append]
          exact skipSpace_cons _ _ hsp2
        rw [hskip]
        have := ih (by simp) hall2 f d rest
          (by simp only [List.map_cons, List.length_append, List.length_cons] at hf ⊢; omega) hd
        simp only [List.map_cons] at this
        rw [this]

/-- The text of an array of values the scanner reads is read as the array of
these values. -/
theorem parsesTo_array (n : Nat) (items : List (List Nat × JSON))
    (hall : ∀ it ∈ items, ParsesTo n it.1 it.2) :
    ParsesTo (n + 1) (91 :: (joinComma (items.map (fun it => it.1)) ++ [93]))
      (.array (items.map (fun it => it.2))) := by
  refine ⟨⟨91, _, rfl, by decide, by decide⟩, ?_⟩
  intro f d rest hf hd _
  cases f with
  | zero => omega
  | succ f =>
    have hdepth : ¬ maxNestingDepth < d + 1 := by omega
    rw [List.cons_append, parseValue.eq_def]
    simp only [List.append_assoc, List.singleton_append]
    cases items with
    | nil =>
      simp [joinComma, hdepth, skipSpace_cons 93 rest (by decide)]
    | cons it items =>
      obtain ⟨⟨c, cs, htxt, hsp, hne⟩, _⟩ := hall it (List.mem_cons_self _ _)
      obtain ⟨tail, ht⟩ := joinComma_head c cs (List.map (fun it => it.1) items)
      have hpe := parseElems_join n (it :: items) (by simp) hall f (d + 1) rest
        (by simp only [List.length_cons, List.length_append] at hf ⊢; omega) (by omega)
      have hsk : skipSpace (joinComma (List.map (fun it => it.1) (it :: items)) ++ 93 :: rest) =
          joinComma (List.map (fun it => it.1) (it :: items)) ++ 93 :: rest := by
        rw [List.map_cons, htxt, ht, List.cons_append]
        exact skipSpace_cons _ _ hsp
      rw [hsk, hpe]
      rw [List.map_cons, htxt, ht, List.cons_append]
      simp [hdepth, hne]

theorem parseMembers_succ (f d : Nat) (cs : List Nat) :
    parseMembers (f + 1) d (34 :: cs) =
      match scanString 0 cs with
      | none => none
      | some (key, rest) =>
        match skipSpace rest with
        | 58 :: rest1 =>
          match parseValue f d (skipSpace rest1) with
          | none => none
          | some (j, rest2) =>
            match skipSpace rest2 with
            | 44 :: rest3 =>
              match parseMembers f d (skipSpace rest3) with
              | some (ms, rest4) => some ((key, j) :: ms, rest4)
              | none => none
            | 125 :: rest3 => some ([(key, j)], rest3)
            | _ => none
        | _ => none := by
  rw [parseMembers.eq_def]

/-- The scanner reads members joined by commas and closed by a brace as the
members of an object. -/
theorem parseMembers_join (n : Nat) (items : List (GoString × List Nat × JSON)) :
    items ≠ [] →
    (∀ it ∈ items, (∀ c ∈ it.1, 32 ≤ c ∧ c < 128 ∧ c ≠ 34 ∧ c ≠ 92) ∧ ParsesTo n it.2.1 it.2.2) →
    ∀ f d rest,
      2 * (joinComma (items.map (fun it => marshalMember it.1 it.2.1)) ++ 125 :: rest).length + 1
        < f →
      d + n ≤ maxNestingDepth →
      parseMembers f d (joinComma (items.map (fun it => marshalMember it.1 it.2.1)) ++ 125 :: rest)
        = some (items.map (fun it => (it.1, it.2.2)), rest) := by
  induction items with
  | nil => intro h; exact absurd rfl h
  | cons it items ih =>
    intro _ hall f d rest hf hd
    obtain ⟨hkey, ⟨c, cs, htxt, hsp, _⟩, hparse⟩ := hall it (List.mem_cons_self _ _)
    cases f with
    | zero => omega
    | succ f =>
      cases items with
      | nil =>
        simp only [List.map_cons, List.map_nil, joinComma, marshalMember, List.cons_append,
          List.append_assoc] at hf ⊢
        rw [parseMembers_succ, scanString_plain it.1 _ hkey]
        simp only
        rw [skipSpace_cons 58 _ (by decide)]
        simp only
        have hsk : skipSpace (it.2.1 ++ 125 :: rest) = it.2.1 ++ 125 :: rest := by
          rw [htxt, List.cons_append]; exact skipSpace_cons _ _ hsp
        rw [hsk, hparse f d (125 :: rest)
          (by simp only [List.length_cons, List.length_append] at hf ⊢; omega) hd
          (Or.inr ⟨125, rest, rfl, by simp⟩)]
        simp only
        rw [skipSpace_cons 125 rest (by decide)]
      | cons it2 items =>
        have hall2 : ∀ x ∈ it2 :: items,
            (∀ c ∈ x.1, 32 ≤ c ∧ c < 128 ∧ c ≠ 34 ∧ c ≠ 92) ∧ ParsesTo n x.2.1 x.2.2 :=
          fun x hx => hall x (List.mem_cons_of_mem _ hx)
        simp only [List.map_cons, joinComma_cons_cons, List.append_assoc, List.cons_append]
          at hf ⊢
        have hrec := ih (by simp) hall2 f d rest
          (by
            simp only [List.map_cons, marshalMember, List.length_cons, List.length_append]
              at hf ⊢
            omega) hd
        simp only [List.map_cons] at hrec
        have hsk2 : skipSpace (joinComma (marshalMember it2.1 it2.2.1 ::
            List.map (fun it => marshalMember it.1 it.2.1) items) ++ 125 :: rest) =
            joinComma (marshalMember it2.1 it2.2.1 ::
              List.map (fun it => marshalMember it.1 it.2.1) items) ++ 125 :: rest := by
          obtain ⟨tail, ht⟩ := joinComma_head 34 (it2.1 ++ 34 :: 58 :: it2.2.1)
            (List.map (fun it => marshalMember it.1 it.2.1) items)
          have : marshalMember it2.1 it2.2.1 = 34 :: (it2.1 ++ 34 :: 58 :: it2.2.1) := rfl
          rw [this, ht, List.cons_append]
          exact skipSpace_cons _ _ (by decide)
        have hm : marshalMember it.1 it.2.1 = 34 :: (it.1 ++ 34 :: 58 :: it.2.1) := rfl
        rw [hm] at hf ⊢
        simp only [List.cons_append, List.append_assoc] at hf ⊢
        rw [parseMembers_succ, scanString_plain it.1 _ hkey]
        simp only
        rw [skipSpace_cons 58 _ (by decide)]
        simp only
        have hsk : ∀ X, skipSpace (it.2.1 ++ X) = it.2.1 ++ X := by
          intro X
          rw [htxt, List.cons_append]; exact skipSpace_cons _ _ hsp
        rw [hsk, hparse f d _
          (by simp only [List.length_cons, List.length_append] at hf ⊢; omega) hd
          (Or.inr ⟨44, _, rfl, by simp⟩)]
        simp only
        rw [skipSpace_cons 44 _ (by decide)]
        simp only
        rw [hsk2, hrec]

/-- The text of an object whose values the scanner reads is read as the
object of these values under their keys. -/
theorem parsesTo_object (n : Nat) (items : List (GoString × List Nat × JSON))
    (hne : items ≠ [])
    (hall : ∀ it ∈ items,
      (∀ c ∈ it.1, 32 ≤ c ∧ c < 128 ∧ c ≠ 34 ∧ c ≠ 92) ∧ ParsesTo n it.2.1 it.2.2) :
    ParsesTo (n + 1)
      (123 :: (joinComma (items.map (fun it => marshalMember it.1 it.2.1)) ++ [125]))
      (.object (items.map (fun it => (it.1, it.2.2)))) := by
  refine ⟨⟨123, _, rfl, by decide, by decide⟩, ?_⟩
  intro f d rest hf hd _
  cases f with
  | zero => omega
  | succ f =>
    have hdepth : ¬ maxNestingDepth < d + 1 := by omega
    rw [List.cons_append, parseValue.eq_def]
    simp only [List.append_assoc, List.singleton_append]
    cases items with
    | nil => exact absurd rfl hne
    | cons it items =>
      obtain ⟨tail, ht⟩ := joinComma_head 34 (it.1 ++ 34 :: 58 :: it.2.1)
        (List.map (fun it => marshalMember it.1 it.2.1) items)
      have hm : marshalMember it.1 it.2.1 = 34 :: (it.1 ++ 34 :: 58 :: it.2.1) := rfl
      have hpm := parseMembers_join n (it :: items) (by simp) hall f (d + 1) rest
        (by simp only [List.length_cons, List.length_append] at hf ⊢; omega) (by omega)
      have hsk : skipSpace (joinComma (List.map (fun it => marshalMember it.1 it.2.1)
          (it :: items)) ++ 125 :: rest) =
          joinComma (List.map (fun it => marshalMember it.1 it.2.1) (it :: items)) ++
            125 :: rest := by
        rw [List.map_cons, hm, ht, List.cons_append]
        exact skipSpace_cons _ _ (by decide)
      rw [hsk, hpm]
      rw [List.map_cons, hm, ht, List.cons_append]
      simp [hdepth]

/-! ## The encoder and the scanner -/

theorem parsesTo_mono (n m : Nat) (h : n ≤ m) (txt : List Nat) (j : JSON)
    (hp : ParsesTo n txt j) : ParsesTo m txt j :=
  ⟨hp.1, fun f d rest hf hd hr => hp.2 f d rest hf (by omega) hr⟩

theorem parsesTo_slice {S : Type} (n : Nat) (f : S → List Nat) (g : S → JSON)
    (xs : Option (List S)) (h : sliceAll (fun x => ParsesTo n (f x) (g x)) xs) :
    ParsesTo (n + 1) (marshalSlice f xs) (sliceToJSON g xs) := by
  cases xs with
  | none => exact parsesTo_mono 0 _ (by omega) _ _ parsesTo_null
  | some xs =>
    have := parsesTo_array n (xs.map (fun x => (f x, g x)))
      (by
        intro it hit
        obtain ⟨x, hx, rfl⟩ := List.mem_map.mp hit
        exact h x hx)
    simp only [List.map_map] at this
    exact this

theorem key_plain_forecast (f : ForecastField) :
    ∀ c ∈ f.key, 32 ≤ c ∧ c < 128 ∧ c ≠ 34 ∧ c ≠ 92 := by
  cases f <;> decide

theorem key_plain_route (f : RouteField) :
    ∀ c ∈ f.key, 32 ≤ c ∧ c < 128 ∧ c ≠ 34 ∧ c ≠ 92 := by
  cases f <;> decide

theorem key_plain_stop (f : StopField) :
    ∀ c ∈ f.key, 32 ≤ c ∧ c < 128 ∧ c ≠ 34 ∧ c ≠ 92 := by
  cases f <;> decide

/-- The scanner reads the encoding of a `Forecast` as its JSON value. -/
theorem parsesTo_forecast (x : Forecast) (h : x.WF) :
    ParsesTo 1 (marshalForecast x) x.toJSON := by
  obtain ⟨_, _, _, hs⟩ := h
  apply parsesTo_object 0
    [(ForecastField.time.key, fmtInt x.Time, .number (fmtInt x.Time)),
     (ForecastField.byTelemetry.key, fmtInt x.ByTelemetry, .number (fmtInt x.ByTelemetry)),
     (ForecastField.tmId.key, fmtInt x.TmID, .number (fmtInt x.TmID)),
     (ForecastField.routePathId.key, marshalString x.RoutePathID, .string x.RoutePathID)]
    (by simp)
  intro it hit
  simp only [List.mem_cons, List.mem_singleton, List.not_mem_nil, or_false] at hit
  rcases hit with rfl | rfl | rfl | rfl
  · exact ⟨key_plain_forecast .time, parsesTo_int _⟩
  · exact ⟨key_plain_forecast .byTelemetry, parsesTo_int _⟩
  · exact ⟨key_plain_forecast .tmId, parsesTo_int _⟩
  · exact ⟨key_plain_forecast .routePathId, parsesTo_string _ hs⟩

/-- The scanner reads the encoding of a `RoutePath` as its JSON value. -/
theorem parsesTo_routePath (x : RoutePath) (h : x.WF) :
    ParsesTo 3 (marshalRoutePath x) x.toJSON := by
  obtain ⟨h1, h2, h3, h4, h5, h6, h7⟩ := h
  have hsl : ParsesTo 2 (marshalSlice marshalForecast x.ExternalForecast)
      (sliceToJSON Forecast.toJSON x.ExternalForecast) := by
    apply parsesTo_slice 1
    cases hx : x.ExternalForecast with
    | none => trivial
    | some xs =>
      rw [hx] at h7
      exact fun y hy => parsesTo_forecast y (h7 y hy)
  apply parsesTo_object 2
    [(RouteField.id.key, marshalString x.ID, .string x.ID),
     (RouteField.type.key, marshalString x.Type_, .string x.Type_),
     (RouteField.number.key, marshalString x.Number, .string x.Number),
     (RouteField.lastStopName.key, marshalString x.LastStopName, .string x.LastStopName),
     (RouteField.color.key, marshalString x.Color, .string x.Color),
     (RouteField.fontColor.key, marshalString x.FontColor, .string x.FontColor),
     (RouteField.externalForecast.key, marshalSlice marshalForecast x.ExternalForecast,
       sliceToJSON Forecast.toJSON x.ExternalForecast)]
    (by simp)
  intro it hit
  simp only [List.mem_cons, List.mem_singleton, List.not_mem_nil, or_false] at hit
  rcases hit with rfl | rfl | rfl | rfl | rfl | rfl | rfl
  · exact ⟨key_plain_route .id, parsesTo_mono 0 2 (by omega) _ _ (parsesTo_string _ h1)⟩
  · exact ⟨key_plain_route .type, parsesTo_mono 0 2 (by omega) _ _ (parsesTo_string _ h2)⟩
  · exact ⟨key_plain_route .number, parsesTo_mono 0 2 (by omega) _ _ (parsesTo_string _ h3)⟩
  · exact ⟨key_plain_route .lastStopName, parsesTo_mono 0 2 (by omega) _ _ (parsesTo_string _ h4)⟩
  · exact ⟨key_plain_route .color, parsesTo_mono 0 2 (by omega) _ _ (parsesTo_string _ h5)⟩
  · exact ⟨key_plain_route .fontColor, parsesTo_mono 0 2 (by omega) _ _ (parsesTo_string _ h6)⟩
  · exact ⟨key_plain_route .externalForecast, hsl⟩

/-- The scanner reads the encoding of a `StopData` as its JSON value. -/
theorem parsesTo_stopData (x : StopData) (h : x.WF) : ParsesTo 5 (Marshal x) x.toJSON := by
  obtain ⟨h1, h2, h3, h4⟩ := h
  have hsl : ParsesTo 4 (marshalSlice marshalRoutePath x.RoutePath)
      (sliceToJSON RoutePath.toJSON x.RoutePath) := by
    apply parsesTo_slice 3
    cases hx : x.RoutePath with
    | none => trivial
    | some xs =>
      rw [hx] at h4
      exact fun y hy => parsesTo_routePath y (h4 y hy)
  apply parsesTo_object 4
    [(StopField.id.key, marshalString x.ID, .string x.ID),
     (StopField.name.key, marshalString x.Name, .string x.Name),
     (StopField.type.key, marshalString x.Type_, .string x.Type_),
     (StopField.routePath.key, marshalSlice marshalRoutePath x.RoutePath,
       sliceToJSON RoutePath.toJSON x.RoutePath)]
    (by simp)
  intro it hit
  simp only [List.mem_cons, List.mem_singleton, List.not_mem_nil, or_false] at hit
  rcases hit with rfl | rfl | rfl | rfl
  · exact ⟨key_plain_stop .id, parsesTo_mono 0 4 (by omega) _ _ (parsesTo_string _ h1)⟩
  · exact ⟨key_plain_stop .name, parsesTo_mono 0 4 (by omega) _ _ (parsesTo_string _ h2)⟩
  · exact ⟨key_plain_stop .type, parsesTo_mono 0 4 (by omega) _ _ (parsesTo_string _ h3)⟩
  · exact ⟨key_plain_stop .routePath, hsl⟩

/-- The encoding of a well-formed `StopData` is valid JSON, read as the JSON
value of the structure. -/
theorem parseJSON_Marshal (x : StopData) (h : x.WF) : parseJSON (Marshal x) = some x.toJSON := by
  have hp := (parsesTo_stopData x h).2 (2 * (Marshal x).length + 1) 0 []
    (by simp) (by decide) (Or.inl rfl)
  rw [List.append_nil] at hp
  unfold parseJSON
  have hsk : skipSpace (Marshal x) = Marshal x := skipSpace_cons 123 _ (by decide)
  rw [hsk, hp]
  rfl

/-! ## The JSON value of a structure carries it -/

theorem forecastFieldOf_key (f : ForecastField) : forecastFieldOf f.key = some f := by
  cases f <;> decide

theorem routeFieldOf_key (f : RouteField) : routeFieldOf f.key = some f := by
  cases f <;> decide

theorem stopFieldOf_key (f : StopField) : stopFieldOf f.key = some f := by
  cases f <;> decide

theorem carriesForecast_toJSON (full : Bool) (x : Forecast) (h : x.WF) :
    CarriesForecast full x x.toJSON := by
  obtain ⟨h1, h2, h3, _⟩ := h
  refine ⟨_, rfl, ?_, ?_, ?_, ?_⟩
  · exact Or.inr ⟨_, by simp [memberValues, forecastFieldOf_key],
      ⟨_, rfl, parseInt_fmtInt _ h1⟩⟩
  · exact Or.inr ⟨_, by simp [memberValues, forecastFieldOf_key],
      ⟨_, rfl, parseInt_fmtInt _ h2⟩⟩
  · exact Or.inr ⟨_, by simp [memberValues, forecastFieldOf_key],
      ⟨_, rfl, parseInt_fmtInt _ h3⟩⟩
  · exact Or.inr ⟨_, by simp [memberValues, forecastFieldOf_key], rfl⟩

theorem carriesSlice_toJSON {S : Type} (C : S → JSON → Prop) (g : S → JSON)
    (xs : Option (List S)) (h : sliceAll (fun x => C x (g x)) xs) :
    CarriesSlice C xs (sliceToJSON g xs) := by
  cases xs with
  | none => exact Or.inl ⟨rfl, rfl⟩
  | some xs =>
    refine Or.inr ⟨xs.map g, xs, rfl, rfl, ?_⟩
    have hall : ∀ x ∈ xs, C x (g x) := h
    clear h
    induction xs with
    | nil => exact List.Forall₂.nil
    | cons x xs ih =>
      exact List.Forall₂.cons (hall x (List.mem_cons_self _ _))
        (ih (fun y hy => hall y (List.mem_cons_of_mem _ hy)))

theorem carriesRoutePath_toJSON (full : Bool) (x : RoutePath) (h : x.WF) :
    CarriesRoutePath full x x.toJSON := by
  obtain ⟨_, _, _, _, _, _, h7⟩ := h
  have hsl : CarriesSlice (CarriesForecast full) x.ExternalForecast
      (sliceToJSON Forecast.toJSON x.ExternalForecast) := by
    apply carriesSlice_toJSON
    cases hx : x.ExternalForecast with
    | none => trivial
    | some xs =>
      rw [hx] at h7
      exact fun y hy => carriesForecast_toJSON full y (h7 y hy)
  refine ⟨_, rfl, ?_, ?_, ?_, ?_, ?_, ?_, ?_⟩
  · exact Or.inr ⟨_, by simp [memberValues, routeFieldOf_key], rfl⟩
  · exact Or.inr ⟨_, by simp [memberValues, routeFieldOf_key], rfl⟩
  · exact Or.inr ⟨_, by simp [memberValues, routeFieldOf_key], rfl⟩
  · exact Or.inr ⟨_, by simp [memberValues, routeFieldOf_key], rfl⟩
  · exact Or.inr ⟨_, by simp [memberValues, routeFieldOf_key], rfl⟩
  · exact Or.inr ⟨_, by simp [memberValues, routeFieldOf_key], rfl⟩
  · exact Or.inr ⟨_, by simp [memberValues, routeFieldOf_key], hsl⟩

/-- The JSON value `json.Marshal` writes for a well-formed `StopData` carries
it, with every key present. -/
theorem carriesStopData_toJSON (full : Bool) (x : StopData) (h : x.WF) :
    CarriesStopData full x x.toJSON := by
  obtain ⟨_, _, _, h4⟩ := h
  have hsl : CarriesSlice (CarriesRoutePath full) x.RoutePath
      (sliceToJSON RoutePath.toJSON x.RoutePath) := by
    apply carriesSlice_toJSON
    cases hx : x.RoutePath with
    | none => trivial
    | some xs =>
      rw [hx] at h4
      exact fun y hy => carriesRoutePath_toJSON full y (h4 y hy)
  refine ⟨_, rfl, ?_, ?_, ?_, ?_⟩
  · exact Or.inr ⟨_, by simp [memberValues, stopFieldOf_key], rfl⟩
  · exact Or.inr ⟨_, by simp [memberValues, stopFieldOf_key], rfl⟩
  · exact Or.inr ⟨_, by simp [memberValues, stopFieldOf_key], rfl⟩
  · exact Or.inr ⟨_, by simp [memberValues, stopFieldOf_key], hsl⟩

/-- Decoding the encoding of a well-formed `StopData` gives it back. -/
theorem Unmarshal_Marshal (x : StopData) (h : x.WF) :
    Unmarshal (Marshal x) StopData.zero = (x, none) := by
  unfold Unmarshal
  rw [parseJSON_Marshal x h]
  exact decodeStopData_carried true x _ (carriesStopData_toJSON true x h)

/-! ## What the decoder produces is well formed -/

theorem utf8Valid_ascii_cons (c : Nat) (s : List Nat) (h : c < 0x80) :
    utf8Valid 0 (c :: s) = utf8Valid 0 s := by
  rw [utf8Valid_cons, if_pos h]

/-- The bytes `encodeRune` writes are valid UTF-8. -/
theorem utf8Valid_encodeRune (r : Nat) (s : List Nat) :
    utf8Valid 0 (encodeRune r ++ s) = utf8Valid 0 s := by
  unfold encodeRune
  by_cases h1 : r ≤ 0x7F
  · rw [if_pos h1]
    exact utf8Valid_ascii_cons r s (by omega)
  rw [if_neg h1]
  by_cases h2 : r ≤ 0x7FF
  · rw [if_pos h2]
    have hd : decodeRune ((0xC0 + r / 64) :: (0x80 + r % 64) :: s) =
        ((0xC0 + r / 64) % 32 * 64 + (0x80 + r % 64) % 64, 2) := by
      have a1 : ¬ (0xC0 + r / 64 < 0x80) := by omega
      have a2 : ¬ (0xC0 + r / 64 < 0xC2 ∨ 0xF4 < 0xC0 + r / 64) := by omega
      have a3 : 0xC0 + r / 64 < 0xE0 := by omega
      have a4 : isCont (0x80 + r % 64) = true := by
        simp only [isCont, decide_eq_true_eq]; omega
      simp only [decodeRune, a1, a2, a3, a4, if_true, if_false]
    have a1 : ¬ (0xC0 + r / 64 < 0x80) := by omega
    simp only [List.cons_append, List.nil_append]
    rw [utf8Valid_cons, if_neg a1, hd]
    simp [utf8Valid]
  rw [if_neg h2]
  by_cases h3 : 0x10FFFF < r ∨ (0xD800 ≤ r ∧ r ≤ 0xDFFF)
  · rw [if_pos h3]
    simp [utf8Valid, decodeRune, isCont]
  rw [if_neg h3]
  by_cases h4 : r ≤ 0xFFFF
  · rw [if_pos h4]
    have hd : (decodeRune ((0xE0 + r / 4096) :: (0x80 + r / 64 % 64) :: (0x80 + r % 64) :: s)).2 = 3 := by
      have a1 : ¬ (0xE0 + r / 4096 < 0x80) := by omega
      have a2 : ¬ (0xE0 + r / 4096 < 0xC2 ∨ 0xF4 < 0xE0 + r / 4096) := by omega
      have a3 : ¬ (0xE0 + r / 4096 < 0xE0) := by omega
      have a4 : 0xE0 + r / 4096 < 0xF0 := by omega
      have a5 : isCont (0x80 + r % 64) = true := by
        simp only [isCont, decide_eq_true_eq]; omega
      have a6 : (if 0xE0 + r / 4096 = 0xE0 then 0xA0 else 0x80) ≤ 0x80 + r / 64 % 64 := by
        by_cases h : 0xE0 + r / 4096 = 0xE0
        · rw [if_pos h]; omega
        · rw [if_neg h]; omega
      have a7 : 0x80 + r / 64 % 64 ≤ (if 0xE0 + r / 4096 = 0xED then 0x9F else 0xBF) := by
        by_cases h : 0xE0 + r / 4096 = 0xED
        · rw [if_pos h]; omega
        · rw [if_neg h]; omega
      simp only [decodeRune, a1, a2, a3, a4, a5, a6, a7, and_self, if_true, if_false]
    have a1 : ¬ (0xE0 + r / 4096 < 0x80) := by omega
    simp only [List.cons_append, List.nil_append]
    rw [utf8Valid_cons, if_neg a1, hd]
    simp [utf8Valid]
  · rw [if_neg h4]
    have hd : (decodeRune ((0xF0 + r / 262144) :: (0x80 + r / 4096 % 64) ::
        (0x80 + r / 64 % 64) :: (0x80 + r % 64) :: s)).2 = 4 := by
      have a1 : ¬ (0xF0 + r / 262144 < 0x80) := by omega
      have a2 : ¬ (0xF0 + r / 262144 < 0xC2 ∨ 0xF4 < 0xF0 + r / 262144) := by omega
      have a3 : ¬ (0xF0 + r / 262144 < 0xE0) := by omega
      have a4 : ¬ (0xF0 + r / 262144 < 0xF0) := by omega
      have a5 : isCont (0x80 + r % 64) = true := by
        simp only [isCont, decide_eq_true_eq]; omega
      have a5' : isCont (0x80 + r / 64 % 64) = true := by
        simp only [isCont, decide_eq_true_eq]; omega
      have a6 : (if 0xF0 + r / 262144 = 0xF0 then 0x90 else 0x80) ≤ 0x80 + r / 4096 % 64 := by
        by_cases h : 0xF0 + r / 262144 = 0xF0
        · rw [if_pos h]; omega
        · rw [if_neg h]; omega
      have a7 : 0x80 + r / 4096 % 64 ≤ (if 0xF0 + r / 262144 = 0xF4 then 0x8F else 0xBF) := by
        by_cases h : 0xF0 + r / 262144 = 0xF4
        · rw [if_pos h]; omega
        · rw [if_neg h]; omega
      simp only [decodeRune, a1, a2, a3, a4, a5, a5', a6, a7, and_self, if_true, if_false]
    have a1 : ¬ (0xF0 + r / 262144 < 0x80) := by omega
    simp only [List.cons_append, List.nil_append]
    rw [utf8Valid_cons, if_neg a1, hd]
    simp [utf8Valid]

theorem prepend_eq_some (x : List Nat) (o : Option (GoString × List Nat)) (s rest : List Nat)
    (h : prepend x o = some (s, rest)) : ∃ s1, o = some (s1, rest) ∧ s = x ++ s1 := by
  cases o with
  | none => cases h
  | some p =>
    obtain ⟨s1, r1⟩ := p
    simp only [prepend, Option.some.injEq, Prod.mk.injEq] at h
    exact ⟨s1, by rw [h.2], h.1.symm⟩

theorem simpleEscape_lt (e b : Nat) (h : simpleEscape e = some b) : b < 0x80 := by
  unfold simpleEscape at h
  repeat' split at h
  all_goals first | (injection h with h; omega) | cases h

theorem scanString_nil (k : Nat) : scanString k [] = none := by
  cases k <;> rfl

theorem scanString_succ (k c : Nat) (cs : List Nat) :
    scanString (k + 1) (c :: cs) = scanString k cs := by
  rw [scanString.eq_def]

/-- The strings the scanner unquotes are valid UTF-8. -/
theorem scanString_valid : ∀ (n : Nat) (inp : List Nat), inp.length ≤ n →
    ∀ k s rest, scanString k inp = some (s, rest) → utf8Valid 0 s = true := by
  intro n
  induction n with
  | zero =>
    intro inp hlen k s rest h
    have : inp = [] := List.length_eq_zero.mp (Nat.le_zero.mp hlen)
    subst this
    rw [scanString_nil] at h
    cases h
  | succ n ih =>
    intro inp hlen k s rest h
    cases inp with
    | nil => rw [scanString_nil] at h; cases h
    | cons c cs =>
      have hcs : cs.length ≤ n := by simpa using hlen
      cases k with
      | succ k =>
        rw [scanString_succ] at h
        exact ih cs hcs k s rest h
      | zero =>
        rw [scanString.eq_def] at h
        simp only at h
        by_cases h34 : c = 34
        · rw [if_pos h34] at h
          simp only [Option.some.injEq, Prod.mk.injEq] at h
          rw [← h.1]; rfl
        rw [if_neg h34] at h
        by_cases h92 : c = 92
        · rw [if_pos h92] at h
          cases cs with
          | nil => cases h
          | cons e cs1 =>
            simp only at h
            have hcs1 : cs1.length ≤ n := by simp at hcs; omega
            by_cases hu : e = 117
            · rw [if_pos hu] at h
              match cs1, hcs1, h with
              | [], _, h => cases h
              | [_], _, h => cases h
              | [_, _], _, h => cases h
              | [_, _, _], _, h => cases h
              | h1 :: h2 :: h3 :: h4 :: cs2, hcs1, h =>
                simp only at h
                have hcs2 : cs2.length ≤ n := by simp at hcs1; omega
                cases hx : hex4 h1 h2 h3 h4 with
                | none => rw [hx] at h; cases h
                | some rr =>
                  rw [hx] at h
                  simp only at h
                  split at h
                  · split at h
                    · obtain ⟨s1, hs1, rfl⟩ := prepend_eq_some _ _ _ _ h
                      rw [utf8Valid_encodeRune]
                      exact ih cs2 hcs2 _ _ _ hs1
                    · obtain ⟨s1, hs1, rfl⟩ := prepend_eq_some _ _ _ _ h
                      rw [utf8Valid_encodeRune]
                      exact ih cs2 hcs2 _ _ _ hs1
                  · obtain ⟨s1, hs1, rfl⟩ := prepend_eq_some _ _ _ _ h
                    rw [utf8Valid_encodeRune]
                    exact ih cs2 hcs2 _ _ _ hs1
            · rw [if_neg hu] at h
              cases hse : simpleEscape e with
              | none => rw [hse] at h; cases h
              | some b =>
                rw [hse] at h
                obtain ⟨s1, hs1, rfl⟩ := prepend_eq_some _ _ _ _ h
                rw [List.singleton_append, utf8Valid_ascii_cons b s1 (simpleEscape_lt e b hse)]
                exact ih cs1 hcs1 _ _ _ hs1
        rw [if_neg h92] at h
        by_cases h32 : c < 32
        · rw [if_pos h32] at h; cases h
        rw [if_neg h32] at h
        by_cases h128 : c < 128
        · rw [if_pos h128] at h
          obtain ⟨s1, hs1, rfl⟩ := prepend_eq_some _ _ _ _ h
          rw [List.singleton_append, utf8Valid_ascii_cons c s1 h128]
          exact ih cs hcs _ _ _ hs1
        · rw [if_neg h128] at h
          obtain ⟨s1, hs1, rfl⟩ := prepend_eq_some _ _ _ _ h
          rw [utf8Valid_encodeRune]
          exact ih cs hcs _ _ _ hs1

theorem parseInt_inRange (lit : List Nat) (n : Int) (h : parseInt lit = some n) : InRange n := by
  unfold InRange
  unfold parseInt at h
  split at h
  · split at h
    · split at h
      · simp only [Option.some.injEq] at h; omega
      · cases h
    · cases h
  · split at h
    · split at h
      · simp only [Option.some.injEq] at h; omega
      · cases h
    · cases h
  · split at h
    · split at h
      · simp only [Option.some.injEq] at h; omega
      · cases h
    · cases h

theorem parseValue_zero (d : Nat) (inp : List Nat) : parseValue 0 d inp = none := by
  rw [parseValue.eq_def]

theorem parseElems_zero (d : Nat) (inp : List Nat) : parseElems 0 d inp = none := by
  rw [parseElems.eq_def]

theorem parseMembers_zero (d : Nat) (inp : List Nat) : parseMembers 0 d inp = none := by
  rw [parseMembers.eq_def]

/-- Every string inside a JSON value the scanner reads is valid UTF-8. -/
theorem parse_stringsValid : ∀ f : Nat,
    (∀ d inp j rest, parseValue f d inp = some (j, rest) → StringsValid j) ∧
    (∀ d inp js rest, parseElems f d inp = some (js, rest) → ∀ e ∈ js, StringsValid e) ∧
    (∀ d inp ms rest, parseMembers f d inp = some (ms, rest) → ∀ m ∈ ms, StringsValid m.2) := by
  intro f
  induction f with
  | zero =>
    refine ⟨?_, ?_, ?_⟩
    · intro d inp j rest h; rw [parseValue_zero] at h; cases h
    · intro d inp js rest h; rw [parseElems_zero] at h; cases h
    · intro d inp ms rest h; rw [parseMembers_zero] at h; cases h
  | succ f ih =>
    obtain ⟨ihv, ihe, ihm⟩ := ih
    refine ⟨?_, ?_, ?_⟩
    · intro d inp j rest h
      cases inp with
      | nil => rw [parseValue.eq_def] at h; cases h
      | cons c cs =>
        rw [parseValue.eq_def] at h
        simp only at h
        repeat' split at h
        all_goals first
          | (simp only [Option.some.injEq, Prod.mk.injEq] at h
             obtain ⟨rfl, _⟩ := h
             first
               | exact StringsValid.null
               | exact StringsValid.bool _
               | exact StringsValid.number _
               | exact StringsValid.object [] (fun _ hm => by cases hm)
               | exact StringsValid.array [] (fun _ hm => by cases hm)
               | exact StringsValid.object _ (ihm _ _ _ _ (by assumption))
               | exact StringsValid.array _ (ihe _ _ _ _ (by assumption))
               | exact StringsValid.string _ (scanString_valid _ _ (Nat.le_refl _) _ _ _
                   (by assumption)))
          | cases h
    · intro d inp js rest h
      rw [parseElems_succ] at h
      repeat' split at h
      all_goals first
        | (simp only [Option.some.injEq, Prod.mk.injEq] at h
           obtain ⟨rfl, _⟩ := h
           intro e he
           simp only [List.mem_cons, List.mem_singleton, List.not_mem_nil, or_false] at he
           first
             | (rcases he with rfl | he
                · exact ihv _ _ _ _ (by assumption)
                · exact ihe _ _ _ _ (by assumption) e he)
             | (subst he; exact ihv _ _ _ _ (by assumption)))
        | cases h
    · intro d inp ms rest h
      rw [parseMembers.eq_def] at h
      simp only at h
      repeat' split at h
      all_goals first
        | (simp only [Option.some.injEq, Prod.mk.injEq] at h
           obtain ⟨rfl, _⟩ := h
           intro m hm
           simp only [List.mem_cons, List.mem_singleton, List.not_mem_nil, or_false] at hm
           first
             | (rcases hm with rfl | hm
                · exact ihv _ _ _ _ (by assumption)
                · exact ihm _ _ _ _ (by assumption) m hm)
             | (subst hm; exact ihv _ _ _ _ (by assumption)))
        | cases h

theorem decodeString_wf (cur : GoString) (j : JSON) (hc : utf8Valid 0 cur = true)
    (hj : StringsValid j) : utf8Valid 0 (decodeString cur j).1 = true := by
  cases hj with
  | string s h => exact h
  | _ => exact hc

theorem decodeInt_wf (cur : Int) (j : JSON) (hc : InRange cur) : InRange (decodeInt cur j).1 := by
  cases j with
  | number lit =>
    simp only [decodeInt]
    cases h : parseInt lit with
    | none => exact hc
    | some n => exact parseInt_inRange lit n h
  | _ => exact hc

theorem decodeMembers_wf {F S : Type} (fieldOf : GoString → Option F)
    (dec : F → S → JSON → S × Option JsonError) (P : S → Prop)
    (hdec : ∀ f cur j, P cur → StringsValid j → P (dec f cur j).1)
    (ms : List (GoString × JSON)) (hms : ∀ m ∈ ms, StringsValid m.2) (cur : S) (hc : P cur) :
    P (decodeMembers fieldOf dec cur ms).1 := by
  have main : ∀ (ms : List (GoString × JSON)), (∀ m ∈ ms, StringsValid m.2) →
      ∀ (acc : S × Option JsonError), P acc.1 →
      P (ms.foldl (fun acc m =>
        match fieldOf m.1 with
        | none => acc
        | some f => ((dec f acc.1 m.2).1, saveError acc.2 (dec f acc.1 m.2).2)) acc).1 := by
    intro ms
    induction ms with
    | nil => intro _ acc h; exact h
    | cons m ms ih =>
      intro hms acc h
      rw [List.foldl_cons]
      apply ih (fun x hx => hms x (List.mem_cons_of_mem _ hx))
      cases fieldOf m.1 with
      | none => exact h
      | some f => exact hdec f acc.1 m.2 h (hms m (List.mem_cons_self _ _))
  exact main ms hms (cur, none) hc

theorem decodeElems_wf {S : Type} (dec : S → JSON → S × Option JsonError) (zero : S)
    (P : S → Prop) (hdec : ∀ cur j, P cur → StringsValid j → P (dec cur j).1) (hz : P zero)
    (es : List JSON) : (∀ e ∈ es, StringsValid e) → ∀ cur : List S, (∀ x ∈ cur, P x) →
      ∀ y ∈ (decodeElems dec zero cur es).1, P y := by
  induction es with
  | nil => intro _ cur _ y hy; cases hy
  | cons e es ih =>
    intro hes cur hcur y hy
    simp only [decodeElems, List.mem_cons] at hy
    rcases hy with rfl | hy
    · apply hdec _ _ _ (hes e (List.mem_cons_self _ _))
      cases cur with
      | nil => exact hz
      | cons x xs => exact hcur x (List.mem_cons_self _ _)
    · refine ih (fun x hx => hes x (List.mem_cons_of_mem _ hx)) cur.tail ?_ y hy
      intro x hx
      exact hcur x (List.mem_of_mem_tail hx)

theorem decodeSlice_wf {S : Type} (dec : S → JSON → S × Option JsonError) (zero : S)
    (goType : String) (P : S → Prop)
    (hdec : ∀ cur j, P cur → StringsValid j → P (dec cur j).1) (hz : P zero)
    (cur : Option (List S)) (j : JSON) (hc : sliceAll P cur) (hj : StringsValid j) :
    sliceAll P (decodeSlice dec zero goType cur j).1 := by
  cases hj with
  | null => trivial
  | array es hes =>
    show ∀ y ∈ (decodeElems dec zero (cur.getD []) es).1, P y
    apply decodeElems_wf dec zero P hdec hz es hes
    cases cur with
    | none => intro x hx; cases hx
    | some xs => exact hc
  | _ => exact hc

/-- Decoding into a well-formed `Forecast` leaves it well formed. -/
theorem decodeForecast_wf (cur : Forecast) (j : JSON) (hc : cur.WF) (hj : StringsValid j) :
    (decodeForecast cur j).1.WF := by
  cases hj with
  | object ms hms =>
    show (decodeMembers forecastFieldOf decodeForecastField cur ms).1.WF
    apply decodeMembers_wf forecastFieldOf decodeForecastField Forecast.WF _ ms hms cur hc
    intro f c j hc hj
    obtain ⟨h1, h2, h3, h4⟩ := hc
    cases f
    · exact ⟨decodeInt_wf _ _ h1, h2, h3, h4⟩
    · exact ⟨h1, decodeInt_wf _ _ h2, h3, h4⟩
    · exact ⟨h1, h2, decodeInt_wf _ _ h3, h4⟩
    · exact ⟨h1, h2, h3, decodeString_wf _ _ h4 hj⟩
  | _ => exact hc

theorem forecast_zero_wf : Forecast.zero.WF := by
  refine ⟨?_, ?_, ?_, rfl⟩ <;> (unfold InRange; decide)

theorem routePath_zero_wf : RoutePath.zero.WF :=
  ⟨rfl, rfl, rfl, rfl, rfl, rfl, trivial⟩

theorem stopData_zero_wf : StopData.zero.WF :=
  ⟨rfl, rfl, rfl, trivial⟩

/-- Decoding into a well-formed `RoutePath` leaves it well formed. -/
theorem decodeRoutePath_wf (cur : RoutePath) (j : JSON) (hc : cur.WF) (hj : StringsValid j) :
    (decodeRoutePath cur j).1.WF := by
  cases hj with
  | object ms hms =>
    show (decodeMembers routeFieldOf decodeRouteField cur ms).1.WF
    apply decodeMembers_wf routeFieldOf decodeRouteField RoutePath.WF _ ms hms cur hc
    intro f c j hc hj
    obtain ⟨h1, h2, h3, h4, h5, h6, h7⟩ := hc
    cases f
    · exact ⟨decodeString_wf _ _ h1 hj, h2, h3, h4, h5, h6, h7⟩
    · exact ⟨h1, decodeString_wf _ _ h2 hj, h3, h4, h5, h6, h7⟩
    · exact ⟨h1, h2, decodeString_wf _ _ h3 hj, h4, h5, h6, h7⟩
    · exact ⟨h1, h2, h3, decodeString_wf _ _ h4 hj, h5, h6, h7⟩
    · exact ⟨h1, h2, h3, h4, decodeString_wf _ _ h5 hj, h6, h7⟩
    · exact ⟨h1, h2, h3, h4, h5, decodeString_wf _ _ h6 hj, h7⟩
    · exact ⟨h1, h2, h3, h4, h5, h6,
        decodeSlice_wf decodeForecast Forecast.zero _ Forecast.WF decodeForecast_wf
          forecast_zero_wf _ _ h7 hj⟩
  | _ => exact hc

/-- Decoding into a well-formed `StopData` leaves it well formed. -/
theorem decodeStopData_wf (cur : StopData) (j : JSON) (hc : cur.WF) (hj : StringsValid j) :
    (decodeStopData cur j).1.WF := by
  cases hj with
  | object ms hms =>
    show (decodeMembers stopFieldOf decodeStopField cur ms).1.WF
    apply decodeMembers_wf stopFieldOf decodeStopField StopData.WF _ ms hms cur hc
    intro f c j hc hj
    obtain ⟨h1, h2, h3, h4⟩ := hc
    cases f
    · exact ⟨decodeString_wf _ _ h1 hj, h2, h3, h4⟩
    · exact ⟨h1, decodeString_wf _ _ h2 hj, h3, h4⟩
    · exact ⟨h1, h2, decodeString_wf _ _ h3 hj, h4⟩
    · exact ⟨h1, h2, h3,
        decodeSlice_wf decodeRoutePath RoutePath.zero _ RoutePath.WF decodeRoutePath_wf
          routePath_zero_wf _ _ h4 hj⟩
  | _ => exact hc

/-- Whatever the input, the structure `json.Unmarshal` leaves is well formed:
its integers are in range and its strings are valid UTF-8. -/
theorem Unmarshal_wf (data : List Nat) : (Unmarshal data StopData.zero).1.WF := by
  unfold Unmarshal
  cases h : parseJSON data with
  | none => exact stopData_zero_wf
  | some j =>
    apply decodeStopData_wf _ _ stopData_zero_wf
    unfold parseJSON at h
    cases hp : parseValue (2 * data.length + 1) 0 (skipSpace data) with
    | none => rw [hp] at h; cases h
    | some p =>
      obtain ⟨j1, rest⟩ := p
      rw [hp] at h
      simp only at h
      split at h
      · cases h
        exact (parse_stringsValid _).1 _ _ _ _ hp
      · cases h

/-! ## The decoder on `null` -/

theorem decodeInt_nullOr (n : Int) (j : JSON) (h : NullOr (CarriesInt n) (n = 0) j) :
    decodeInt 0 j = (n, none) := by
  rcases h with ⟨rfl, rfl⟩ | h
  · rfl
  · exact decodeInt_carried n j h 0

theorem decodeString_nullOr (s : GoString) (j : JSON)
    (h : NullOr (CarriesString s) (s = []) j) : decodeString [] j = (s, none) := by
  rcases h with ⟨rfl, rfl⟩ | h
  · rfl
  · exact decodeString_carried s j h []

/-- A JSON value that stands for a `Forecast`, `null` allowed, decodes into it
from the zero value. -/
theorem decodeForecast_nullable (x : Forecast) (j : JSON) (h : NullableForecast x j) :
    decodeForecast Forecast.zero j = (x, none) := by
  rcases h with ⟨rfl, rfl⟩ | ⟨ms, rfl, h1, h2, h3, h4⟩
  · rfl
  show decodeMembers forecastFieldOf decodeForecastField Forecast.zero ms = (x, none)
  apply decodeMembers_carried forecastFieldOf decodeForecastField ForecastField.agree
  · intro f a; cases f <;> rfl
  · intro f a b c hab hbc; cases f <;> exact Eq.trans hab hbc
  · intro a ha
    have e1 := ha .time
    have e2 := ha .byTelemetry
    have e3 := ha .tmId
    have e4 := ha .routePathId
    cases a; cases x
    simp only [ForecastField.agree] at e1 e2 e3 e4
    simp only [e1, e2, e3, e4]
  · intro f g a j hne
    cases f <;> cases g <;> first | exact absurd rfl hne | rfl
  · intro f
    cases f
    · rcases h1.cases_on with ⟨hn, hz⟩ | ⟨j, hj, hc⟩
      · exact Or.inl ⟨hn, hz.symm⟩
      · refine Or.inr ⟨j, hj, fun a ha => ?_⟩
        have ha0 : a.Time = 0 := ha
        simp only [decodeForecastField, ForecastField.agree, ha0, decodeInt_nullOr _ _ hc,
          and_self]
    · rcases h2.cases_on with ⟨hn, hz⟩ | ⟨j, hj, hc⟩
      · exact Or.inl ⟨hn, hz.symm⟩
      · refine Or.inr ⟨j, hj, fun a ha => ?_⟩
        have ha0 : a.ByTelemetry = 0 := ha
        simp only [decodeForecastField, ForecastField.agree, ha0, decodeInt_nullOr _ _ hc,
          and_self]
    · rcases h3.cases_on with ⟨hn, hz⟩ | ⟨j, hj, hc⟩
      · exact Or.inl ⟨hn, hz.symm⟩
      · refine Or.inr ⟨j, hj, fun a ha => ?_⟩
        have ha0 : a.TmID = 0 := ha
        simp only [decodeForecastField, ForecastField.agree, ha0, decodeInt_nullOr _ _ hc,
          and_self]
    · rcases h4.cases_on with ⟨hn, hz⟩ | ⟨j, hj, hc⟩
      · exact Or.inl ⟨hn, hz.symm⟩
      · refine Or.inr ⟨j, hj, fun a ha => ?_⟩
        have ha0 : a.RoutePathID = [] := ha
        simp only [decodeForecastField, ForecastField.agree, ha0, decodeString_nullOr _ _ hc,
          and_self]

/-- A JSON value that stands for a `RoutePath`, `null` allowed, decodes into
it from the zero value. -/
theorem decodeRoutePath_nullable (x : RoutePath) (j : JSON) (h : NullableRoutePath x j) :
    decodeRoutePath RoutePath.zero j = (x, none) := by
  rcases h with ⟨rfl, rfl⟩ | ⟨ms, rfl, h1, h2, h3, h4, h5, h6, h7⟩
  · rfl
  show decodeMembers routeFieldOf decodeRouteField RoutePath.zero ms = (x, none)
  apply decodeMembers_carried routeFieldOf decodeRouteField RouteField.agree
  · intro f a; cases f <;> rfl
  · intro f a b c hab hbc; cases f <;> exact Eq.trans hab hbc
  · intro a ha
    have e1 := ha .id
    have e2 := ha .type
    have e3 := ha .number
    have e4 := ha .lastStopName
    have e5 := ha .color
    have e6 := ha .fontColor
    have e7 := ha .externalForecast
    cases a; cases x
    simp only [RouteField.agree] at e1 e2 e3 e4 e5 e6 e7
    simp only [e1, e2, e3, e4, e5, e6, e7]
  · intro f g a j hne
    cases f <;> cases g <;> first | exact absurd rfl hne | rfl
  · intro f
    cases f
    · rcases h1.cases_on with ⟨hn, hz⟩ | ⟨j, hj, hc⟩
      · exact Or.inl ⟨hn, hz.symm⟩
      · refine Or.inr ⟨j, hj, fun a ha => ?_⟩
        have ha0 : a.ID = [] := ha
        simp only [decodeRouteField, RouteField.agree, ha0, decodeString_nullOr _ _ hc, and_self]
    · rcases h2.cases_on with ⟨hn, hz⟩ | ⟨j, hj, hc⟩
      · exact Or.inl ⟨hn, hz.symm⟩
      · refine Or.inr ⟨j, hj, fun a ha => ?_⟩
        have ha0 : a.Type_ = [] := ha
        simp only [decodeRouteField, RouteField.agree, ha0, decodeString_nullOr _ _ hc, and_self]
    · rcases h3.cases_on with ⟨hn, hz⟩ | ⟨j, hj, hc⟩
      · exact Or.inl ⟨hn, hz.symm⟩
      · refine Or.inr ⟨j, hj, fun a ha => ?_⟩
        have ha0 : a.Number = [] := ha
        simp only [decodeRouteField, RouteField.agree, ha0, decodeString_nullOr _ _ hc, and_self]
    · rcases h4.cases_on with ⟨hn, hz⟩ | ⟨j, hj, hc⟩
      · exact Or.inl ⟨hn, hz.symm⟩
      · refine Or.inr ⟨j, hj, fun a ha => ?_⟩
        have ha0 : a.LastStopName = [] := ha
        simp only [decodeRouteField, RouteField.agree, ha0, decodeString_nullOr _ _ hc, and_self]
    · rcases h5.cases_on with ⟨hn, hz⟩ | ⟨j, hj, hc⟩
      · exact Or.inl ⟨hn, hz.symm⟩
      · refine Or.inr ⟨j, hj, fun a ha => ?_⟩
        have ha0 : a.Color = [] := ha
        simp only [decodeRouteField, RouteField.agree, ha0, decodeString_nullOr _ _ hc, and_self]
    · rcases h6.cases_on with ⟨hn, hz⟩ | ⟨j, hj, hc⟩
      · exact Or.inl ⟨hn, hz.symm⟩
      · refine Or.inr ⟨j, hj, fun a ha => ?_⟩
        have ha0 : a.FontColor = [] := ha
        simp only [decodeRouteField, RouteField.agree, ha0, decodeString_nullOr _ _ hc, and_self]
    · rcases h7.cases_on with ⟨hn, hz⟩ | ⟨j, hj, hc⟩
      · exact Or.inl ⟨hn, hz.symm⟩
      · refine Or.inr ⟨j, hj, fun a ha => ?_⟩
        have ha0 : a.ExternalForecast = none := ha
        have := decodeSlice_carried decodeForecast Forecast.zero "[]api.Forecast"
          NullableForecast (fun y e hy => decodeForecast_nullable y e hy) _ _ hc
        simp only [decodeRouteField, RouteField.agree, ha0, this, and_self]

/-- A JSON value that stands for a `StopData`, `null` allowed, decodes into it
from the zero value. -/
theorem decodeStopData_nullable (x : StopData) (j : JSON) (h : NullableStopData x j) :
    decodeStopData StopData.zero j = (x, none) := by
  rcases h with ⟨rfl, rfl⟩ | ⟨ms, rfl, h1, h2, h3, h4⟩
  · rfl
  show decodeMembers stopFieldOf decodeStopField StopData.zero ms = (x, none)
  apply decodeMembers_carried stopFieldOf decodeStopField StopField.agree
  · intro f a; cases f <;> rfl
  · intro f a b c hab hbc; cases f <;> exact Eq.trans hab hbc
  · intro a ha
    have e1 := ha .id
    have e2 := ha .name
    have e3 := ha .type
    have e4 := ha .routePath
    cases a; cases x
    simp only [StopField.agree] at e1 e2 e3 e4
    simp only [e1, e2, e3, e4]
  · intro f g a j hne
    cases f <;> cases g <;> first | exact absurd rfl hne | rfl
  · intro f
    cases f
    · rcases h1.cases_on with ⟨hn, hz⟩ | ⟨j, hj, hc⟩
      · exact Or.inl ⟨hn, hz.symm⟩
      · refine Or.inr ⟨j, hj, fun a ha => ?_⟩
        have ha0 : a.ID = [] := ha
        simp only [decodeStopField, StopField.agree, ha0, decodeString_nullOr _ _ hc, and_self]
    · rcases h2.cases_on with ⟨hn, hz⟩ | ⟨j, hj, hc⟩
      · exact Or.inl ⟨hn, hz.symm⟩
      · refine Or.inr ⟨j, hj, fun a ha => ?_⟩
        have ha0 : a.Name = [] := ha
        simp only [decodeStopField, StopField.agree, ha0, decodeString_nullOr _ _ hc, and_self]
    · rcases h3.cases_on with ⟨hn, hz⟩ | ⟨j, hj, hc⟩
      · exact Or.inl ⟨hn, hz.symm⟩
      · refine Or.inr ⟨j, hj, fun a ha => ?_⟩
        have ha0 : a.Type_ = [] := ha
        simp only [decodeStopField, StopField.agree, ha0, decodeString_nullOr _ _ hc, and_self]
    · rcases h4.cases_on with ⟨hn, hz⟩ | ⟨j, hj, hc⟩
      · exact Or.inl ⟨hn, hz.symm⟩
      · refine Or.inr ⟨j, hj, fun a ha => ?_⟩
        have ha0 : a.RoutePath = none := ha
        have := decodeSlice_carried decodeRoutePath RoutePath.zero "[]api.RoutePath"
          NullableRoutePath (fun y e hy => decodeRoutePath_nullable y e hy) _ _ hc
        simp only [decodeStopField, StopField.agree, ha0, this, and_self]


/-! ## How the scanner succeeds -/

theorem skipSpace_length (l : List Nat) : (skipSpace l).length ≤ l.length := by
  induction l with
  | nil => exact Nat.le_refl _
  | cons c cs ih =>
    rw [skipSpace]
    split
    · exact Nat.le_succ_of_le ih
    · exact Nat.le_refl _

theorem parseElems_inv (f d : Nat) (inp : List Nat) (js : List JSON) (rest : List Nat)
    (h : parseElems (f + 1) d inp = some (js, rest)) :
    ∃ j r1, parseValue f d inp = some (j, r1) ∧
      ((skipSpace r1 = 93 :: rest ∧ js = [j]) ∨
        ∃ r2 js1, skipSpace r1 = 44 :: r2 ∧
          parseElems f d (skipSpace r2) = some (js1, rest) ∧ js = j :: js1) := by
  rw [parseElems_succ] at h
  repeat' split at h
  all_goals first
    | (simp only [Option.some.injEq, Prod.mk.injEq] at h
       obtain ⟨rfl, rfl⟩ := h
       first
         | exact ⟨_, _, by assumption, Or.inl ⟨by assumption, rfl⟩⟩
         | exact ⟨_, _, by assumption, Or.inr ⟨_, _, by assumption, by assumption, rfl⟩⟩)
    | cases h

theorem parseMembers_inv (f d : Nat) (inp : List Nat) (ms : List (GoString × JSON))
    (rest : List Nat) (h : parseMembers (f + 1) d inp = some (ms, rest)) :
    ∃ cs key r1 r2 j r3, inp = 34 :: cs ∧ scanString 0 cs = some (key, r1) ∧
      skipSpace r1 = 58 :: r2 ∧ parseValue f d (skipSpace r2) = some (j, r3) ∧
      ((skipSpace r3 = 125 :: rest ∧ ms = [(key, j)]) ∨
        ∃ r4 ms1, skipSpace r3 = 44 :: r4 ∧
          parseMembers f d (skipSpace r4) = some (ms1, rest) ∧ ms = (key, j) :: ms1) := by
  rw [parseMembers.eq_def] at h
  simp only at h
  repeat' split at h
  all_goals first
    | (simp only [Option.some.injEq, Prod.mk.injEq] at h
       obtain ⟨rfl, rfl⟩ := h
       first
         | exact ⟨_, _, _, _, _, _, rfl, by assumption, by assumption, by assumption,
             Or.inl ⟨by assumption, rfl⟩⟩
         | exact ⟨_, _, _, _, _, _, rfl, by assumption, by assumption, by assumption,
             Or.inr ⟨_, _, by assumption, by assumption, rfl⟩⟩)
    | cases h

theorem parseValue_inv (f d : Nat) (inp : List Nat) (j : JSON) (rest : List Nat)
    (h : parseValue (f + 1) d inp = some (j, rest)) :
    ∃ c cs, inp = c :: cs ∧
      ((c = 123 ∧ d + 1 ≤ maxNestingDepth ∧
          ((skipSpace cs = 125 :: rest ∧ j = .object []) ∨
            ∃ ms, parseMembers f (d + 1) (skipSpace cs) = some (ms, rest) ∧ j = .object ms)) ∨
       (c = 91 ∧ d + 1 ≤ maxNestingDepth ∧
          ((skipSpace cs = 93 :: rest ∧ j = .array []) ∨
            ∃ es, parseElems f (d + 1) (skipSpace cs) = some (es, rest) ∧ j = .array es)) ∨
       (c = 34 ∧ ∃ s, scanString 0 cs = some (s, rest) ∧ j = .string s) ∨
       (∃ st lit, ((c = 45 ∧ st = NumState.neg) ∨ (c = 48 ∧ st = NumState.zero) ∨
            (49 ≤ c ∧ c ≤ 57 ∧ st = NumState.int)) ∧
          scanNumber st cs = some (lit, rest) ∧ j = .number (c :: lit)) ∨
       (inp = 116 :: 114 :: 117 :: 101 :: rest ∧ j = .bool true) ∨
       (inp = 102 :: 97 :: 108 :: 115 :: 101 :: rest ∧ j = .bool false) ∨
       (inp = 110 :: 117 :: 108 :: 108 :: rest ∧ j = .null)) := by
  cases inp with
  | nil => rw [parseValue.eq_def] at h; cases h
  | cons c cs =>
    refine ⟨c, cs, rfl, ?_⟩
    rw [parseValue.eq_def] at h
    simp only at h
    by_cases h1 : c = 123
    · rw [if_pos h1] at h
      by_cases hd : maxNestingDepth < d + 1
      · rw [if_pos hd] at h; cases h
      rw [if_neg hd] at h
      refine Or.inl ⟨h1, by omega, ?_⟩
      repeat' split at h
      all_goals first
        | (simp only [Option.some.injEq, Prod.mk.injEq] at h
           obtain ⟨rfl, rfl⟩ := h
           first
             | exact Or.inl ⟨by assumption, rfl⟩
             | exact Or.inr ⟨_, by assumption, rfl⟩)
        | cases h
    rw [if_neg h1] at h
    by_cases h2 : c = 91
    · rw [if_pos h2] at h
      by_cases hd : maxNestingDepth < d + 1
      · rw [if_pos hd] at h; cases h
      rw [if_neg hd] at h
      refine Or.inr (Or.inl ⟨h2, by omega, ?_⟩)
      repeat' split at h
      all_goals first
        | (simp only [Option.some.injEq, Prod.mk.injEq] at h
           obtain ⟨rfl, rfl⟩ := h
           first
             | exact Or.inl ⟨by assumption, rfl⟩
             | exact Or.inr ⟨_, by assumption, rfl⟩)
        | cases h
    rw [if_neg h2] at h
    by_cases h3 : c = 34
    · rw [if_pos h3] at h
      refine Or.inr (Or.inr (Or.inl ⟨h3, ?_⟩))
      cases hs : scanString 0 cs with
      | none => rw [hs] at h; cases h
      | some p =>
        obtain ⟨s, r⟩ := p
        rw [hs] at h
        simp only [Option.some.injEq, Prod.mk.injEq] at h
        obtain ⟨rfl, rfl⟩ := h
        exact ⟨s, rfl, rfl⟩
    rw [if_neg h3] at h
    by_cases h4 : c = 45
    · rw [if_pos h4] at h
      refine Or.inr (Or.inr (Or.inr (Or.inl ⟨.neg, ?_⟩)))
      cases hs : scanNumber .neg cs with
      | none => rw [hs] at h; cases h
      | some p =>
        obtain ⟨lit, r⟩ := p
        rw [hs] at h
        simp only [Option.some.injEq, Prod.mk.injEq] at h
        obtain ⟨rfl, rfl⟩ := h
        exact ⟨lit, Or.inl ⟨h4, rfl⟩, rfl, rfl⟩
    rw [if_neg h4] at h
    by_cases h5 : c = 48
    · rw [if_pos h5] at h
      refine Or.inr (Or.inr (Or.inr (Or.inl ⟨.zero, ?_⟩)))
      cases hs : scanNumber .zero cs with
      | none => rw [hs] at h; cases h
      | some p =>
        obtain ⟨lit, r⟩ := p
        rw [hs] at h
        simp only [Option.some.injEq, Prod.mk.injEq] at h
        obtain ⟨rfl, rfl⟩ := h
        exact ⟨lit, Or.inr (Or.inl ⟨h5, rfl⟩), rfl, rfl⟩
    rw [if_neg h5] at h
    by_cases h6 : isDigit c = true
    · rw [if_pos h6] at h
      refine Or.inr (Or.inr (Or.inr (Or.inl ⟨.int, ?_⟩)))
      simp only [isDigit, decide_eq_true_eq] at h6
      cases hs : scanNumber .int cs with
      | none => rw [hs] at h; cases h
      | some p =>
        obtain ⟨lit, r⟩ := p
        rw [hs] at h
        simp only [Option.some.injEq, Prod.mk.injEq] at h
        obtain ⟨rfl, rfl⟩ := h
        exact ⟨lit, Or.inr (Or.inr ⟨by omega, by omega, rfl⟩), rfl, rfl⟩
    rw [if_neg h6] at h
    refine Or.inr (Or.inr (Or.inr (Or.inr ?_)))
    split at h
    · rename_i heq
      simp only [Option.some.injEq, Prod.mk.injEq] at h
      obtain ⟨rfl, rfl⟩ := h
      exact Or.inl ⟨heq, rfl⟩
    · rename_i heq
      simp only [Option.some.injEq, Prod.mk.injEq] at h
      obtain ⟨rfl, rfl⟩ := h
      exact Or.inr (Or.inl ⟨heq, rfl⟩)
    · rename_i heq
      simp only [Option.some.injEq, Prod.mk.injEq] at h
      obtain ⟨rfl, rfl⟩ := h
      exact Or.inr (Or.inr ⟨heq, rfl⟩)
    · cases h

/-! ## The scanner accepts only texts of the JSON grammar -/

theorem allDigits_nil : AllDigits [] := fun _ h => by cases h

theorem allDigits_cons (c : Nat) (l : List Nat) (hc : isDigit c = true) (hl : AllDigits l) :
    AllDigits (c :: l) := by
  intro x hx
  rcases List.mem_cons.mp hx with rfl | hx
  · simpa [isDigit] using hc
  · exact hl x hx

theorem numTail_final (st : NumState) (h : st.final = true) : NumTail st [] := by
  cases st
  · cases h
  · exact ⟨[], [], rfl, Or.inl rfl, Or.inl rfl⟩
  · exact ⟨[], [], [], rfl, allDigits_nil, Or.inl rfl, Or.inl rfl⟩
  · cases h
  · exact ⟨[], [], rfl, allDigits_nil, Or.inl rfl⟩
  · cases h
  · cases h
  · exact allDigits_nil

theorem numTail_step (st st1 : NumState) (c : Nat) (l : List Nat)
    (hs : numStep st c = some st1) (hl : NumTail st1 l) : NumTail st (c :: l) := by
  cases st
  · -- after the minus sign
    simp only [numStep] at hs
    by_cases h0 : c = 48
    · rw [if_pos h0] at hs
      cases hs
      obtain ⟨frac, exp, rfl, hf, he⟩ := hl
      exact ⟨[48], frac, exp, by rw [h0]; rfl, Or.inl rfl, hf, he⟩
    · rw [if_neg h0] at hs
      by_cases hd : isDigit c = true
      · rw [if_pos hd] at hs
        cases hs
        obtain ⟨ds, frac, exp, rfl, hds, hf, he⟩ := hl
        have hc : 48 ≤ c ∧ c ≤ 57 := by simpa [isDigit] using hd
        exact ⟨c :: ds, frac, exp, rfl, Or.inr ⟨c, ds, rfl, by omega, hc.2, hds⟩, hf, he⟩
      · rw [if_neg hd] at hs; cases hs
  · -- after a leading zero
    simp only [numStep] at hs
    by_cases h0 : c = 46
    · rw [if_pos h0] at hs
      cases hs
      obtain ⟨d, ds, exp, rfl, hds, he⟩ := hl
      exact ⟨46 :: d :: ds, exp, by rw [h0]; rfl, Or.inr ⟨d, ds, rfl, hds⟩, he⟩
    · rw [if_neg h0] at hs
      by_cases h1 : c = 101 ∨ c = 69
      · rw [if_pos h1] at hs
        cases hs
        obtain ⟨sign, d, ds, rfl, hsign, hds⟩ := hl
        exact ⟨[], c :: (sign ++ d :: ds), rfl, Or.inl rfl,
          Or.inr ⟨c, sign, d, ds, rfl, h1, hsign, hds⟩⟩
      · rw [if_neg h1] at hs; cases hs
  · -- inside the integer part
    simp only [numStep] at hs
    by_cases hd : isDigit c = true
    · rw [if_pos hd] at hs
      cases hs
      obtain ⟨ds, frac, exp, rfl, hds, hf, he⟩ := hl
      exact ⟨c :: ds, frac, exp, rfl, allDigits_cons c ds hd hds, hf, he⟩
    · rw [if_neg hd] at hs
      by_cases h0 : c = 46
      · rw [if_pos h0] at hs
        cases hs
        obtain ⟨d, ds, exp, rfl, hds, he⟩ := hl
        exact ⟨[], 46 :: d :: ds, exp, by rw [h0]; rfl, allDigits_nil,
          Or.inr ⟨d, ds, rfl, hds⟩, he⟩
      · rw [if_neg h0] at hs
        by_cases h1 : c = 101 ∨ c = 69
        · rw [if_pos h1] at hs
          cases hs
          obtain ⟨sign, d, ds, rfl, hsign, hds⟩ := hl
          exact ⟨[], [], c :: (sign ++ d :: ds), rfl, allDigits_nil, Or.inl rfl,
            Or.inr ⟨c, sign, d, ds, rfl, h1, hsign, hds⟩⟩
        · rw [if_neg h1] at hs; cases hs
  · -- after the decimal point
    simp only [numStep] at hs
    by_cases hd : isDigit c = true
    · rw [if_pos hd] at hs
      cases hs
      obtain ⟨ds, exp, rfl, hds, he⟩ := hl
      exact ⟨c, ds, exp, rfl, allDigits_cons c ds hd hds, he⟩
    · rw [if_neg hd] at hs; cases hs
  · -- inside the fraction
    simp only [numStep] at hs
    by_cases hd : isDigit c = true
    · rw [if_pos hd] at hs
      cases hs
      obtain ⟨ds, exp, rfl, hds, he⟩ := hl
      exact ⟨c :: ds, exp, rfl, allDigits_cons c ds hd hds, he⟩
    · rw [if_neg hd] at hs
      by_cases h1 : c = 101 ∨ c = 69
      · rw [if_pos h1] at hs
        cases hs
        obtain ⟨sign, d, ds, rfl, hsign, hds⟩ := hl
        exact ⟨[], c :: (sign ++ d :: ds), rfl, allDigits_nil,
          Or.inr ⟨c, sign, d, ds, rfl, h1, hsign, hds⟩⟩
      · rw [if_neg h1] at hs; cases hs
  · -- after the letter of the exponent
    simp only [numStep] at hs
    by_cases h1 : c = 43 ∨ c = 45
    · rw [if_pos h1] at hs
      cases hs
      obtain ⟨d, ds, rfl, hds⟩ := hl
      refine ⟨[c], d, ds, rfl, ?_, hds⟩
      rcases h1 with rfl | rfl
      · exact Or.inr (Or.inl rfl)
      · exact Or.inr (Or.inr rfl)
    · rw [if_neg h1] at hs
      by_cases hd : isDigit c = true
      · rw [if_pos hd] at hs
        cases hs
        exact ⟨[], c, l, rfl, Or.inl rfl, allDigits_cons c l hd hl⟩
      · rw [if_neg hd] at hs; cases hs
  · -- after the sign of the exponent
    simp only [numStep] at hs
    by_cases hd : isDigit c = true
    · rw [if_pos hd] at hs
      cases hs
      exact ⟨c, l, rfl, allDigits_cons c l hd hl⟩
    · rw [if_neg hd] at hs; cases hs
  · -- inside the exponent
    simp only [numStep] at hs
    by_cases hd : isDigit c = true
    · rw [if_pos hd] at hs
      cases hs
      exact allDigits_cons c l hd hl
    · rw [if_neg hd] at hs; cases hs

/-- What the scanner reads as the rest of a number is a rest of a number of
the grammar, and it stands at the head of the input. -/
theorem scanNumber_sound (inp : List Nat) : ∀ (st : NumState) (lit rest : List Nat),
    scanNumber st inp = some (lit, rest) → inp = lit ++ rest ∧ NumTail st lit := by
  induction inp with
  | nil =>
    intro st lit rest h
    rw [scanNumber_nil] at h
    by_cases hf : st.final = true
    · rw [if_pos hf] at h
      simp only [Option.some.injEq, Prod.mk.injEq] at h
      obtain ⟨rfl, rfl⟩ := h
      exact ⟨rfl, numTail_final st hf⟩
    · rw [if_neg hf] at h; cases h
  | cons c cs ih =>
    intro st lit rest h
    rw [scanNumber_cons] at h
    cases hs : numStep st c with
    | none =>
      rw [hs] at h
      simp only at h
      by_cases hf : st.final = true
      · rw [if_pos hf] at h
        simp only [Option.some.injEq, Prod.mk.injEq] at h
        obtain ⟨rfl, rfl⟩ := h
        exact ⟨rfl, numTail_final st hf⟩
      · rw [if_neg hf] at h; cases h
    | some st1 =>
      rw [hs] at h
      simp only at h
      cases hr : scanNumber st1 cs with
      | none => rw [hr] at h; cases h
      | some p =>
        obtain ⟨lit1, rest1⟩ := p
        rw [hr] at h
        simp only [Option.some.injEq, Prod.mk.injEq] at h
        obtain ⟨rfl, rfl⟩ := h
        obtain ⟨h1, h2⟩ := ih st1 lit1 rest1 hr
        exact ⟨by rw [h1]; rfl, numTail_step st st1 c lit1 hs h2⟩

theorem jsonNumber_of_start (c : Nat) (st : NumState) (lit : List Nat)
    (hst : (c = 45 ∧ st = NumState.neg) ∨ (c = 48 ∧ st = NumState.zero) ∨
      (49 ≤ c ∧ c ≤ 57 ∧ st = NumState.int))
    (hl : NumTail st lit) : JsonNumber (c :: lit) := by
  rcases hst with ⟨rfl, rfl⟩ | ⟨rfl, rfl⟩ | ⟨h1, h2, rfl⟩
  · obtain ⟨int, frac, exp, rfl, hi, hf, he⟩ := hl
    exact ⟨[45], int, frac, exp, rfl, Or.inr rfl, hi, hf, he⟩
  · obtain ⟨frac, exp, rfl, hf, he⟩ := hl
    exact ⟨[], [48], frac, exp, rfl, Or.inl rfl, Or.inl rfl, hf, he⟩
  · obtain ⟨ds, frac, exp, rfl, hds, hf, he⟩ := hl
    exact ⟨[], c :: ds, frac, exp, rfl, Or.inl rfl, Or.inr ⟨c, ds, rfl, h1, h2, hds⟩, hf, he⟩

theorem hexVal_isHexDigit (c v : Nat) (h : hexVal c = some v) : IsHexDigit c := by
  unfold hexVal at h
  unfold IsHexDigit
  split at h
  · left; assumption
  · split at h
    · right; right; assumption
    · split at h
      · right; left; assumption
      · cases h

theorem hex4_isHexDigit (a b c d v : Nat) (h : hex4 a b c d = some v) :
    IsHexDigit a ∧ IsHexDigit b ∧ IsHexDigit c ∧ IsHexDigit d := by
  unfold hex4 at h
  cases ha : hexVal a with
  | none => rw [ha] at h; cases h
  | some va =>
    cases hb : hexVal b with
    | none => rw [ha, hb] at h; cases h
    | some vb =>
      cases hc : hexVal c with
      | none => rw [ha, hb, hc] at h; cases h
      | some vc =>
        cases hd : hexVal d with
        | none => rw [ha, hb, hc, hd] at h; cases h
        | some vd =>
          exact ⟨hexVal_isHexDigit a va ha, hexVal_isHexDigit b vb hb,
            hexVal_isHexDigit c vc hc, hexVal_isHexDigit d vd hd⟩

theorem getu4_some (l : List Nat) (v : Nat) (h : getu4 l = some v) :
    ∃ a b c d tl, l = 92 :: 117 :: a :: b :: c :: d :: tl ∧ hex4 a b c d = some v := by
  unfold getu4 at h
  split at h
  · exact ⟨_, _, _, _, _, rfl, h⟩
  · cases h

theorem utf16Decode_ne (r1 : Nat) (o : Option Nat) (h : utf16Decode r1 o ≠ runeError) :
    ∃ r2, o = some r2 := by
  cases o with
  | none => exact absurd rfl h
  | some r2 => exact ⟨r2, rfl⟩

theorem simpleEscape_some (e b : Nat) (h : simpleEscape e = some b) :
    e = 34 ∨ e = 92 ∨ e = 47 ∨ e = 98 ∨ e = 102 ∨ e = 110 ∨ e = 114 ∨ e = 116 := by
  unfold simpleEscape at h
  repeat' split at h
  all_goals first | omega | cases h

theorem jsonChars_high (pre l : List Nat) (hp : ∀ b ∈ pre, 0x80 ≤ b) (hl : JsonChars l) :
    JsonChars (pre ++ l) := by
  induction pre with
  | nil => exact hl
  | cons b bs ih =>
    have hb : 0x80 ≤ b := hp b (List.mem_cons_self _ _)
    exact JsonChars.unescaped b (bs ++ l) (by omega) (by omega) (by omega)
      (ih (fun x hx => hp x (List.mem_cons_of_mem _ hx)))

/-- The bytes of a rune after its first byte are continuation bytes. -/
theorem decodeRune_cont (c : Nat) (cs : List Nat) :
    ∀ b ∈ cs.take ((decodeRune (c :: cs)).2 - 1), 0x80 ≤ b := by
  unfold decodeRune
  by_cases h0 : c < 0x80
  · simp [h0]
  simp only [h0, if_false]
  by_cases h1 : c < 0xC2 ∨ 0xF4 < c
  · simp [h1]
  simp only [h1, if_false]
  by_cases h2 : c < 0xE0
  · simp only [h2, if_true]
    match cs with
    | [] => simp
    | b1 :: cs1 =>
      simp only
      by_cases hb : isCont b1 = true
      · have hb1 : 0x80 ≤ b1 ∧ b1 ≤ 0xBF := by simpa [isCont] using hb
        simp only [hb, if_true]
        intro b hmem
        simp at hmem
        omega
      · simp [hb]
  simp only [h2, if_false]
  by_cases h3 : c < 0xF0
  · simp only [h3, if_true]
    match cs with
    | [] => simp
    | [_] => simp
    | b1 :: b2 :: cs2 =>
      simp only
      by_cases hb : (if c = 0xE0 then 0xA0 else 0x80) ≤ b1 ∧
          b1 ≤ (if c = 0xED then 0x9F else 0xBF) ∧ isCont b2 = true
      · have hb2 : 0x80 ≤ b2 ∧ b2 ≤ 0xBF := by simpa [isCont] using hb.2.2
        have hb1 : 0x80 ≤ b1 := by
          have := hb.1
          split at this <;> omega
        rw [if_pos hb]
        intro b hmem
        simp at hmem
        rcases hmem with rfl | rfl <;> omega
      · rw [if_neg hb]; simp
  simp only [h3, if_false]
  match cs with
  | [] => simp
  | [_] => simp
  | [_, _] => simp
  | b1 :: b2 :: b3 :: cs3 =>
    simp only
    by_cases hb : (if c = 0xF0 then 0x90 else 0x80) ≤ b1 ∧
        b1 ≤ (if c = 0xF4 then 0x8F else 0xBF) ∧ isCont b2 = true ∧ isCont b3 = true
    · have hb2 : 0x80 ≤ b2 ∧ b2 ≤ 0xBF := by simpa [isCont] using hb.2.2.1
      have hb3 : 0x80 ≤ b3 ∧ b3 ≤ 0xBF := by simpa [isCont] using hb.2.2.2
      have hb1 : 0x80 ≤ b1 := by
        have := hb.1
        split at this <;> omega
      rw [if_pos hb]
      intro b hmem
      simp at hmem
      rcases hmem with rfl | rfl | rfl <;> omega
    · rw [if_neg hb]; simp

/-- What the scanner reads as a string is, up to its closing quote, a
sequence of characters of the grammar. -/
theorem scanString_sound : ∀ (n : Nat) (inp : List Nat), inp.length ≤ n →
    ∀ k s rest, scanString k inp = some (s, rest) →
      ∃ raw, inp.drop k = raw ++ 34 :: rest ∧ JsonChars raw := by
  intro n
  induction n with
  | zero =>
    intro inp hlen k s rest h
    have : inp = [] := List.length_eq_zero.mp (Nat.le_zero.mp hlen)
    subst this
    rw [scanString_nil] at h
    cases h
  | succ n ih =>
    intro inp hlen k s rest h
    cases inp with
    | nil => rw [scanString_nil] at h; cases h
    | cons c cs =>
      have hcs : cs.length ≤ n := by simpa using hlen
      cases k with
      | succ k =>
        rw [scanString_succ] at h
        exact ih cs hcs k s rest h
      | zero =>
        rw [scanString.eq_def] at h
        simp only at h
        rw [List.drop_zero]
        by_cases h34 : c = 34
        · rw [if_pos h34] at h
          simp only [Option.some.injEq, Prod.mk.injEq] at h
          exact ⟨[], by rw [h34, ← h.2]; rfl, JsonChars.nil⟩
        rw [if_neg h34] at h
        by_cases h92 : c = 92
        · rw [if_pos h92] at h
          subst h92
          cases cs with
          | nil => cases h
          | cons e cs1 =>
            simp only at h
            have hcs1 : cs1.length ≤ n := by simp at hcs; omega
            by_cases hu : e = 117
            · rw [if_pos hu] at h
              subst hu
              match cs1, hcs1, h with
              | [], _, h => cases h
              | [_], _, h => cases h
              | [_, _], _, h => cases h
              | [_, _, _], _, h => cases h
              | h1 :: h2 :: h3 :: h4 :: cs2, hcs1, h =>
                simp only at h
                have hcs2 : cs2.length ≤ n := by simp at hcs1; omega
                cases hx : hex4 h1 h2 h3 h4 with
                | none => rw [hx] at h; cases h
                | some rr =>
                  rw [hx] at h
                  simp only at h
                  obtain ⟨x1, x2, x3, x4⟩ := hex4_isHexDigit _ _ _ _ _ hx
                  split at h
                  · split at h
                    · rename_i hne
                      obtain ⟨s1, hs1, _⟩ := prepend_eq_some _ _ _ _ h
                      obtain ⟨raw, hraw, hj⟩ := ih cs2 hcs2 _ _ _ hs1
                      obtain ⟨r2, hr2⟩ := utf16Decode_ne _ _ hne
                      obtain ⟨a, b, c, d, tl, rfl, hy⟩ := getu4_some _ _ hr2
                      obtain ⟨y1, y2, y3, y4⟩ := hex4_isHexDigit _ _ _ _ _ hy
                      simp only [List.drop_succ_cons, List.drop_zero] at hraw
                      subst hraw
                      exact ⟨92 :: 117 :: h1 :: h2 :: h3 :: h4 :: 92 :: 117 :: a :: b :: c :: d :: raw,
                        rfl, JsonChars.unicode _ _ _ _ _ x1 x2 x3 x4
                          (JsonChars.unicode _ _ _ _ _ y1 y2 y3 y4 hj)⟩
                    · obtain ⟨s1, hs1, _⟩ := prepend_eq_some _ _ _ _ h
                      obtain ⟨raw, hraw, hj⟩ := ih cs2 hcs2 _ _ _ hs1
                      rw [List.drop_zero] at hraw
                      subst hraw
                      exact ⟨92 :: 117 :: h1 :: h2 :: h3 :: h4 :: raw, rfl,
                        JsonChars.unicode _ _ _ _ _ x1 x2 x3 x4 hj⟩
                  · obtain ⟨s1, hs1, _⟩ := prepend_eq_some _ _ _ _ h
                    obtain ⟨raw, hraw, hj⟩ := ih cs2 hcs2 _ _ _ hs1
                    rw [List.drop_zero] at hraw
                    subst hraw
                    exact ⟨92 :: 117 :: h1 :: h2 :: h3 :: h4 :: raw, rfl,
                      JsonChars.unicode _ _ _ _ _ x1 x2 x3 x4 hj⟩
            · rw [if_neg hu] at h
              cases hse : simpleEscape e with
              | none => rw [hse] at h; cases h
              | some b =>
                rw [hse] at h
                obtain ⟨s1, hs1, _⟩ := prepend_eq_some _ _ _ _ h
                obtain ⟨raw, hraw, hj⟩ := ih cs1 hcs1 _ _ _ hs1
                rw [List.drop_zero] at hraw
                subst hraw
                exact ⟨92 :: e :: raw, rfl, JsonChars.escape e raw (simpleEscape_some e b hse) hj⟩
        rw [if_neg h92] at h
        by_cases h32 : c < 32
        · rw [if_pos h32] at h; cases h
        rw [if_neg h32] at h
        by_cases h128 : c < 128
        · rw [if_pos h128] at h
          obtain ⟨s1, hs1, _⟩ := prepend_eq_some _ _ _ _ h
          obtain ⟨raw, hraw, hj⟩ := ih cs hcs _ _ _ hs1
          rw [List.drop_zero] at hraw
          subst hraw
          exact ⟨c :: raw, rfl, JsonChars.unescaped c raw (by omega) h34 h92 hj⟩
        · rw [if_neg h128] at h
          obtain ⟨s1, hs1, _⟩ := prepend_eq_some _ _ _ _ h
          obtain ⟨raw, hraw, hj⟩ := ih cs hcs _ _ _ hs1
          refine ⟨c :: (cs.take ((decodeRune (c :: cs)).2 - 1) ++ raw), ?_,
            JsonChars.unescaped c _ (by omega) h34 h92
              (jsonChars_high _ _ (decodeRune_cont c cs) hj)⟩
          rw [List.cons_append, List.append_assoc, ← hraw, List.take_append_drop]

theorem jsonWs_nil : JsonWs [] := fun _ h => by cases h

theorem jsonWs_append (a b : List Nat) (ha : JsonWs a) (hb : JsonWs b) : JsonWs (a ++ b) := by
  intro c hc
  rcases List.mem_append.mp hc with h | h
  · exact ha c h
  · exact hb c h

/-- The white space `skipSpace` drops. -/
theorem skipSpace_split (l : List Nat) : ∃ w, JsonWs w ∧ l = w ++ skipSpace l := by
  induction l with
  | nil => exact ⟨[], jsonWs_nil, rfl⟩
  | cons c cs ih =>
    unfold skipSpace
    by_cases hc : isSpace c = true
    · rw [if_pos hc]
      obtain ⟨w, hw, he⟩ := ih
      refine ⟨c :: w, ?_, by rw [List.cons_append, ← he]⟩
      intro x hx
      rcases List.mem_cons.mp hx with rfl | hx
      · simp [isSpace] at hc
        omega
      · exact hw x hx
    · rw [if_neg hc]
      exact ⟨[], jsonWs_nil, rfl⟩

theorem jsonElements_ws (w b : List Nat) (hw : JsonWs w) (hb : JsonElements b) :
    JsonElements (w ++ b) := by
  cases hb with
  | one w1 v w2 h1 hv h2 =>
    have := JsonElements.one (w ++ w1) v w2 (jsonWs_append w w1 hw h1) hv h2
    rwa [List.append_assoc] at this
  | more w1 v w2 b1 h1 hv h2 hb1 =>
    have := JsonElements.more (w ++ w1) v w2 b1 (jsonWs_append w w1 hw h1) hv h2 hb1
    rwa [List.append_assoc] at this

theorem jsonMembers_ws (w b : List Nat) (hw : JsonWs w) (hb : JsonMembers b) :
    JsonMembers (w ++ b) := by
  cases hb with
  | one w1 k w2 w3 v w4 h1 hk h2 h3 hv h4 =>
    have := JsonMembers.one (w ++ w1) k w2 w3 v w4 (jsonWs_append w w1 hw h1) hk h2 h3 hv h4
    rwa [List.append_assoc] at this
  | more w1 k w2 w3 v w4 b1 h1 hk h2 h3 hv h4 hb1 =>
    have := JsonMembers.more (w ++ w1) k w2 w3 v w4 b1 (jsonWs_append w w1 hw h1) hk h2 h3 hv h4
      hb1
    rwa [List.append_assoc] at this

/-- What the parser reads is a text of the grammar standing at the head of
the input: a value, the elements of an array up to its closing bracket, the
members of an object up to its closing brace. -/
theorem parse_sound (f : Nat) :
    (∀ d inp j rest, parseValue f d inp = some (j, rest) →
      ∃ v, inp = v ++ rest ∧ JsonValue v) ∧
    (∀ d inp js rest, parseElems f d inp = some (js, rest) →
      ∃ b, inp = b ++ 93 :: rest ∧ JsonElements b) ∧
    (∀ d inp ms rest, parseMembers f d inp = some (ms, rest) →
      ∃ b, inp = b ++ 125 :: rest ∧ JsonMembers b) := by
  induction f with
  | zero =>
    refine ⟨?_, ?_, ?_⟩
    · intro d inp j rest h
      rw [parseValue_zero] at h; cases h
    · intro d inp js rest h
      rw [parseElems_zero] at h; cases h
    · intro d inp ms rest h
      rw [parseMembers_zero] at h; cases h
  | succ f ih =>
    obtain ⟨ihv, ihe, ihm⟩ := ih
    refine ⟨?_, ?_, ?_⟩
    · intro d inp j rest h
      obtain ⟨c, cs, rfl, hcase⟩ := parseValue_inv f d inp j rest h
      rcases hcase with ⟨rfl, _, ho⟩ | ⟨rfl, _, ha⟩ | ⟨rfl, s, hs, _⟩ |
        ⟨st, lit, hst, hn, _⟩ | ⟨he, _⟩ | ⟨he, _⟩ | ⟨he, _⟩
      · obtain ⟨w, hw, hcs⟩ := skipSpace_split cs
        rcases ho with ⟨hsk, _⟩ | ⟨ms, hm, _⟩
        · rw [hsk] at hcs
          exact ⟨123 :: (w ++ [125]), by rw [hcs]; simp, JsonValue.emptyObject w hw⟩
        · obtain ⟨b, hb, hj⟩ := ihm _ _ _ _ hm
          rw [hb] at hcs
          exact ⟨123 :: ((w ++ b) ++ [125]), by rw [hcs]; simp,
            JsonValue.object _ (jsonMembers_ws w b hw hj)⟩
      · obtain ⟨w, hw, hcs⟩ := skipSpace_split cs
        rcases ha with ⟨hsk, _⟩ | ⟨es, he, _⟩
        · rw [hsk] at hcs
          exact ⟨91 :: (w ++ [93]), by rw [hcs]; simp, JsonValue.emptyArray w hw⟩
        · obtain ⟨b, hb, hj⟩ := ihe _ _ _ _ he
          rw [hb] at hcs
          exact ⟨91 :: ((w ++ b) ++ [93]), by rw [hcs]; simp,
            JsonValue.array _ (jsonElements_ws w b hw hj)⟩
      · obtain ⟨raw, hraw, hj⟩ := scanString_sound cs.length cs (Nat.le_refl _) 0 s rest hs
        rw [List.drop_zero] at hraw
        exact ⟨34 :: (raw ++ [34]), by rw [hraw]; simp, JsonValue.string raw hj⟩
      · obtain ⟨hcs, ht⟩ := scanNumber_sound cs st lit rest hn
        exact ⟨c :: lit, by rw [hcs]; rfl,
          JsonValue.number _ (jsonNumber_of_start c st lit hst ht)⟩
      · exact ⟨[116, 114, 117, 101], by rw [he]; rfl, JsonValue.litTrue⟩
      · exact ⟨[102, 97, 108, 115, 101], by rw [he]; rfl, JsonValue.litFalse⟩
      · exact ⟨[110, 117, 108, 108], by rw [he]; rfl, JsonValue.litNull⟩
    · intro d inp js rest h
      obtain ⟨j, r1, hv, hcase⟩ := parseElems_inv f d inp js rest h
      obtain ⟨v, hinp, hjv⟩ := ihv _ _ _ _ hv
      obtain ⟨w2, hw2, hr1⟩ := skipSpace_split r1
      rcases hcase with ⟨hsk, _⟩ | ⟨r2, js1, hsk, he, _⟩
      · rw [hsk] at hr1
        have := JsonElements.one [] v w2 jsonWs_nil hjv hw2
        exact ⟨v ++ w2, by rw [hinp, hr1]; simp, this⟩
      · obtain ⟨b, hb, hj⟩ := ihe _ _ _ _ he
        obtain ⟨w, hw, hr2⟩ := skipSpace_split r2
        rw [hsk] at hr1
        rw [hb] at hr2
        have := JsonElements.more [] v w2 (w ++ b) jsonWs_nil hjv hw2 (jsonElements_ws w b hw hj)
        exact ⟨v ++ (w2 ++ 44 :: (w ++ b)), by rw [hinp, hr1, hr2]; simp, this⟩
    · intro d inp ms rest h
      obtain ⟨cs, key, r1, r2, j, r3, rfl, hs, hsk1, hv, hcase⟩ :=
        parseMembers_inv f d inp ms rest h
      obtain ⟨raw, hraw, hk⟩ := scanString_sound cs.length cs (Nat.le_refl _) 0 key r1 hs
      rw [List.drop_zero] at hraw
      obtain ⟨w2, hw2, hr1⟩ := skipSpace_split r1
      obtain ⟨w3, hw3, hr2⟩ := skipSpace_split r2
      obtain ⟨v, hval, hjv⟩ := ihv _ _ _ _ hv
      obtain ⟨w4, hw4, hr3⟩ := skipSpace_split r3
      rw [hsk1] at hr1
      rw [hval] at hr2
      rcases hcase with ⟨hsk, _⟩ | ⟨r4, ms1, hsk, hm, _⟩
      · rw [hsk] at hr3
        have := JsonMembers.one [] raw w2 w3 v w4 jsonWs_nil hk hw2 hw3 hjv hw4
        exact ⟨34 :: (raw ++ 34 :: (w2 ++ 58 :: (w3 ++ (v ++ w4)))),
          by rw [hraw, hr1, hr2, hr3]; simp, this⟩
      · obtain ⟨b, hb, hj⟩ := ihm _ _ _ _ hm
        obtain ⟨w, hw, hr4⟩ := skipSpace_split r4
        rw [hsk] at hr3
        rw [hb] at hr4
        have := JsonMembers.more [] raw w2 w3 v w4 (w ++ b) jsonWs_nil hk hw2 hw3 hjv hw4
          (jsonMembers_ws w b hw hj)
        exact ⟨34 :: (raw ++ 34 :: (w2 ++ 58 :: (w3 ++ (v ++ (w4 ++ 44 :: (w ++ b)))))),
          by rw [hraw, hr1, hr2, hr3, hr4]; simp, this⟩

/-- Soundness of the validity check: an input the parser accepts is a JSON
text of the grammar. -/
theorem parseJSON_sound (data : List Nat) (j : JSON) (h : parseJSON data = some j) :
    JsonText data := by
  unfold parseJSON at h
  cases hp : parseValue (2 * data.length + 1) 0 (skipSpace data) with
  | none => rw [hp] at h; cases h
  | some p =>
    obtain ⟨j1, rest⟩ := p
    rw [hp] at h
    simp only at h
    by_cases hr : skipSpace rest = []
    · obtain ⟨w1, hw1, hd⟩ := skipSpace_split data
      obtain ⟨v, hv, hjv⟩ := (parse_sound _).1 _ _ _ _ hp
      obtain ⟨w2, hw2, hrest⟩ := skipSpace_split rest
      rw [hr, List.append_nil] at hrest
      exact ⟨w1, v, w2, hw1, hjv, hw2, by rw [← hrest, ← hv]; exact hd⟩
    · rw [if_neg hr] at h; cases h

theorem valid_sound (data : List Nat) (h : Valid data = true) : JsonText data := by
  unfold Valid at h
  obtain ⟨j, hj⟩ := Option.isSome_iff_exists.mp h
  exact parseJSON_sound data j hj

/-! ## The recursion bound of `parseJSON` is enough -/

theorem parseValue_congr (f g d c : Nat) (cs : List Nat)
    (hm : c = 123 → parseMembers f (d + 1) (skipSpace cs) = parseMembers g (d + 1) (skipSpace cs))
    (he : c = 91 → parseElems f (d + 1) (skipSpace cs) = parseElems g (d + 1) (skipSpace cs)) :
    parseValue (f + 1) d (c :: cs) = parseValue (g + 1) d (c :: cs) := by
  rw [parseValue.eq_def, parseValue.eq_def (g + 1)]
  simp only
  by_cases h1 : c = 123
  · rw [if_pos h1, if_pos h1, hm h1]
  · rw [if_neg h1, if_neg h1]
    by_cases h2 : c = 91
    · rw [if_pos h2, if_pos h2, he h2]
    · rw [if_neg h2, if_neg h2]

theorem parseValue_close (f d c : Nat) (cs : List Nat) (hc : c = 93 ∨ c = 125) :
    parseValue f d (c :: cs) = none := by
  cases f with
  | zero => rw [parseValue_zero]
  | succ f =>
    rw [parseValue.eq_def]
    rcases hc with rfl | rfl <;> simp [isDigit]

theorem parseElems_close (f d : Nat) (cs : List Nat) : parseElems f d (93 :: cs) = none := by
  cases f with
  | zero => rw [parseElems_zero]
  | succ f => rw [parseElems_succ, parseValue_close f d 93 cs (Or.inl rfl)]

theorem parseMembers_close (f d : Nat) (cs : List Nat) : parseMembers f d (125 :: cs) = none := by
  cases f with
  | zero => rw [parseMembers_zero]
  | succ f => rw [parseMembers.eq_def]

theorem jsonValue_ne_nil (v : List Nat) (hj : JsonValue v) : v ≠ [] := by
  intro hv
  subst hv
  cases hj with
  | number l hn =>
    obtain ⟨minus, int, frac, exp, he, _, hi, _, _⟩ := hn
    have : int = [] := by
      have := congrArg List.length he
      simp at this
      exact List.length_eq_zero.mp (by omega)
    rcases hi with hi | ⟨_, _, hi, _⟩ <;> rw [this] at hi <;> cases hi

/-- The empty input is not a JSON text. -/
theorem jsonText_nil : ¬ JsonText [] := by
  rintro ⟨w1, v, w2, _, hv, _, he⟩
  have h1 : w1 ++ (v ++ w2) = [] := he.symm
  have h2 := (List.append_eq_nil.mp h1).2
  exact jsonValue_ne_nil v hv (List.append_eq_nil.mp h2).1

/-- The input left after a value is shorter than the input before it. -/
theorem parseValue_length (f d : Nat) (inp : List Nat) (j : JSON) (rest : List Nat)
    (h : parseValue f d inp = some (j, rest)) : rest.length < inp.length := by
  obtain ⟨v, hv, hj⟩ := (parse_sound f).1 d inp j rest h
  have hne := jsonValue_ne_nil v hj
  cases v with
  | nil => exact absurd rfl hne
  | cons x xs => rw [hv]; simp; omega

theorem scanString_length (cs : List Nat) (s rest : List Nat)
    (h : scanString 0 cs = some (s, rest)) : rest.length < cs.length := by
  obtain ⟨raw, hraw, _⟩ := scanString_sound cs.length cs (Nat.le_refl _) 0 s rest h
  rw [List.drop_zero] at hraw
  rw [hraw]
  simp
  omega

theorem skipSpace_cons_length (l r : List Nat) (c : Nat) (h : skipSpace l = c :: r) :
    r.length < l.length := by
  have := skipSpace_length l
  rw [h] at this
  simp at this
  omega

/-- A value read with some recursion bound is read with every bound above
twice the length of the input. -/
theorem parse_fuel (f : Nat) :
    (∀ g d inp r, parseValue f d inp = some r → 2 * inp.length < g →
      parseValue g d inp = some r) ∧
    (∀ g d inp r, parseElems f d inp = some r → 2 * inp.length + 1 < g →
      parseElems g d inp = some r) ∧
    (∀ g d inp r, parseMembers f d inp = some r → 2 * inp.length + 1 < g →
      parseMembers g d inp = some r) := by
  induction f with
  | zero =>
    refine ⟨?_, ?_, ?_⟩
    · intro g d inp r h
      rw [parseValue_zero] at h; cases h
    · intro g d inp r h
      rw [parseElems_zero] at h; cases h
    · intro g d inp r h
      rw [parseMembers_zero] at h; cases h
  | succ f ih =>
    obtain ⟨ihv, ihe, ihm⟩ := ih
    refine ⟨?_, ?_, ?_⟩
    · intro g d inp r h hg
      obtain ⟨j, rest⟩ := r
      obtain ⟨c, cs, rfl, hcase⟩ := parseValue_inv f d inp j rest h
      cases g with
      | zero => omega
      | succ g =>
        have hlen : 2 * (skipSpace cs).length + 1 < g := by
          have := skipSpace_length cs
          simp at hg
          omega
        rw [← h]
        symm
        apply parseValue_congr
        · intro hc
          subst hc
          rcases hcase with ⟨_, _, ho⟩ | ⟨hc, _⟩ | ⟨hc, _⟩ | ⟨st, lit, hst, _⟩ | ⟨he, _⟩ |
            ⟨he, _⟩ | ⟨he, _⟩
          · rcases ho with ⟨hsk, _⟩ | ⟨ms, hm, _⟩
            · rw [hsk, parseMembers_close, parseMembers_close]
            · rw [hm, ihm g _ _ _ hm hlen]
          · cases hc
          · cases hc
          · omega
          · cases he
          · cases he
          · cases he
        · intro hc
          subst hc
          rcases hcase with ⟨hc, _⟩ | ⟨_, _, ha⟩ | ⟨hc, _⟩ | ⟨st, lit, hst, _⟩ | ⟨he, _⟩ |
            ⟨he, _⟩ | ⟨he, _⟩
          · cases hc
          · rcases ha with ⟨hsk, _⟩ | ⟨es, he, _⟩
            · rw [hsk, parseElems_close, parseElems_close]
            · rw [he, ihe g _ _ _ he hlen]
          · cases hc
          · omega
          · cases he
          · cases he
          · cases he
    · intro g d inp r h hg
      obtain ⟨js, rest⟩ := r
      obtain ⟨j, r1, hv, hcase⟩ := parseElems_inv f d inp js rest h
      cases g with
      | zero => omega
      | succ g =>
        have hv1 := ihv g d inp (j, r1) hv (by omega)
        have hr1 := parseValue_length f d inp j r1 hv
        rw [parseElems_succ, hv1]
        simp only
        rcases hcase with ⟨hsk, rfl⟩ | ⟨r2, js1, hsk, he, rfl⟩
        · rw [hsk]
        · have hr2 := skipSpace_cons_length r1 r2 44 hsk
          have hr3 := skipSpace_length r2
          rw [hsk]
          simp only
          rw [ihe g d _ _ he (by omega)]
    · intro g d inp r h hg
      obtain ⟨ms, rest⟩ := r
      obtain ⟨cs, key, r1, r2, j, r3, rfl, hs, hsk1, hv, hcase⟩ :=
        parseMembers_inv f d inp ms rest h
      cases g with
      | zero => omega
      | succ g =>
        have h1 := scanString_length cs key r1 hs
        have h2 := skipSpace_cons_length r1 r2 58 hsk1
        have h3 := skipSpace_length r2
        have h4 := parseValue_length f d _ j r3 hv
        simp only [List.length_cons] at hg
        have hv1 := ihv g d _ (j, r3) hv (by omega)
        rw [parseMembers_succ, hs]
        simp only
        rw [hsk1]
        simp only
        rw [hv1]
        simp only
        rcases hcase with ⟨hsk, rfl⟩ | ⟨r4, ms1, hsk, hm, rfl⟩
        · rw [hsk]
        · have h5 := skipSpace_cons_length r3 r4 44 hsk
          have h6 := skipSpace_length r4
          rw [hsk]
          simp only
          rw [ihm g d _ _ hm (by omega)]

/-- The recursion bound of `parseJSON` loses nothing: a value the scanner
reads from the input with any bound, it reads with that of `parseJSON`. -/
theorem parseJSON_fuel (data : List Nat) (f : Nat) (j : JSON) (rest : List Nat)
    (h : parseValue f 0 (skipSpace data) = some (j, rest)) :
    parseValue (2 * data.length + 1) 0 (skipSpace data) = some (j, rest) := by
  have := skipSpace_length data
  exact (parse_fuel f).1 _ 0 _ _ h (by omega)

/-! ## The path of the URL of a request -/

theorem cutByte_not_mem (sep : Nat) (l : GoString) (h : sep ∉ l) : cutByte sep l = (l, []) := by
  induction l with
  | nil => rfl
  | cons c cs ih =>
    have hc : c ≠ sep := fun e => h (by rw [e]; exact List.mem_cons_self _ _)
    have hcs : sep ∉ cs := fun e => h (List.mem_cons_of_mem _ e)
    simp only [cutByte, hc, if_false, ih hcs]

theorem cutByte_cons (sep c : Nat) (cs : GoString) :
    cutByte sep (c :: cs) =
      if c = sep then ([], cs) else (c :: (cutByte sep cs).1, (cutByte sep cs).2) := rfl

theorem cutByte_fst_append (sep : Nat) (l s : GoString) :
    (cutByte sep (l ++ s)).1 = if sep ∈ l then (cutByte sep l).1 else l ++ (cutByte sep s).1 := by
  induction l with
  | nil => simp
  | cons c cs ih =>
    rw [List.cons_append, cutByte_cons, cutByte_cons]
    by_cases hc : c = sep
    · subst hc
      simp
    · have hne : ¬ sep = c := fun e => hc e.symm
      rw [if_neg hc, if_neg hc]
      simp only [ih, List.mem_cons, hne, false_or]
      by_cases hm : sep ∈ cs
      · simp [hm]
      · simp [hm]

theorem containsCTLByte_append (l s : GoString) :
    containsCTLByte (l ++ s) = (containsCTLByte l || containsCTLByte s) := by
  unfold containsCTLByte
  rw [List.any_append]

theorem getSchemeFrom_cons (raw : GoString) (i c : Nat) (cs : GoString) :
    getSchemeFrom raw i (c :: cs) =
      if isSchemeLetter c then getSchemeFrom raw (i + 1) cs
      else if isSchemeMark c then
        if i = 0 then some ([], raw) else getSchemeFrom raw (i + 1) cs
      else if c = 58 then
        if i = 0 then none else some (raw.take i, cs)
      else some ([], raw) := by
  rw [getSchemeFrom.eq_def]

theorem getSchemeFrom_append (raw s : GoString) : ∀ (l : GoString) (i : Nat),
    (∃ c ∈ l, isSchemeLetter c = false ∧ isSchemeMark c = false) →
    i + l.length ≤ raw.length →
    getSchemeFrom (raw ++ s) i (l ++ s) =
      (getSchemeFrom raw i l).map (fun p => (p.1, p.2 ++ s)) := by
  intro l
  induction l with
  | nil => intro i h; obtain ⟨c, hc, _⟩ := h; cases hc
  | cons c cs ih =>
    intro i h hi
    rw [List.cons_append, getSchemeFrom_cons, getSchemeFrom_cons]
    have hrest : (isSchemeLetter c = true ∨ isSchemeMark c = true) →
        ∃ c ∈ cs, isSchemeLetter c = false ∧ isSchemeMark c = false := by
      intro hc
      obtain ⟨x, hx, h1, h2⟩ := h
      rcases List.mem_cons.mp hx with rfl | hx
      · rcases hc with hc | hc
        · rw [hc] at h1; cases h1
        · rw [hc] at h2; cases h2
      · exact ⟨x, hx, h1, h2⟩
    have hi1 : i + 1 + cs.length ≤ raw.length := by
      simp only [List.length_cons] at hi; omega
    have hi0 : i ≤ raw.length := by omega
    by_cases h1 : isSchemeLetter c = true
    · rw [if_pos h1, if_pos h1]
      exact ih (i + 1) (hrest (Or.inl h1)) hi1
    · rw [if_neg h1, if_neg h1]
      by_cases h2 : isSchemeMark c = true
      · rw [if_pos h2, if_pos h2]
        by_cases h0 : i = 0
        · rw [if_pos h0, if_pos h0]; rfl
        · rw [if_neg h0, if_neg h0]
          exact ih (i + 1) (hrest (Or.inr h2)) hi1
      · rw [if_neg h2, if_neg h2]
        by_cases h3 : c = 58
        · rw [if_pos h3, if_pos h3]
          by_cases h0 : i = 0
          · rw [if_pos h0, if_pos h0]; rfl
          · rw [if_neg h0, if_neg h0]
            simp only [Option.map_some', List.take_append_of_le_length hi0]
        · rw [if_neg h3, if_neg h3]; rfl

theorem getSchemeFrom_all (raw : GoString) : ∀ (l : GoString) (i : Nat),
    (∀ c ∈ l, isSchemeLetter c = true ∨ isSchemeMark c = true) →
    getSchemeFrom raw i l = some ([], raw) := by
  intro l
  induction l with
  | nil => intro i _; rfl
  | cons c cs ih =>
    intro i h
    have hcs : ∀ c ∈ cs, isSchemeLetter c = true ∨ isSchemeMark c = true :=
      fun x hx => h x (List.mem_cons_of_mem _ hx)
    rw [getSchemeFrom_cons]
    rcases h c (List.mem_cons_self _ _) with h1 | h1
    · rw [if_pos h1]; exact ih _ hcs
    · by_cases h0 : isSchemeLetter c = true
      · rw [if_pos h0]; exact ih _ hcs
      · rw [if_neg h0, if_pos h1]
        by_cases hi : i = 0
        · rw [if_pos hi]
        · rw [if_neg hi]; exact ih _ hcs

/-- What `getScheme` leaves after the scheme is an end of the text. -/
theorem getSchemeFrom_suffix (raw : GoString) : ∀ (l : GoString) (i : Nat) (sch rest : GoString),
    getSchemeFrom raw i l = some (sch, rest) → rest = raw ∨ rest <:+ l := by
  intro l
  induction l with
  | nil =>
    intro i sch rest h
    simp only [getSchemeFrom, Option.some.injEq, Prod.mk.injEq] at h
    exact Or.inl h.2.symm
  | cons c cs ih =>
    intro i sch rest h
    rw [getSchemeFrom_cons] at h
    have step : ∀ j, getSchemeFrom raw j cs = some (sch, rest) → rest = raw ∨ rest <:+ c :: cs := by
      intro j hj
      rcases ih j sch rest hj with h1 | h1
      · exact Or.inl h1
      · exact Or.inr (List.IsSuffix.trans h1 (List.suffix_cons c cs))
    by_cases h1 : isSchemeLetter c = true
    · rw [if_pos h1] at h; exact step _ h
    · rw [if_neg h1] at h
      by_cases h2 : isSchemeMark c = true
      · rw [if_pos h2] at h
        by_cases h0 : i = 0
        · rw [if_pos h0] at h
          simp only [Option.some.injEq, Prod.mk.injEq] at h
          exact Or.inl h.2.symm
        · rw [if_neg h0] at h; exact step _ h
      · rw [if_neg h2] at h
        by_cases h3 : c = 58
        · rw [if_pos h3] at h
          by_cases h0 : i = 0
          · rw [if_pos h0] at h; cases h
          · rw [if_neg h0] at h
            simp only [Option.some.injEq, Prod.mk.injEq] at h
            exact Or.inr (by rw [← h.2]; exact List.suffix_cons c cs)
        · rw [if_neg h3] at h
          simp only [Option.some.injEq, Prod.mk.injEq] at h
          exact Or.inl h.2.symm

theorem getScheme_rest_mem (raw sch rest : GoString) (h : getScheme raw = some (sch, rest))
    (x : Nat) (hx : x ∈ rest) : x ∈ raw := by
  rcases getSchemeFrom_suffix raw raw 0 sch rest h with h1 | h1
  · rw [h1] at hx; exact hx
  · exact h1.subset hx

theorem unescape_cons (c : Nat) (cs : GoString) :
    unescape (c :: cs) =
      if c = 37 then
        match cs with
        | a :: b :: cs2 =>
          match hexVal a, hexVal b with
          | some x, some y => (unescape cs2).map (fun t => (x * 16 + y) :: t)
          | _, _ => none
        | _ => none
      else (unescape cs).map (fun t => c :: t) := by
  rw [unescape.eq_def]
  rfl

theorem unescape_plain (s : GoString) (h : 37 ∉ s) : unescape s = some s := by
  induction s with
  | nil => rfl
  | cons c cs ih =>
    have hc : c ≠ 37 := fun e => h (by rw [e]; exact List.mem_cons_self _ _)
    rw [unescape_cons, if_neg hc, ih (fun e => h (List.mem_cons_of_mem _ e))]
    rfl

/-- Text without `%` put after a text stays as it is after the unescaped text. -/
theorem unescape_append (s : GoString) (hs : 37 ∉ s) : ∀ (n : Nat) (d p : GoString),
    d.length ≤ n → unescape d = some p → unescape (d ++ s) = some (p ++ s) := by
  intro n
  induction n with
  | zero =>
    intro d p hd h
    have : d = [] := List.length_eq_zero.mp (Nat.le_zero.mp hd)
    subst this
    simp only [unescape, Option.some.injEq] at h
    subst h
    exact unescape_plain s hs
  | succ n ih =>
    intro d p hd h
    cases d with
    | nil =>
      simp only [unescape, Option.some.injEq] at h
      subst h
      exact unescape_plain s hs
    | cons c cs =>
      have hcs : cs.length ≤ n := by simpa using hd
      rw [unescape_cons] at h
      rw [List.cons_append, unescape_cons]
      by_cases hc : c = 37
      · rw [if_pos hc] at h ⊢
        match cs, hcs, h with
        | [], _, h => cases h
        | [_], _, h => cases h
        | a :: b :: cs2, hcs, h =>
          simp only [List.cons_append] at h ⊢
          cases ha : hexVal a with
          | none => rw [ha] at h; cases h
          | some x =>
            cases hb : hexVal b with
            | none => rw [ha, hb] at h; cases h
            | some y =>
              rw [ha, hb] at h
              simp only at h ⊢
              cases hu : unescape cs2 with
              | none => rw [hu] at h; cases h
              | some t =>
                rw [hu] at h
                simp only [Option.map_some', Option.some.injEq] at h
                subst h
                rw [ih cs2 t (by simp at hcs; omega) hu]
                rfl
      · rw [if_neg hc] at h ⊢
        cases hu : unescape cs with
        | none => rw [hu] at h; cases h
        | some t =>
          rw [hu] at h
          simp only [Option.map_some', Option.some.injEq] at h
          subst h
          rw [ih cs t hcs hu]
          rfl

theorem dropWhile_append_of_ne (P : Nat → Bool) (s : GoString) : ∀ l : GoString,
    l.dropWhile P ≠ [] →
    (l ++ s).dropWhile P = l.dropWhile P ++ s ∧ (l ++ s).takeWhile P = l.takeWhile P := by
  intro l
  induction l with
  | nil => intro h; exact absurd rfl h
  | cons c cs ih =>
    intro h
    by_cases hc : P c = true
    · simp only [List.dropWhile_cons, hc, if_true] at h
      obtain ⟨h1, h2⟩ := ih h
      simp only [List.cons_append, List.dropWhile_cons, List.takeWhile_cons, hc, if_true, h1, h2,
        and_self]
    · simp only [List.cons_append, List.dropWhile_cons, List.takeWhile_cons, hc,
        Bool.false_eq_true, if_false, and_self]

theorem startsWith_slash_append (l s : GoString) (hs : startsWith [47] s = false) :
    startsWith [47] (l ++ s) = startsWith [47] l := by
  cases l with
  | nil => rw [List.nil_append, hs]; rfl
  | cons c cs => simp [startsWith, List.isPrefixOf]

/-- Text put after a URL that has a path goes to the end of the path, when
it holds no `%`, does not start with a slash and has no colon before its
first slash. -/
theorem parseRest_append (scheme : GoString) (url u : URL) (rest s : GoString)
    (hurl : url.Path = []) (h : parseRest scheme url rest = some u) (hp : u.Path ≠ [])
    (hs0 : startsWith [47] s = false) (hs58 : 58 ∉ (cutByte 47 s).1) (hs37 : 37 ∉ s) :
    parseRest scheme url (rest ++ s) = some { u with Path := u.Path ++ s } := by
  have path_case : ∀ r : GoString, (unescape r).map (fun p => { url with Path := p }) = some u →
      (unescape (r ++ s)).map (fun p => { url with Path := p }) =
        some { u with Path := u.Path ++ s } := by
    intro r hr
    cases hu : unescape r with
    | none => rw [hu] at hr; cases hr
    | some p =>
      rw [hu] at hr
      simp only [Option.map_some', Option.some.injEq] at hr
      subst hr
      rw [unescape_append s hs37 r.length r p (Nat.le_refl _) hu]
      rfl
  unfold parseRest at h ⊢
  cases rest with
  | nil =>
    exfalso
    simp only [startsWith, List.isPrefixOf, Bool.false_eq_true, not_false_eq_true, true_and,
      cutByte, List.not_mem_nil, and_false, if_false, List.drop_nil, unescape,
      Option.map_some'] at h
    split at h
    · simp only [Option.some.injEq] at h
      subst h
      exact hp hurl
    · simp only [Option.some.injEq] at h
      subst h
      exact hp rfl
  | cons c r =>
    by_cases hc : c = 47
    · subst hc
      have a1 : startsWith [47] (47 :: r) = true := by simp [startsWith, List.isPrefixOf]
      have a2 : startsWith [47] (47 :: r ++ s) = true := by simp [startsWith, List.isPrefixOf]
      simp only [a1, a2, not_true_eq_false, false_and, if_false] at h ⊢
      cases r with
      | nil =>
        have b1 : startsWith [47, 47] [47] = false := by decide
        have b2 : startsWith [47, 47] ([47] ++ s) = false := by
          have : startsWith [47, 47] ([47] ++ s) = startsWith [47] s := by
            simp [startsWith, List.isPrefixOf]
          rw [this, hs0]
        simp only [b1, b2, Bool.false_eq_true, and_false, if_false] at h ⊢
        exact path_case _ h
      | cons c2 r2 =>
        by_cases hc2 : c2 = 47
        · subst hc2
          have b1 : startsWith [47, 47] (47 :: 47 :: r2) = true := by
            simp [startsWith, List.isPrefixOf]
          have b2 : startsWith [47, 47] (47 :: 47 :: r2 ++ s) = true := by
            simp [startsWith, List.isPrefixOf]
          have b3 : startsWith [47, 47, 47] (47 :: 47 :: r2 ++ s) =
              startsWith [47, 47, 47] (47 :: 47 :: r2) := by
            have e1 : startsWith [47, 47, 47] (47 :: 47 :: r2 ++ s) = startsWith [47] (r2 ++ s) := by
              simp [startsWith, List.isPrefixOf]
            have e2 : startsWith [47, 47, 47] (47 :: 47 :: r2) = startsWith [47] r2 := by
              simp [startsWith, List.isPrefixOf]
            rw [e1, e2, startsWith_slash_append r2 s hs0]
          simp only [b1, b2, b3, and_true] at h ⊢
          split at h
          · rename_i hcond
            rw [if_pos hcond]
            simp only [List.cons_append, List.drop_succ_cons, List.drop_zero] at h ⊢
            cases hu : unescape (List.dropWhile (fun b => b != 47) r2) with
            | none => rw [hu] at h; cases h
            | some p =>
              rw [hu] at h
              simp only [Option.map_some', Option.some.injEq] at h
              subst h
              have hne : List.dropWhile (fun b => b != 47) r2 ≠ [] := by
                intro e
                rw [e] at hu
                simp only [unescape, Option.some.injEq] at hu
                exact hp hu.symm
              obtain ⟨d1, d2⟩ := dropWhile_append_of_ne (fun b => b != 47) s r2 hne
              rw [d1, d2, unescape_append s hs37 _ _ p (Nat.le_refl _) hu]
              rfl
          · rename_i hcond
            rw [if_neg hcond]
            exact path_case _ h
        · have b1 : startsWith [47, 47] (47 :: c2 :: r2) = false := by
            simp [startsWith, List.isPrefixOf]
            exact fun e => absurd e.symm hc2
          have b2 : startsWith [47, 47] (47 :: c2 :: r2 ++ s) = false := by
            simp [startsWith, List.isPrefixOf]
            exact fun e => absurd e.symm hc2
          simp only [b1, b2, Bool.false_eq_true, and_false, if_false] at h ⊢
          exact path_case _ h
    · have a1 : startsWith [47] (c :: r) = false := by
        simp [startsWith, List.isPrefixOf]
        exact fun e => hc e.symm
      have a2 : startsWith [47] (c :: r ++ s) = false := by
        simp [startsWith, List.isPrefixOf]
        exact fun e => hc e.symm
      have b1 : startsWith [47, 47] (c :: r) = false := by
        simp [startsWith, List.isPrefixOf]
        exact fun e => absurd e.symm hc
      have b2 : startsWith [47, 47] (c :: r ++ s) = false := by
        simp [startsWith, List.isPrefixOf]
        exact fun e => absurd e.symm hc
      simp only [a1, a2, b1, b2, Bool.false_eq_true, not_false_eq_true, true_and, and_false,
        if_false] at h ⊢
      by_cases hsch : scheme ≠ []
      · exfalso
        rw [if_pos hsch] at h
        simp only [Option.some.injEq] at h
        subst h
        exact hp hurl
      · rw [if_neg hsch] at h ⊢
        by_cases h58 : 58 ∈ (cutByte 47 (c :: r)).1
        · rw [if_pos h58] at h; cases h
        · rw [if_neg h58] at h
          have h58s : 58 ∉ (cutByte 47 (c :: r ++ s)).1 := by
            rw [cutByte_fst_append]
            by_cases hm : 47 ∈ c :: r
            · rw [if_pos hm]; exact h58
            · rw [if_neg hm]
              rw [cutByte_not_mem 47 _ hm] at h58
              intro hmem
              rcases List.mem_append.mp hmem with hmem | hmem
              · exact h58 hmem
              · exact hs58 hmem
          rw [if_neg h58s]
          exact path_case _ h

theorem unescape_mem (x : Nat) : ∀ (n : Nat) (d p : GoString), d.length ≤ n →
    unescape d = some p → x ∈ p → x ∈ d ∨ 37 ∈ d := by
  intro n
  induction n with
  | zero =>
    intro d p hd h hx
    have : d = [] := List.length_eq_zero.mp (Nat.le_zero.mp hd)
    subst this
    simp only [unescape, Option.some.injEq] at h
    subst h
    cases hx
  | succ n ih =>
    intro d p hd h hx
    cases d with
    | nil =>
      simp only [unescape, Option.some.injEq] at h
      subst h
      cases hx
    | cons c cs =>
      have hcs : cs.length ≤ n := by simpa using hd
      rw [unescape_cons] at h
      by_cases hc : c = 37
      · exact Or.inr (by rw [hc]; exact List.mem_cons_self _ _)
      · rw [if_neg hc] at h
        cases hu : unescape cs with
        | none => rw [hu] at h; cases h
        | some t =>
          rw [hu] at h
          simp only [Option.map_some', Option.some.injEq] at h
          subst h
          rcases List.mem_cons.mp hx with rfl | hx
          · exact Or.inl (List.mem_cons_self _ _)
          · rcases ih cs t hcs hu hx with h1 | h1
            · exact Or.inl (List.mem_cons_of_mem _ h1)
            · exact Or.inr (List.mem_cons_of_mem _ h1)

/-- A byte of the path stands in the text the path is read from, unless it
comes from an escape. -/
theorem parseRest_path_mem (scheme : GoString) (url u : URL) (rest : GoString)
    (hurl : url.Path = []) (h : parseRest scheme url rest = some u) (x : Nat)
    (hx : x ∈ u.Path) : x ∈ rest ∨ 37 ∈ rest := by
  have path_case : ∀ r : GoString, (∀ y, y ∈ r → y ∈ rest) → ∀ f : GoString → URL,
      (∀ p, (f p).Path = p) → (unescape r).map f = some u → x ∈ rest ∨ 37 ∈ rest := by
    intro r hr f hf hu
    cases hd : unescape r with
    | none => rw [hd] at hu; cases hu
    | some p =>
      rw [hd] at hu
      simp only [Option.map_some', Option.some.injEq] at hu
      subst hu
      rw [hf] at hx
      rcases unescape_mem x r.length r p (Nat.le_refl _) hd hx with h1 | h1
      · exact Or.inl (hr _ h1)
      · exact Or.inr (hr _ h1)
  unfold parseRest at h
  split at h
  · simp only [Option.some.injEq] at h
    subst h
    rw [hurl] at hx
    cases hx
  · split at h
    · cases h
    · split at h
      · exact path_case _
          (fun y hy => List.mem_of_mem_drop ((List.dropWhile_suffix _).subset hy)) _ (fun _ => rfl) h
      · exact path_case _ (fun y hy => hy) _ (fun _ => rfl) h

theorem parseNoFragment_append (base s : GoString) (u0 : URL)
    (h0 : parseNoFragment base = some u0) (hslash : ∃ p, u0.Path = p ++ [47])
    (hq : 63 ∉ base)
    (hs : ∀ b ∈ s, b ≠ 63 ∧ b ≠ 37 ∧ 0x20 ≤ b ∧ b ≠ 0x7f)
    (hs0 : startsWith [47] s = false) (hs58 : 58 ∉ (cutByte 47 s).1) :
    parseNoFragment (base ++ s) = some { u0 with Path := u0.Path ++ s } := by
  obtain ⟨p0, hp0⟩ := hslash
  have hpne : u0.Path ≠ [] := by rw [hp0]; simp
  have h47 : 47 ∈ u0.Path := by rw [hp0]; simp
  have hs63 : 63 ∉ s := fun h => (hs 63 h).1 rfl
  have hs37 : 37 ∉ s := fun h => (hs 37 h).2.1 rfl
  have hsctl : containsCTLByte s = false := by
    unfold containsCTLByte
    rw [List.any_eq_false]
    intro b hb
    have := hs b hb
    simp only [decide_eq_true_eq]
    omega
  unfold parseNoFragment at h0 ⊢
  by_cases hctl : containsCTLByte base = true
  · rw [if_pos hctl] at h0; cases h0
  rw [if_neg hctl] at h0
  have hctl2 : ¬ containsCTLByte (base ++ s) = true := by
    rw [containsCTLByte_append, hsctl]
    simpa using hctl
  rw [if_neg hctl2]
  by_cases hstar : base = [42]
  · rw [if_pos hstar] at h0
    simp only [Option.some.injEq] at h0
    subst h0
    simp at h47
  rw [if_neg hstar] at h0
  cases hg : getScheme base with
  | none => rw [hg] at h0; cases h0
  | some sr =>
    obtain ⟨scheme, rest⟩ := sr
    rw [hg] at h0
    simp only at h0
    have h63 : 63 ∉ rest := fun h => hq (getScheme_rest_mem base scheme rest hg 63 h)
    have hcut : cutByte 63 rest = (rest, []) := cutByte_not_mem 63 rest h63
    rw [hcut] at h0
    simp only at h0
    have hmem := parseRest_path_mem scheme _ u0 rest rfl h0 47 h47
    have hbase : ∃ c ∈ base, isSchemeLetter c = false ∧ isSchemeMark c = false := by
      rcases hmem with h1 | h1
      · exact ⟨47, getScheme_rest_mem base scheme rest hg 47 h1, by decide, by decide⟩
      · exact ⟨37, getScheme_rest_mem base scheme rest hg 37 h1, by decide, by decide⟩
    have hstar2 : ¬ base ++ s = [42] := by
      intro e
      obtain ⟨c, hc, hc1, hc2⟩ := hbase
      have : c ∈ base ++ s := List.mem_append_left _ hc
      rw [e] at this
      have : c = 42 := List.mem_singleton.mp this
      subst this
      cases base with
      | nil => cases hc
      | cons b bs =>
        simp only [List.cons_append, List.cons.injEq, List.append_eq_nil] at e
        exact hstar (by rw [e.1, e.2.1])
    rw [if_neg hstar2]
    have hg2 : getScheme (base ++ s) = some (scheme, rest ++ s) := by
      unfold getScheme at hg ⊢
      rw [getSchemeFrom_append base s base 0 hbase (by simp), hg]
      rfl
    rw [hg2]
    simp only
    have h63s : 63 ∉ rest ++ s := by
      intro h
      rcases List.mem_append.mp h with h | h
      · exact h63 h
      · exact hs63 h
    rw [cutByte_not_mem 63 (rest ++ s) h63s]
    simp only
    have hfq : ∀ l : GoString, 63 ∉ l →
        decide (l.getLast? = some 63 ∧ List.count 63 l = 1) = false := by
      intro l hl
      have : List.count 63 l = 0 := List.count_eq_zero.mpr hl
      simp [this]
    rw [hfq rest h63] at h0
    rw [hfq (rest ++ s) h63s]
    exact parseRest_append scheme _ u0 rest s rfl h0 hpne hs0 hs58 hs37

/-- The URL of a base URL followed by further text: when the base URL has a
path that ends with a slash and holds neither `?` nor `#`, and the text holds
none of `?`, `#`, `%` and no control character, does not start with a slash
and has no colon before its first slash, the text is added to the path as it
is, and nothing else of the URL changes. -/
theorem parseURL_append (base s : GoString) (u0 : URL)
    (h0 : parseURL base = some u0) (hslash : ∃ p, u0.Path = p ++ [47])
    (hq : 63 ∉ base) (hf : 35 ∉ base)
    (hs : ∀ b ∈ s, b ≠ 63 ∧ b ≠ 35 ∧ b ≠ 37 ∧ 0x20 ≤ b ∧ b ≠ 0x7f)
    (hs0 : startsWith [47] s = false) (hs58 : 58 ∉ (cutByte 47 s).1) :
    parseURL (base ++ s) = some { u0 with Path := u0.Path ++ s } := by
  have hs35 : 35 ∉ base ++ s := by
    intro h
    rcases List.mem_append.mp h with h | h
    · exact hf h
    · exact (hs 35 h).2.1 rfl
  unfold parseURL at h0 ⊢
  rw [cutByte_not_mem 35 base hf] at h0
  rw [cutByte_not_mem 35 (base ++ s) hs35]
  simp only at h0 ⊢
  cases hn : parseNoFragment base with
  | none => rw [hn] at h0; cases h0
  | some url =>
    rw [hn] at h0
    simp only [if_true, Option.some.injEq] at h0
    subst h0
    rw [parseNoFragment_append base s url hn hslash hq
      (fun b hb => ⟨(hs b hb).1, (hs b hb).2.2.1, (hs b hb).2.2.2.1, (hs b hb).2.2.2.2⟩) hs0 hs58]
    rfl


/-! ## The round trip of any string -/

theorem toValidUTF8_cons (c : Nat) (cs : List Nat) :
    toValidUTF8 0 (c :: cs) =
      if c < 0x80 then c :: toValidUTF8 0 cs
      else if (decodeRune (c :: cs)).2 = 1 then [0xEF, 0xBF, 0xBD] ++ toValidUTF8 0 cs
      else c :: toValidUTF8 ((decodeRune (c :: cs)).2 - 1) cs := by
  rw [toValidUTF8.eq_def]

theorem toValidUTF8_skip (k : Nat) : ∀ cs : List Nat, k ≤ cs.length →
    toValidUTF8 k cs = cs.take k ++ toValidUTF8 0 (cs.drop k) := by
  induction k with
  | zero => intro cs _; simp
  | succ k ih =>
    intro cs h
    cases cs with
    | nil => simp at h
    | cons c cs =>
      have h' : k ≤ cs.length := by simpa using h
      simp [toValidUTF8, ih cs h']

/-- The scanner reads the string literal `appendString` writes for any string
as that string with its invalid bytes replaced by U+FFFD. -/
theorem scanString_appendString_any : ∀ (n : Nat) (s : List Nat), s.length ≤ n →
    ∀ rest, scanString 0 (appendString 0 true s ++ 34 :: rest) =
      some (toValidUTF8 0 s, rest) := by
  intro n
  induction n with
  | zero =>
    intro s hs rest
    have : s = [] := List.length_eq_zero.mp (Nat.le_zero.mp hs)
    subst this
    rw [appendString.eq_def, scanString.eq_def]
    simp [toValidUTF8]
  | succ n ih =>
    intro s hs rest
    cases s with
    | nil =>
      rw [appendString.eq_def, scanString.eq_def]
      simp [toValidUTF8]
    | cons c cs =>
      have hlen : cs.length ≤ n := by simpa using hs
      rw [appendString_cons, toValidUTF8_cons]
      by_cases hc : c < 0x80
      · rw [if_pos hc, if_pos hc]
        rw [List.append_assoc, scanString_escapeByte c _ hc, ih cs hlen rest]
        rfl
      · rw [if_neg hc, if_neg hc]
        by_cases hd : (decodeRune (c :: cs)).2 = 1
        · rw [if_pos hd, if_pos hd]
          have hx : hex4 102 102 102 100 = some 0xFFFD := by decide
          have := scanString_u_escape 102 102 102 100 0xFFFD
            (appendString 0 true cs ++ 34 :: rest) hx (by decide)
          simp only [List.cons_append, List.nil_append] at this ⊢
          rw [this, ih cs hlen rest]
          rfl
        · rw [if_neg hd, if_neg hd]
          obtain ⟨hk, henc, _, hsur⟩ := encodeRune_decodeRune c cs (by omega) hd
          have hlen2 : (cs.drop ((decodeRune (c :: cs)).2 - 1)).length ≤ n := by
            rw [List.length_drop]; omega
          have hih := ih _ hlen2 rest
          rw [toValidUTF8_skip _ cs hk]
          by_cases hls : (decodeRune (c :: cs)).1 = 0x2028 ∨ (decodeRune (c :: cs)).1 = 0x2029
          · rw [if_pos hls, appendString_drop _ cs hk]
            have hx : hex4 50 48 50 (hexDigit ((decodeRune (c :: cs)).1 % 16)) =
                some (decodeRune (c :: cs)).1 := by
              rcases hls with h | h <;> rw [h] <;> decide
            have := scanString_u_escape 50 48 50 (hexDigit ((decodeRune (c :: cs)).1 % 16))
              (decodeRune (c :: cs)).1
              (appendString 0 true (cs.drop ((decodeRune (c :: cs)).2 - 1)) ++ 34 :: rest)
              hx hsur
            simp only [List.cons_append, List.nil_append] at this ⊢
            rw [this, hih, henc]
            simp [prepend]
          · rw [if_neg hls, appendString_copy _ cs hk]
            simp only [List.cons_append, List.append_assoc]
            rw [scanString_rune c _ (by omega), decodeRune_take c cs _ (by omega) hd,
              scanString_skip _ _ _ (by rw [List.length_take]; omega), hih, henc]
            simp [prepend]

/-- The string that comes back is valid UTF-8. -/
theorem toValidUTF8_valid (s : GoString) : utf8Valid 0 (toValidUTF8 0 s) = true :=
  scanString_valid _ _ (Nat.le_refl _) 0 _ [] (scanString_appendString_any s.length s
    (Nat.le_refl _) [])

/-- A valid UTF-8 string comes back as it is, and no other does. -/
theorem toValidUTF8_eq_iff (s : GoString) : toValidUTF8 0 s = s ↔ utf8Valid 0 s = true := by
  constructor
  · intro h
    have := toValidUTF8_valid s
    rw [h] at this
    exact this
  · intro h
    have h1 := scanString_appendString_any s.length s (Nat.le_refl _) []
    rw [scanString_appendString s.length s (Nat.le_refl _) h []] at h1
    simp only [Option.some.injEq, Prod.mk.injEq, and_true] at h1
    exact h1.symm

theorem parsesTo_string_any (s : GoString) :
    ParsesTo 0 (marshalString s) (.string (toValidUTF8 0 s)) := by
  refine ⟨⟨34, _, rfl, by decide, by decide⟩, ?_⟩
  intro f d rest hf _ _
  cases f with
  | zero => omega
  | succ f =>
    unfold marshalString
    rw [List.cons_append, parseValue.eq_def]
    simp only [List.append_assoc, List.singleton_append]
    simp [scanString_appendString_any s.length s (Nat.le_refl _) rest]

theorem sliceToJSON_map {S : Type} (g : S → JSON) (t : S → S) (xs : Option (List S)) :
    sliceToJSON g (xs.map (fun l => l.map t)) = sliceToJSON (fun x => g (t x)) xs := by
  cases xs with
  | none => rfl
  | some l => simp [sliceToJSON, List.map_map, Function.comp_def]

/-- The scanner reads the encoding of any `Forecast` as the JSON value of the
`Forecast` with its invalid bytes replaced. -/
theorem parsesTo_forecast_any (x : Forecast) :
    ParsesTo 1 (marshalForecast x) x.toValid.toJSON := by
  apply parsesTo_object 0
    [(ForecastField.time.key, fmtInt x.Time, .number (fmtInt x.Time)),
     (ForecastField.byTelemetry.key, fmtInt x.ByTelemetry, .number (fmtInt x.ByTelemetry)),
     (ForecastField.tmId.key, fmtInt x.TmID, .number (fmtInt x.TmID)),
     (ForecastField.routePathId.key, marshalString x.RoutePathID,
       .string (toValidUTF8 0 x.RoutePathID))]
    (by simp)
  intro it hit
  simp only [List.mem_cons, List.mem_singleton, List.not_mem_nil, or_false] at hit
  rcases hit with rfl | rfl | rfl | rfl
  · exact ⟨key_plain_forecast .time, parsesTo_int _⟩
  · exact ⟨key_plain_forecast .byTelemetry, parsesTo_int _⟩
  · exact ⟨key_plain_forecast .tmId, parsesTo_int _⟩
  · exact ⟨key_plain_forecast .routePathId, parsesTo_string_any _⟩

/-- The scanner reads the encoding of any `RoutePath` as the JSON value of the
`RoutePath` with its invalid bytes replaced. -/
theorem parsesTo_routePath_any (x : RoutePath) :
    ParsesTo 3 (marshalRoutePath x) x.toValid.toJSON := by
  have hsl : ParsesTo 2 (marshalSlice marshalForecast x.ExternalForecast)
      (sliceToJSON Forecast.toJSON x.toValid.ExternalForecast) := by
    show ParsesTo 2 _ (sliceToJSON Forecast.toJSON
      (x.ExternalForecast.map (fun xs => xs.map Forecast.toValid)))
    rw [sliceToJSON_map]
    apply parsesTo_slice 1
    cases hx : x.ExternalForecast with
    | none => trivial
    | some xs => exact fun y _ => parsesTo_forecast_any y
  apply parsesTo_object 2
    [(RouteField.id.key, marshalString x.ID, .string (toValidUTF8 0 x.ID)),
     (RouteField.type.key, marshalString x.Type_, .string (toValidUTF8 0 x.Type_)),
     (RouteField.number.key, marshalString x.Number, .string (toValidUTF8 0 x.Number)),
     (RouteField.lastStopName.key, marshalString x.LastStopName,
       .string (toValidUTF8 0 x.LastStopName)),
     (RouteField.color.key, marshalString x.Color, .string (toValidUTF8 0 x.Color)),
     (RouteField.fontColor.key, marshalString x.FontColor, .string (toValidUTF8 0 x.FontColor)),
     (RouteField.externalForecast.key, marshalSlice marshalForecast x.ExternalForecast,
       sliceToJSON Forecast.toJSON x.toValid.ExternalForecast)]
    (by simp)
  intro it hit
  simp only [List.mem_cons, List.mem_singleton, List.not_mem_nil, or_false] at hit
  rcases hit with rfl | rfl | rfl | rfl | rfl | rfl | rfl
  · exact ⟨key_plain_route .id, parsesTo_mono 0 2 (by omega) _ _ (parsesTo_string_any _)⟩
  · exact ⟨key_plain_route .type, parsesTo_mono 0 2 (by omega) _ _ (parsesTo_string_any _)⟩
  · exact ⟨key_plain_route .number, parsesTo_mono 0 2 (by omega) _ _ (parsesTo_string_any _)⟩
  · exact ⟨key_plain_route .lastStopName,
      parsesTo_mono 0 2 (by omega) _ _ (parsesTo_string_any _)⟩
  · exact ⟨key_plain_route .color, parsesTo_mono 0 2 (by omega) _ _ (parsesTo_string_any _)⟩
  · exact ⟨key_plain_route .fontColor, parsesTo_mono 0 2 (by omega) _ _ (parsesTo_string_any _)⟩
  · exact ⟨key_plain_route .externalForecast, hsl⟩

/-- The scanner reads the encoding of any `StopData` as the JSON value of the
`StopData` with its invalid bytes replaced. -/
theorem parsesTo_stopData_any (x : StopData) : ParsesTo 5 (Marshal x) x.toValid.toJSON := by
  have hsl : ParsesTo 4 (marshalSlice marshalRoutePath x.RoutePath)
      (sliceToJSON RoutePath.toJSON x.toValid.RoutePath) := by
    show ParsesTo 4 _ (sliceToJSON RoutePath.toJSON
      (x.RoutePath.map (fun xs => xs.map RoutePath.toValid)))
    rw [sliceToJSON_map]
    apply parsesTo_slice 3
    cases hx : x.RoutePath with
    | none => trivial
    | some xs => exact fun y _ => parsesTo_routePath_any y
  apply parsesTo_object 4
    [(StopField.id.key, marshalString x.ID, .string (toValidUTF8 0 x.ID)),
     (StopField.name.key, marshalString x.Name, .string (toValidUTF8 0 x.Name)),
     (StopField.type.key, marshalString x.Type_, .string (toValidUTF8 0 x.Type_)),
     (StopField.routePath.key, marshalSlice marshalRoutePath x.RoutePath,
       sliceToJSON RoutePath.toJSON x.toValid.RoutePath)]
    (by simp)
  intro it hit
  simp only [List.mem_cons, List.mem_singleton, List.not_mem_nil, or_false] at hit
  rcases hit with rfl | rfl | rfl | rfl
  · exact ⟨key_plain_stop .id, parsesTo_mono 0 4 (by omega) _ _ (parsesTo_string_any _)⟩
  · exact ⟨key_plain_stop .name, parsesTo_mono 0 4 (by omega) _ _ (parsesTo_string_any _)⟩
  · exact ⟨key_plain_stop .type, parsesTo_mono 0 4 (by omega) _ _ (parsesTo_string_any _)⟩
  · exact ⟨key_plain_stop .routePath, hsl⟩

/-- The encoding of any `StopData` is valid JSON, read as the JSON value of
the `StopData` with its invalid bytes replaced. -/
theorem parseJSON_Marshal_any (x : StopData) :
    parseJSON (Marshal x) = some x.toValid.toJSON := by
  have hp := (parsesTo_stopData_any x).2 (2 * (Marshal x).length + 1) 0 []
    (by simp) (by decide) (Or.inl rfl)
  rw [List.append_nil] at hp
  unfold parseJSON
  have hsk : skipSpace (Marshal x) = Marshal x := skipSpace_cons 123 _ (by decide)
  rw [hsk, hp]
  rfl

theorem forecast_toValid_wf (x : Forecast) (h : x.IntsInRange) : x.toValid.WF :=
  ⟨h.1, h.2.1, h.2.2, toValidUTF8_valid _⟩

theorem routePath_toValid_wf (x : RoutePath) (h : x.IntsInRange) : x.toValid.WF := by
  refine ⟨toValidUTF8_valid _, toValidUTF8_valid _, toValidUTF8_valid _, toValidUTF8_valid _,
    toValidUTF8_valid _, toValidUTF8_valid _, ?_⟩
  show sliceAll Forecast.WF (x.ExternalForecast.map (fun xs => xs.map Forecast.toValid))
  unfold RoutePath.IntsInRange at h
  cases hx : x.ExternalForecast with
  | none => trivial
  | some xs =>
    rw [hx] at h
    intro y hy
    obtain ⟨z, hz, rfl⟩ := List.mem_map.mp hy
    exact forecast_toValid_wf z (h z hz)

theorem stopData_toValid_wf (x : StopData) (h : x.IntsInRange) : x.toValid.WF := by
  refine ⟨toValidUTF8_valid _, toValidUTF8_valid _, toValidUTF8_valid _, ?_⟩
  show sliceAll RoutePath.WF (x.RoutePath.map (fun xs => xs.map RoutePath.toValid))
  unfold StopData.IntsInRange at h
  cases hx : x.RoutePath with
  | none => trivial
  | some xs =>
    rw [hx] at h
    intro y hy
    obtain ⟨z, hz, rfl⟩ := List.mem_map.mp hy
    exact routePath_toValid_wf z (h z hz)

/-- Decoding the encoding of any `StopData` gives it back with the invalid
bytes of its strings replaced by U+FFFD. -/
theorem Unmarshal_Marshal_any (x : StopData) (h : x.IntsInRange) :
    Unmarshal (Marshal x) StopData.zero = (x.toValid, none) := by
  unfold Unmarshal
  rw [parseJSON_Marshal_any x]
  exact decodeStopData_carried true x.toValid _
    (carriesStopData_toJSON true x.toValid (stopData_toValid_wf x h))

theorem stopData_wf_intsInRange (x : StopData) (h : x.WF) : x.IntsInRange := by
  obtain ⟨_, _, _, h4⟩ := h
  unfold StopData.IntsInRange
  cases hx : x.RoutePath with
  | none => trivial
  | some xs =>
    rw [hx] at h4
    intro r hr
    obtain ⟨_, _, _, _, _, _, h7⟩ := h4 r hr
    unfold RoutePath.IntsInRange
    cases hy : r.ExternalForecast with
    | none => trivial
    | some ys =>
      rw [hy] at h7
      intro f hf
      exact ⟨(h7 f hf).1, (h7 f hf).2.1, (h7 f hf).2.2.1⟩

/-! ## The claims about decoding -/

set_option maxRecDepth 100000

theorem fixtureStop_wf : fixtureStop.WF := by
  refine ⟨by decide, by decide, by decide, ?_⟩
  intro r hr
  have hr : r = _ := List.mem_singleton.mp hr
  subst hr
  refine ⟨by decide, by decide, by decide, by decide, by decide, by decide, ?_⟩
  intro x hx
  have hx : x = _ := List.mem_singleton.mp hx
  subst hx
  refine ⟨?_, ?_, ?_, by decide⟩ <;> (unfold InRange; decide)

theorem fakeAPIResponse_parses : parseJSON fakeAPIResponse = some fixtureStop.toJSON := by
  rfl

/-- C2: when the server answers 200 with a JSON object that carries the
fields of a `StopData` under the keys of the schema, every key present at
every level, `GetStopData` returns that `StopData` and no error. -/
theorem GetStopData_decodes (w : World) (c : APIClient) (stopID : GoString) (resp : Response)
    (j : JSON) (v : StopData)
    (hreq : w.NewRequest (bytesOf "GET") (stopURL c stopID) = none)
    (hdo : w.Do c.client (buildRequest (stopURL c stopID)) = .ok resp)
    (hs : resp.StatusCode = 200) (hr : resp.ReadErr = none)
    (hj : parseJSON resp.Body = some j) (hc : CarriesStopData true v j) :
    (GetStopData w c stopID).1 = (some v, none) := by
  rw [GetStopData_ok_body w c stopID resp hreq hdo hs hr]
  have : Unmarshal resp.Body StopData.zero = (v, none) := by
    unfold Unmarshal
    rw [hj]
    exact decodeStopData_carried true v j hc
  rw [this]

/-- Witness of C2: the fixture of the tests decodes to the value the test expects. -/
theorem GetStopData_decodes_witness :
    parseJSON fakeAPIResponse = some fixtureStop.toJSON ∧
    CarriesStopData true fixtureStop fixtureStop.toJSON ∧
    (GetStopData (constWorld (okResponse fakeAPIResponse)) NewClient testStopID).1 =
      (some fixtureStop, none) :=
  ⟨fakeAPIResponse_parses, carriesStopData_toJSON true fixtureStop fixtureStop_wf,
    GetStopData_decodes (constWorld (okResponse fakeAPIResponse)) NewClient testStopID
      (okResponse fakeAPIResponse) fixtureStop.toJSON fixtureStop rfl rfl rfl rfl
      fakeAPIResponse_parses (carriesStopData_toJSON true fixtureStop fixtureStop_wf)⟩

/-- C3: when the server answers 200 with a body that is not valid JSON, be it
that `json.Valid` rejects it or that it is not a text of the JSON grammar,
`GetStopData` returns no result and an error whose message is `decode error: `
followed by the text of the syntax error. -/
theorem GetStopData_invalid_json (w : World) (c : APIClient) (stopID : GoString)
    (resp : Response)
    (hreq : w.NewRequest (bytesOf "GET") (stopURL c stopID) = none)
    (hdo : w.Do c.client (buildRequest (stopURL c stopID)) = .ok resp)
    (hs : resp.StatusCode = 200) (hr : resp.ReadErr = none)
    (hv : Valid resp.Body = false ∨ ¬ JsonText resp.Body) :
    (GetStopData w c stopID).1 =
      (none, some ⟨bytesOf "decode error: " ++ w.errorText .syntaxError⟩) := by
  rw [GetStopData_ok_body w c stopID resp hreq hdo hs hr]
  have hv1 : Valid resp.Body = false := by
    rcases hv with h | h
    · exact h
    · cases hV : Valid resp.Body with
      | false => rfl
      | true => exact absurd (valid_sound resp.Body hV) h
  have : Unmarshal resp.Body StopData.zero = (StopData.zero, some .syntaxError) := by
    unfold Unmarshal
    unfold Valid at hv1
    cases h : parseJSON resp.Body with
    | none => rfl
    | some j => rw [h] at hv1; cases hv1
  rw [this]

/-- Witness of C3: the first hundred bytes of the fixture, which `json.Valid`
rejects, and the empty body, which is not a JSON text. -/
theorem GetStopData_invalid_json_witness :
    Valid fakeAPIResponse = true ∧
    Valid (fakeAPIResponse.take 100) = false ∧
    (GetStopData (constWorld (okResponse (fakeAPIResponse.take 100))) NewClient testStopID).1 =
      (none, some ⟨bytesOf "decode error: " ++ bytesOf "json"⟩) ∧
    ¬ JsonText [] ∧
    (GetStopData (constWorld (okResponse [])) NewClient testStopID).1 =
      (none, some ⟨bytesOf "decode error: " ++ bytesOf "json"⟩) :=
  ⟨by decide, by decide,
    GetStopData_invalid_json (constWorld (okResponse (fakeAPIResponse.take 100))) NewClient
      testStopID (okResponse (fakeAPIResponse.take 100)) rfl rfl rfl rfl (Or.inl (by decide)),
    jsonText_nil,
    GetStopData_invalid_json (constWorld (okResponse [])) NewClient testStopID (okResponse [])
      rfl rfl rfl rfl (Or.inr jsonText_nil)⟩

/-- C5, as stated, fails: strings that are not valid UTF-8 do not survive
encoding and decoding. The name `0xFF` comes back as the three bytes of
U+FFFD; and so does each invalid byte elsewhere: a lone continuation byte,
two invalid bytes between letters, a rune cut short, an invalid byte after a
valid two-byte rune, an invalid first byte, at every level of the structure. -/
theorem roundtrip_counterexample :
    Unmarshal (Marshal invalidNameStop) StopData.zero = (replacedNameStop, none) ∧
    replacedNameStop ≠ invalidNameStop ∧
    Unmarshal (Marshal invalidStop) StopData.zero = (invalidStopDecoded, none) ∧
    invalidStopDecoded ≠ invalidStop := by
  refine ⟨?_, ?_, ?_, ?_⟩ <;> decide

theorem invalidStop_intsInRange : invalidStop.IntsInRange := by
  intro r hr
  have hr : r = _ := List.mem_singleton.mp hr
  subst hr
  intro x hx
  have hx : x = _ := List.mem_singleton.mp hx
  subst hx
  refine ⟨?_, ?_, ?_⟩ <;> (unfold InRange; decide)

/-- C5, amended. Decoding the JSON encoding of any `StopData` whose integers
are Go `int`s gives it back with each byte of its strings that is not part of
valid UTF-8 replaced by U+FFFD; this is the value itself exactly when all its
strings are valid UTF-8. And a response that carries a `StopData` under the
keys of the schema, any of them left out, decodes to it, its strings are
valid UTF-8, and encoding it again and decoding gives the same value. -/
theorem Unmarshal_Marshal_roundtrip (v : StopData) :
    (v.IntsInRange →
      Unmarshal (Marshal v) StopData.zero = (v.toValid, none) ∧
      (Unmarshal (Marshal v) StopData.zero = (v, none) ↔ v.WF)) ∧
    (∀ body j, parseJSON body = some j → CarriesStopData false v j →
      Unmarshal body StopData.zero = (v, none) ∧ v.WF ∧
      Unmarshal (Marshal v) StopData.zero = (v, none)) := by
  constructor
  · intro hi
    refine ⟨Unmarshal_Marshal_any v hi, ?_, Unmarshal_Marshal v⟩
    intro h
    rw [Unmarshal_Marshal_any v hi] at h
    have he : v.toValid = v := (Prod.mk.inj h).1
    have hw := stopData_toValid_wf v hi
    rw [he] at hw
    exact hw
  · intro body j hj hc
    have hu : Unmarshal body StopData.zero = (v, none) := by
      unfold Unmarshal
      rw [hj]
      exact decodeStopData_carried false v j hc
    have hw : v.WF := by
      have := Unmarshal_wf body
      rw [hu] at this
      exact this
    exact ⟨hu, hw, Unmarshal_Marshal v hw⟩

/-- Witness of C5: a value with invalid strings at every level, and the
fixture of the tests as response. -/
theorem Unmarshal_Marshal_roundtrip_witness :
    invalidStop.IntsInRange ∧
    Unmarshal (Marshal invalidStop) StopData.zero = (invalidStop.toValid, none) ∧
    invalidStop.toValid = invalidStopDecoded ∧
    Unmarshal fakeAPIResponse StopData.zero = (fixtureStop, none) ∧
    fixtureStop.WF ∧
    Unmarshal (Marshal fixtureStop) StopData.zero = (fixtureStop, none) :=
  ⟨invalidStop_intsInRange,
    ((Unmarshal_Marshal_roundtrip invalidStop).1 invalidStop_intsInRange).1,
    by decide,
    ((Unmarshal_Marshal_roundtrip fixtureStop).2 fakeAPIResponse fixtureStop.toJSON
      fakeAPIResponse_parses (carriesStopData_toJSON false fixtureStop fixtureStop_wf)).1,
    ((Unmarshal_Marshal_roundtrip fixtureStop).2 fakeAPIResponse fixtureStop.toJSON
      fakeAPIResponse_parses (carriesStopData_toJSON false fixtureStop fixtureStop_wf)).2.1,
    ((Unmarshal_Marshal_roundtrip fixtureStop).2 fakeAPIResponse fixtureStop.toJSON
      fakeAPIResponse_parses (carriesStopData_toJSON false fixtureStop fixtureStop_wf)).2.2⟩

theorem sparseBody_parses : parseJSON sparseBody = some sparseJSON := by
  rfl

theorem sparseJSON_carries : CarriesStopData false sparseStop sparseJSON := by
  refine ⟨_, rfl, Or.inl ⟨rfl, rfl, rfl⟩, Or.inr ⟨_, rfl, rfl⟩, Or.inl ⟨rfl, rfl, rfl⟩,
    Or.inr ⟨_, rfl, Or.inr ⟨_, _, rfl, rfl, List.Forall₂.cons ?_ List.Forall₂.nil⟩⟩⟩
  refine ⟨_, rfl, Or.inl ⟨rfl, rfl, rfl⟩, Or.inl ⟨rfl, rfl, rfl⟩, Or.inr ⟨_, rfl, rfl⟩,
    Or.inl ⟨rfl, rfl, rfl⟩, Or.inl ⟨rfl, rfl, rfl⟩, Or.inl ⟨rfl, rfl, rfl⟩,
    Or.inr ⟨_, rfl, Or.inr ⟨_, _, rfl, rfl, List.Forall₂.cons ?_ List.Forall₂.nil⟩⟩⟩
  exact ⟨_, rfl, Or.inl ⟨rfl, rfl, rfl⟩, Or.inl ⟨rfl, rfl, rfl⟩,
    Or.inr ⟨_, rfl, ⟨_, rfl, by decide⟩⟩, Or.inl ⟨rfl, rfl, rfl⟩⟩

/-- C6: when the server answers 200 with a JSON object in which any of the
keys of the schema are missing, at any level, `GetStopData` succeeds, and the
result has the value carried for each key present and the zero value for each
key missing. -/
theorem GetStopData_missing_keys (w : World) (c : APIClient) (stopID : GoString)
    (resp : Response) (j : JSON) (v : StopData)
    (hreq : w.NewRequest (bytesOf "GET") (stopURL c stopID) = none)
    (hdo : w.Do c.client (buildRequest (stopURL c stopID)) = .ok resp)
    (hs : resp.StatusCode = 200) (hr : resp.ReadErr = none)
    (hj : parseJSON resp.Body = some j) (hc : CarriesStopData false v j) :
    (GetStopData w c stopID).1 = (some v, none) := by
  rw [GetStopData_ok_body w c stopID resp hreq hdo hs hr]
  have : Unmarshal resp.Body StopData.zero = (v, none) := by
    unfold Unmarshal
    rw [hj]
    exact decodeStopData_carried false v j hc
  rw [this]

/-- Witness of C6: a body with keys missing at every level, and the body `{}`. -/
theorem GetStopData_missing_keys_witness :
    (GetStopData (constWorld (okResponse sparseBody)) NewClient testStopID).1 =
      (some sparseStop, none) ∧
    (GetStopData (constWorld (okResponse (bytesOf "\x7b\x7d"))) NewClient testStopID).1 =
      (some StopData.zero, none) :=
  ⟨GetStopData_missing_keys (constWorld (okResponse sparseBody)) NewClient testStopID
      (okResponse sparseBody) sparseJSON sparseStop rfl rfl rfl rfl sparseBody_parses
      sparseJSON_carries,
    GetStopData_missing_keys (constWorld (okResponse (bytesOf "\x7b\x7d"))) NewClient testStopID
      (okResponse (bytesOf "\x7b\x7d")) (.object []) StopData.zero rfl rfl rfl rfl rfl
      ⟨_, rfl, Or.inl ⟨rfl, rfl, rfl⟩, Or.inl ⟨rfl, rfl, rfl⟩, Or.inl ⟨rfl, rfl, rfl⟩,
        Or.inl ⟨rfl, rfl, rfl⟩⟩⟩

/-- C7, as stated, fails: `null` is valid JSON, is not an object and is of the
JSON type of no field, yet `GetStopData` succeeds on the body `null`, with
the zero `StopData`, and on bodies in which `null` stands under the key of a
string, of a slice or of an integer, or as an element of an array. -/
theorem GetStopData_null_counterexample :
    parseJSON (bytesOf "null") = some .null ∧
    (GetStopData (constWorld (okResponse (bytesOf "null"))) NewClient testStopID).1 =
      (some StopData.zero, none) ∧
    (GetStopData (constWorld (okResponse (bytesOf "\x7b\"name\":null\x7d"))) NewClient
        testStopID).1 = (some StopData.zero, none) ∧
    (GetStopData (constWorld (okResponse (bytesOf "\x7b\"routePath\":null\x7d"))) NewClient
        testStopID).1 = (some StopData.zero, none) ∧
    (GetStopData (constWorld (okResponse (bytesOf "\x7b\"routePath\":[null]\x7d"))) NewClient
        testStopID).1 =
      (some { StopData.zero with RoutePath := some [RoutePath.zero] }, none) ∧
    (GetStopData
        (constWorld (okResponse (bytesOf
          "\x7b\"routePath\":[\x7b\"externalForecast\":[\x7b\"time\":null\x7d]\x7d]\x7d")))
        NewClient testStopID).1 =
      (some { StopData.zero with
        RoutePath := some [{ RoutePath.zero with ExternalForecast := some [Forecast.zero] }] },
        none) := by
  refine ⟨rfl, ?_, ?_, ?_, ?_, ?_⟩ <;> decide

theorem mismatchJSON_mismatch : MismatchStopData mismatchJSON := by
  refine Or.inr ⟨_, (bytesOf "routePath", .array [mismatchRouteJSON]), .routePath, rfl,
    List.mem_singleton.mpr rfl, by decide,
    Or.inr ⟨rfl, _, mismatchRouteJSON, rfl, List.mem_singleton.mpr rfl, ?_⟩⟩
  refine Or.inr ⟨_, (bytesOf "externalForecast", .array [mismatchForecastJSON]),
    .externalForecast, rfl, List.mem_singleton.mpr rfl, by decide,
    Or.inr ⟨rfl, _, mismatchForecastJSON, rfl, List.mem_singleton.mpr rfl, ?_⟩⟩
  exact Or.inr ⟨_, (bytesOf "time", .string (bytesOf "soon")), .time, rfl,
    List.mem_singleton.mpr rfl, by decide, rfl⟩

theorem nullBody_parses : parseJSON nullBody = some nullJSON := by
  rfl

theorem nullJSON_nullable : NullableStopData nullStop nullJSON := by
  have hf0 : NullableForecast Forecast.zero .null := Or.inl ⟨rfl, rfl⟩
  have hf1 : NullableForecast { Forecast.zero with TmID := 5 }
      (.object [(bytesOf "time", .null), (bytesOf "tmId", .number (bytesOf "5")),
                (bytesOf "routePathId", .null)]) :=
    Or.inr ⟨_, rfl, Or.inr ⟨_, rfl, Or.inl ⟨rfl, rfl⟩⟩, Or.inl ⟨rfl, rfl, rfl⟩,
      Or.inr ⟨_, rfl, Or.inr ⟨_, rfl, by decide⟩⟩, Or.inr ⟨_, rfl, Or.inl ⟨rfl, rfl⟩⟩⟩
  have hr0 : NullableRoutePath RoutePath.zero .null := Or.inl ⟨rfl, rfl⟩
  have hr1 : NullableRoutePath
      { RoutePath.zero with
        ExternalForecast := some [Forecast.zero, { Forecast.zero with TmID := 5 }] }
      (.object
        [(bytesOf "number", .null),
         (bytesOf "externalForecast", .array
           [.null,
            .object [(bytesOf "time", .null), (bytesOf "tmId", .number (bytesOf "5")),
                     (bytesOf "routePathId", .null)]])]) :=
    Or.inr ⟨_, rfl, Or.inl ⟨rfl, rfl, rfl⟩, Or.inl ⟨rfl, rfl, rfl⟩,
      Or.inr ⟨_, rfl, Or.inl ⟨rfl, rfl⟩⟩, Or.inl ⟨rfl, rfl, rfl⟩, Or.inl ⟨rfl, rfl, rfl⟩,
      Or.inl ⟨rfl, rfl, rfl⟩,
      Or.inr ⟨_, rfl, Or.inr ⟨_, _, rfl, rfl,
        List.Forall₂.cons hf0 (List.Forall₂.cons hf1 List.Forall₂.nil)⟩⟩⟩
  have hr2 : NullableRoutePath RoutePath.zero (.object [(bytesOf "externalForecast", .null)]) :=
    Or.inr ⟨_, rfl, Or.inl ⟨rfl, rfl, rfl⟩, Or.inl ⟨rfl, rfl, rfl⟩, Or.inl ⟨rfl, rfl, rfl⟩,
      Or.inl ⟨rfl, rfl, rfl⟩, Or.inl ⟨rfl, rfl, rfl⟩, Or.inl ⟨rfl, rfl, rfl⟩,
      Or.inr ⟨_, rfl, Or.inl ⟨rfl, rfl⟩⟩⟩
  exact Or.inr ⟨_, rfl, Or.inr ⟨_, rfl, Or.inl ⟨rfl, rfl⟩⟩, Or.inr ⟨_, rfl, Or.inr rfl⟩,
    Or.inl ⟨rfl, rfl, rfl⟩,
    Or.inr ⟨_, rfl, Or.inr ⟨_, _, rfl, rfl,
      List.Forall₂.cons hr0 (List.Forall₂.cons hr1 (List.Forall₂.cons hr2 List.Forall₂.nil))⟩⟩⟩

/-- C7, amended. When the server answers 200 with valid JSON whose top-level
value is an array, a string, a number or a boolean, or in which a key of the
schema holds a value that is not `null` and not of the JSON type of its
field, at any level, `GetStopData` returns no result and a decode error. The
value `null` is no mismatch: on valid JSON in which `null` stands as the
whole value, under keys of the schema or as elements of `routePath` or
`externalForecast`, `GetStopData` succeeds, and what is `null` is zero in the
result. -/
theorem GetStopData_mismatch (w : World) (c : APIClient) (stopID : GoString)
    (resp : Response) (j : JSON)
    (hreq : w.NewRequest (bytesOf "GET") (stopURL c stopID) = none)
    (hdo : w.Do c.client (buildRequest (stopURL c stopID)) = .ok resp)
    (hs : resp.StatusCode = 200) (hr : resp.ReadErr = none)
    (hj : parseJSON resp.Body = some j) :
    (MismatchStopData j →
      ∃ e, (GetStopData w c stopID).1 =
        (none, some ⟨bytesOf "decode error: " ++ w.errorText e⟩)) ∧
    (∀ v, NullableStopData v j → (GetStopData w c stopID).1 = (some v, none)) := by
  rw [GetStopData_ok_body w c stopID resp hreq hdo hs hr]
  have hu : Unmarshal resp.Body StopData.zero = decodeStopData StopData.zero j := by
    unfold Unmarshal
    rw [hj]
  rw [hu]
  constructor
  · intro hm
    have h := decodeStopData_mismatch j hm StopData.zero
    cases he : (decodeStopData StopData.zero j).2 with
    | none => rw [he] at h; cases h
    | some e => exact ⟨e, rfl⟩
  · intro v hv
    rw [decodeStopData_nullable v j hv]

/-- Witness of C7: a forecast whose `time` is a string and a top-level array,
which fail, and a body with `null` at every level, which decodes. -/
theorem GetStopData_mismatch_witness :
    MismatchStopData mismatchJSON ∧
    (GetStopData (constWorld (okResponse mismatchBody)) NewClient testStopID).1 =
      (none, some ⟨bytesOf "decode error: " ++ bytesOf "json"⟩) ∧
    (GetStopData (constWorld (okResponse (bytesOf "[]"))) NewClient testStopID).1 =
      (none, some ⟨bytesOf "decode error: " ++ bytesOf "json"⟩) ∧
    NullableStopData nullStop nullJSON ∧
    (GetStopData (constWorld (okResponse nullBody)) NewClient testStopID).1 =
      (some nullStop, none) :=
  ⟨mismatchJSON_mismatch,
    ((GetStopData_mismatch (constWorld (okResponse mismatchBody)) NewClient testStopID
      (okResponse mismatchBody) mismatchJSON rfl rfl rfl rfl rfl).1 mismatchJSON_mismatch).elim
      (fun _ h => h),
    ((GetStopData_mismatch (constWorld (okResponse (bytesOf "[]"))) NewClient testStopID
      (okResponse (bytesOf "[]")) (.array []) rfl rfl rfl rfl rfl).1 (Or.inl rfl)).elim
      (fun _ h => h),
    nullJSON_nullable,
    (GetStopData_mismatch (constWorld (okResponse nullBody)) NewClient testStopID
      (okResponse nullBody) nullJSON rfl rfl rfl rfl nullBody_parses).2 nullStop
      nullJSON_nullable⟩

/-! ## The claim about the URL of the request -/

/-- C4, as stated, fails. With the base URL `http://h` the request for the
stop `x` goes to the host `hstop_v2` and the path `/x`. With the default base
URL, the stop `a?b` is asked for under the path `/v8.2/stop_v2/a` (and the
query `b`), the stop `a#b` under the same path (and the fragment `b`), and the
stop `%41` under the path `/v8.2/stop_v2/A`. With the base URLs `http://h/?k=/`
and `http://h/#/` the path of the request for the stop `x` is `/`. And for the
stop that is a line feed, which `http.NewRequest` refuses, no request is
issued at all. -/
theorem GetStopData_url_counterexample :
    ((GetStopData (constWorld (okResponse [])) (SetBaseURL NewClient (bytesOf "http://h"))
        (bytesOf "x")).2.sent.map (fun r => r.URL.map (fun u => (u.Authority, u.Path))) =
      [some (bytesOf "hstop_v2", bytesOf "/x")]) ∧
    ¬ ((bytesOf "/stop_v2/" ++ bytesOf "x") <:+ bytesOf "/x") ∧
    ((GetStopData (constWorld (okResponse [])) NewClient
        (bytesOf "a?b")).2.sent.map (fun r => r.URL.map (fun u => (u.Path, u.RawQuery))) =
      [some (bytesOf "/v8.2/stop_v2/a", bytesOf "b")]) ∧
    ¬ ((bytesOf "/stop_v2/" ++ bytesOf "a?b") <:+ bytesOf "/v8.2/stop_v2/a") ∧
    ((GetStopData (constWorld (okResponse [])) NewClient
        (bytesOf "a#b")).2.sent.map (fun r => r.URL.map (fun u => (u.Path, u.Fragment))) =
      [some (bytesOf "/v8.2/stop_v2/a", bytesOf "b")]) ∧
    ¬ ((bytesOf "/stop_v2/" ++ bytesOf "a#b") <:+ bytesOf "/v8.2/stop_v2/a") ∧
    ((GetStopData (constWorld (okResponse [])) NewClient
        (bytesOf "%41")).2.sent.map (fun r => r.URL.map (fun u => u.Path)) =
      [some (bytesOf "/v8.2/stop_v2/A")]) ∧
    ¬ ((bytesOf "/stop_v2/" ++ bytesOf "%41") <:+ bytesOf "/v8.2/stop_v2/A") ∧
    ((GetStopData (constWorld (okResponse [])) (SetBaseURL NewClient (bytesOf "http://h/?k=/"))
        (bytesOf "x")).2.sent.map (fun r => r.URL.map (fun u => (u.Path, u.RawQuery))) =
      [some (bytesOf "/", bytesOf "k=/stop_v2/x")]) ∧
    ((GetStopData (constWorld (okResponse [])) (SetBaseURL NewClient (bytesOf "http://h/#/"))
        (bytesOf "x")).2.sent.map (fun r => r.URL.map (fun u => (u.Path, u.Fragment))) =
      [some (bytesOf "/", bytesOf "/stop_v2/x")]) ∧
    ¬ ((bytesOf "/stop_v2/" ++ bytesOf "x") <:+ bytesOf "/") ∧
    parseURL (bytesOf "https://api.moscowapp.mos.ru/v8.2/stop_v2/\n") = none ∧
    (GetStopData
        (refusingWorld (bytesOf "https://api.moscowapp.mos.ru/v8.2/stop_v2/\n")
          ⟨bytesOf ("parse \"https://api.moscowapp.mos.ru/v8.2/stop_v2/\\n\": " ++
            "net/url: invalid control character in URL")⟩ (okResponse []))
        NewClient (bytesOf "\n")) =
      ((none, some ⟨bytesOf ("failed to create request: " ++
          "parse \"https://api.moscowapp.mos.ru/v8.2/stop_v2/\\n\": " ++
          "net/url: invalid control character in URL")⟩), ⟨[], []⟩) := by
  refine ⟨?_, ?_, ?_, ?_, ?_, ?_, ?_, ?_, ?_, ?_, ?_, ?_, ?_⟩ <;> decide

/-- C4, amended. `GetStopData` asks `http.NewRequest` for the URL string
`baseURL ++ "stop_v2/" ++ stopID`, the identifier taken as it is, and issues
one request, built from that string, when it is accepted, and none otherwise.
The request is a GET request and its URL is that string as `url.Parse` reads
it. When the base URL holds neither `?` nor `#` and has a path that ends with
a slash, and the identifier holds none of `?`, `#`, `%` and no control
character, the path of the request is the path of the base URL followed by
`stop_v2/` and the identifier: it ends with `/stop_v2/` followed by the
identifier exactly, and the rest of the URL is that of the base URL. -/
theorem GetStopData_url (w : World) (c : APIClient) (stopID : GoString) :
    ((GetStopData w c stopID).2.sent =
      if w.NewRequest (bytesOf "GET") (c.baseURL ++ bytesOf "stop_v2/" ++ stopID) = none then
        [buildRequest (c.baseURL ++ bytesOf "stop_v2/" ++ stopID)]
      else []) ∧
    (∀ r ∈ (GetStopData w c stopID).2.sent,
      r.Method = bytesOf "GET" ∧
      r.URL = parseURL (c.baseURL ++ bytesOf "stop_v2/" ++ stopID)) ∧
    (∀ u0, parseURL c.baseURL = some u0 → (∃ p, u0.Path = p ++ bytesOf "/") →
      63 ∉ c.baseURL → 35 ∉ c.baseURL →
      (∀ b ∈ stopID, b ≠ 63 ∧ b ≠ 35 ∧ b ≠ 37 ∧ 0x20 ≤ b ∧ b ≠ 0x7f) →
      ∀ r ∈ (GetStopData w c stopID).2.sent,
        r.URL = some { u0 with Path := u0.Path ++ bytesOf "stop_v2/" ++ stopID } ∧
        (bytesOf "/stop_v2/" ++ stopID) <:+ (u0.Path ++ bytesOf "stop_v2/" ++ stopID)) := by
  have hsent : (GetStopData w c stopID).2.sent =
      if w.NewRequest (bytesOf "GET") (c.baseURL ++ bytesOf "stop_v2/" ++ stopID) = none then
        [buildRequest (c.baseURL ++ bytesOf "stop_v2/" ++ stopID)]
      else [] := by
    rw [GetStopData_effects, doRequest_sent, List.append_assoc]
  have hreq : ∀ r ∈ (GetStopData w c stopID).2.sent,
      r = buildRequest (c.baseURL ++ bytesOf "stop_v2/" ++ stopID) := by
    intro r hr
    rw [hsent] at hr
    split at hr
    · exact List.mem_singleton.mp hr
    · cases hr
  refine ⟨hsent, ?_, ?_⟩
  · intro r hr
    rw [hreq r hr]
    exact ⟨rfl, rfl⟩
  · intro u0 h0 hslash hq hf hid r hr
    have hkey : bytesOf "stop_v2/" = [115, 116, 111, 112, 95, 118, 50, 47] := by decide
    have hs : ∀ b ∈ bytesOf "stop_v2/" ++ stopID,
        b ≠ 63 ∧ b ≠ 35 ∧ b ≠ 37 ∧ 0x20 ≤ b ∧ b ≠ 0x7f := by
      intro b hb
      rcases List.mem_append.mp hb with hb | hb
      · have hall : ∀ x ∈ bytesOf "stop_v2/",
            x ≠ 63 ∧ x ≠ 35 ∧ x ≠ 37 ∧ 0x20 ≤ x ∧ x ≠ 0x7f := by decide
        exact hall b hb
      · exact hid b hb
    have hs0 : startsWith [47] (bytesOf "stop_v2/" ++ stopID) = false := by
      rw [hkey]; rfl
    have hs58 : 58 ∉ (cutByte 47 (bytesOf "stop_v2/" ++ stopID)).1 := by
      rw [hkey]
      simp [cutByte]
    have hparse := parseURL_append c.baseURL (bytesOf "stop_v2/" ++ stopID) u0 h0 hslash hq hf
      hs hs0 hs58
    rw [← List.append_assoc] at hparse
    refine ⟨?_, ?_⟩
    · rw [hreq r hr]
      show parseURL (c.baseURL ++ bytesOf "stop_v2/" ++ stopID) = _
      rw [hparse, List.append_assoc]
    · obtain ⟨p, hp⟩ := hslash
      refine ⟨p, ?_⟩
      rw [hp]
      have h1 : bytesOf "/stop_v2/" = bytesOf "/" ++ bytesOf "stop_v2/" := by decide
      rw [h1]
      simp

/-- Witness of C4: the default client and the stop of the tests; the request
goes to the path `/v8.2/stop_v2/` followed by the identifier. -/
theorem GetStopData_url_witness :
    parseURL NewClient.baseURL =
      some { Scheme := bytesOf "https", Opaque := [], Authority := bytesOf "api.moscowapp.mos.ru",
             Path := bytesOf "/v8.2/", ForceQuery := false, RawQuery := [], Fragment := [] } ∧
    (GetStopData (constWorld (okResponse [])) NewClient testStopID).2.sent.map (fun r => r.URL) =
      [some { Scheme := bytesOf "https", Opaque := [], Authority := bytesOf "api.moscowapp.mos.ru",
              Path := bytesOf "/v8.2/stop_v2/9d7f733a-d532-4fca-a922-4c978b79681c",
              ForceQuery := false, RawQuery := [], Fragment := [] }] ∧
    buildRequest (NewClient.baseURL ++ bytesOf "stop_v2/" ++ testStopID) ∈
      (GetStopData (constWorld (okResponse [])) NewClient testStopID).2.sent ∧
    ((buildRequest (NewClient.baseURL ++ bytesOf "stop_v2/" ++ testStopID)).URL =
      some { Scheme := bytesOf "https", Opaque := [],
             Authority := bytesOf "api.moscowapp.mos.ru",
             Path := bytesOf "/v8.2/" ++ bytesOf "stop_v2/" ++ testStopID,
             ForceQuery := false, RawQuery := [], Fragment := [] } ∧
      (bytesOf "/stop_v2/" ++ testStopID) <:+
        (bytesOf "/v8.2/" ++ bytesOf "stop_v2/" ++ testStopID)) :=
  ⟨by decide, by decide, by decide,
    (GetStopData_url (constWorld (okResponse [])) NewClient testStopID).2.2
      { Scheme := bytesOf "https", Opaque := [], Authority := bytesOf "api.moscowapp.mos.ru",
        Path := bytesOf "/v8.2/", ForceQuery := false, RawQuery := [], Fragment := [] }
      (by decide) ⟨bytesOf "/v8.2", by decide⟩ (by decide) (by decide) (by decide)
      (buildRequest (NewClient.baseURL ++ bytesOf "stop_v2/" ++ testStopID)) (by decide)⟩

end MgtApi
